import Mathlib

/-!
# Flotilla: request context, handler chain and response writer

A shallow embedding of `r.go`, `ctx_functions.go`, `response_writer.go` and the
registry of `env.go` of thrisp/flotilla, followed by theorems about the embedded
functions.

Conventions of the embedding

* Go `int8` values are integers kept in `[-128, 127]` by `int8`; Go `int`
  values are unbounded integers.
* A Go `map` is a finite association list with unique keys (`AList`); its
  iteration order is the order of the entries, which stands for the order Go
  happens to choose.
* `interface{}` values are the type `Value`; the nil interface is `Value.nil`.
* Pointer receivers become explicit state passing: a method returns the
  updated receiver.
* A runtime panic is an explicit result (`none`, or `Outcome.panic`).
* The handler chain calls itself recursively through the handlers, so the
  chain executor takes a fuel argument; `Outcome.outOfFuel` is distinct from
  every result of the program.
-/

namespace Flotilla

/-! ## Machine integers -/

/-- Conversion of an integer to Go `int8`, by two's complement wrap-around. -/
def int8 (i : Int) : Int := (i + 128) % 256 - 128

/-- The constant `AbortIndex = math.MaxInt8 / 2` of `r.go`. -/
def AbortIndex : Int := 127 / 2

/-- The constant `NotWritten = -1` of `response_writer.go`. -/
def NotWritten : Int := -1

/-! ## The underlying response stream (`http.ResponseWriter`) -/

/-- One call received by the underlying stream, or by the writer it is wrapped
in, in arrival order. -/
inductive Event where
  /-- The call `WriteHeader(code)` reached the underlying stream. -/
  | header (code : Int)
  /-- The call `Write(data)` reached the underlying stream. -/
  | body (data : List UInt8)
  /-- The session store was released onto the writer. -/
  | released
  /-- The call `Flush()` reached the underlying stream. -/
  | flushed
  /-- The call `Hijack()` reached the underlying stream. -/
  | hijacked
  deriving DecidableEq, Repr

/-- The underlying `http.ResponseWriter`: the header fields set so far, the
calls it has received, and its answer `(n, err)` to a `Write`, which may depend
on everything it has received before. -/
structure HttpStream where
  header : List (String × String)
  events : List Event
  respond : List Event → List UInt8 → Int × Option String
  /-- What `Hijack()` returns when the stream implements `http.Hijacker`: the
  connection and the buffer, by a number each, and the error; `none` when the
  stream does not implement the interface. -/
  hijacker : Option (Option Nat × Option Nat × Option String) := none
  /-- Whether the stream implements `http.Flusher`. -/
  flusher : Bool := false
  /-- The channel, by a number, that `CloseNotify()` returns when the stream
  implements `http.CloseNotifier`; `none` when it does not. -/
  closeNotifier : Option Nat := none

/-- The call `WriteHeader(code)` on the underlying stream. -/
def HttpStream.WriteHeader (s : HttpStream) (code : Int) : HttpStream :=
  { s with events := s.events ++ [Event.header code] }

/-- The call `Write(data)` on the underlying stream, with its answer. -/
def HttpStream.Write (s : HttpStream) (data : List UInt8) :
    HttpStream × Int × Option String :=
  ({ s with events := s.events ++ [Event.body data] }, s.respond s.events data)

/-- The contract of `io.Writer`: `Write` returns `0 <= n <= len(p)`. -/
def HttpStream.Conforming (s : HttpStream) : Prop :=
  ∀ (h : List Event) (d : List UInt8), 0 ≤ (s.respond h d).1 ∧ (s.respond h d).1 ≤ d.length

/-- The number of header transmissions the underlying stream has received. -/
def headerCount (evs : List Event) : Nat :=
  (evs.filter (fun e => match e with | Event.header _ => true | _ => false)).length

/-! ## `response_writer.go` -/

/-- The struct `responseWriter`: the embedded stream, the recorded status and
the byte count (`NotWritten` until the header is transmitted). -/
structure responseWriter where
  ResponseWriter : HttpStream
  status : Int
  size : Int

namespace responseWriter

/-- Method `func (w *responseWriter) reset(writer http.ResponseWriter)`. -/
def reset (w : responseWriter) (writer : HttpStream) : responseWriter :=
  { w with ResponseWriter := writer, status := 200, size := NotWritten }

/-- Method `func (w *responseWriter) Status() int`. -/
def Status (w : responseWriter) : Int := w.status

/-- Method `func (w *responseWriter) Written() bool`. -/
def Written (w : responseWriter) : Bool := w.size != NotWritten

/-- Method `func (w *responseWriter) WriteHeader(code int)`. The warning printed with
`log.Println` when the header is already written goes to the process log only
and changes nothing in the writer, so both branches of the inner test yield the
same state. -/
def WriteHeader (w : responseWriter) (code : Int) : responseWriter :=
  if code > 0 then
    let w1 := { w with status := code }
    if w1.Written then w1 else w1
  else w

/-- Method `func (w *responseWriter) WriteHeaderNow()`. -/
def WriteHeaderNow (w : responseWriter) : responseWriter :=
  if !w.Written then
    let w1 := { w with size := 0 }
    { w1 with ResponseWriter := w1.ResponseWriter.WriteHeader w1.status }
  else w

/-- Method `func (w *responseWriter) Write(data []byte) (n int, err error)`. -/
def Write (w : responseWriter) (data : List UInt8) : responseWriter × Int × Option String :=
  let w1 := w.WriteHeaderNow
  let (s, n, err) := w1.ResponseWriter.Write data
  ({ w1 with ResponseWriter := s, size := w1.size + n }, n, err)

/-- Method `func (w *responseWriter) Hijack() (net.Conn, *bufio.ReadWriter, error)`. -/
def Hijack (w : responseWriter) : responseWriter × Option Nat × Option Nat × Option String :=
  match w.ResponseWriter.hijacker with
  | none => (w, none, none, some "the ResponseWriter doesn't support the Hijacker interface")
  | some res =>
    ({ w with ResponseWriter :=
        { w.ResponseWriter with events := w.ResponseWriter.events ++ [Event.hijacked] } }, res)

/-- Method `func (w *responseWriter) CloseNotify() <-chan bool`. The type
assertion `w.ResponseWriter.(http.CloseNotifier)` has no `ok` result, so it
panics (`none`) when the stream does not implement the interface. -/
def CloseNotify (w : responseWriter) : Option Nat :=
  match w.ResponseWriter.closeNotifier with
  | none => none
  | some ch => some ch

/-- Method `func (w *responseWriter) Flush()`. -/
def Flush (w : responseWriter) : responseWriter :=
  if w.ResponseWriter.flusher then
    { w with ResponseWriter :=
        { w.ResponseWriter with events := w.ResponseWriter.events ++ [Event.flushed] } }
  else w

end responseWriter

/-- One call on the wrapped writer. -/
inductive WriterCall where
  | WriteHeader (code : Int)
  | WriteHeaderNow
  | Write (data : List UInt8)
  deriving DecidableEq, Repr

/-- Whether a call forces the header out: `WriteHeaderNow` and `Write` do. -/
def WriterCall.transmits : WriterCall → Bool
  | WriterCall.WriteHeader _ => false
  | WriterCall.WriteHeaderNow => true
  | WriterCall.Write _ => true

/-- The writer after one call. -/
def WriterCall.apply (w : responseWriter) : WriterCall → responseWriter
  | WriterCall.WriteHeader code => w.WriteHeader code
  | WriterCall.WriteHeaderNow => w.WriteHeaderNow
  | WriterCall.Write data => (w.Write data).1

/-- The writer after a sequence of calls, first call first. -/
def runCalls (w : responseWriter) (calls : List WriterCall) : responseWriter :=
  calls.foldl WriterCall.apply w

/-- A sequence of `Write` calls: the final writer and the returned counts. -/
def writeAll (w : responseWriter) : List (List UInt8) → responseWriter × List Int
  | [] => (w, [])
  | d :: ds =>
    let r := w.Write d
    let rest := writeAll r.1 ds
    (rest.1, r.2.1 :: rest.2)

/-! ## Values, sessions, requests -/

/-- Go `error` values, by their message; `none` is the nil error. -/
abbrev Error := String

/-- A Go `map[string]string`. -/
abbrev StrMap := AList (fun _ : String => String)

/-- The `interface{}` values that the functions embedded here store and read. -/
inductive Value where
  | nil
  | str (s : String)
  | int (i : Int)
  | strmap (m : StrMap)
  deriving DecidableEq

/-- The type assertion `fl.(map[string]string)`. -/
def Value.asStrMap : Value → Option StrMap
  | Value.strmap m => some m
  | _ => none

/-- The type `ctxdata`, a `map[string]interface{}`. -/
abbrev ctxdata := AList (fun _ : String => Value)

/-- Modelled from the spec: the session store, declared in the package
`flotilla/session`, which is not among the sources. The spec gives it
`Get(key) -> value|nil`, `Set(key, value)`, `Delete(key)` and
`Release(writer)`; it is a key/value store. -/
structure SessionStore where
  values : AList (fun _ : String => Value)
  deriving DecidableEq

/-- Modelled from the spec: `Get(key) -> value|nil`. -/
def SessionStore.Get (s : SessionStore) (key : String) : Value :=
  (s.values.lookup key).getD Value.nil

/-- Modelled from the spec: `Set(key, value)`. -/
def SessionStore.Set (s : SessionStore) (key : String) (v : Value) : SessionStore :=
  { values := s.values.insert key v }

/-- Modelled from the spec: `Delete(key)`. -/
def SessionStore.Delete (s : SessionStore) (key : String) : SessionStore :=
  { values := s.values.erase key }

/-- Modelled from the spec: `Release(writer)`, the flush of the session for this
response; the writer records that it happened. -/
def SessionStore.SessionRelease (_s : SessionStore) (w : responseWriter) : responseWriter :=
  { w with ResponseWriter :=
      { w.ResponseWriter with events := w.ResponseWriter.events ++ [Event.released] } }

/-- Modelled from the spec: the helper `existsIn(k, categories)` is not among
the sources; it tells whether the string occurs in the list. -/
def existsIn (s : String) (l : List String) : Bool := l.contains s

/-- The fields of `*http.Request` that the context reads. -/
structure Request where
  Method : String
  Host : String
  URL : String
  deriving DecidableEq, Repr

/-! ## The collaborators of the context -/

/-- The fields of `*url.URL` that `urlfor` touches. -/
structure URL where
  Host : String
  Path : String
  deriving DecidableEq, Repr

/-- Modelled from the spec: `Route` is declared in a file that is not among the
sources. The spec gives it `Route.Url(params...) -> (URL | nil, error)`; `urlfor`
discards the error, so the URL alone is kept, `none` for nil. -/
structure Route where
  Url : List String → Option URL

/-- The type of one result of a Go function, as far as registration looks at
it: the type `error`, or another type by its name. -/
inductive GoType where
  | error
  | other (name : String)
  deriving DecidableEq, Repr

/-- A Go value handed to the registry as `interface{}`, by what reflection sees
of it: a function with the types of its results, or a value that is not a
function. -/
inductive GoValue where
  | func (name : String) (out : List GoType)
  | plain (text : String)
  deriving DecidableEq, Repr

/-- The type `ctxfuncs`, a `map[string]reflect.Value`. -/
abbrev ctxfuncs := AList (fun _ : String => GoValue)

/-- The struct `tdata`, the data envelope sent to the template. -/
structure tdata where
  Data : Value
  Request : Request
  Session : Option SessionStore
  RData : Option ctxdata
  Flash : Option StrMap
  deriving DecidableEq

/-- One call received by the template renderer: the calls the response writer
had received when the renderer was invoked, the template name and the
envelope. -/
structure RenderCall where
  seen : List Event
  name : String
  td : tdata
  deriving DecidableEq

/-- The `Templator` of the environment, an interface whose implementation is
outside the sources: the calls of `Render` it has received, and what a call
does to the writer and returns. -/
structure Templator where
  calls : List RenderCall
  respond : responseWriter → String → tdata → responseWriter × Option Error

/-- The call `Templator.Render(w, name, td)`. -/
def Templator.Render (t : Templator) (w : responseWriter) (name : String) (td : tdata) :
    Templator × responseWriter × Option Error :=
  ({ t with calls := t.calls ++ [{ seen := w.ResponseWriter.events, name := name, td := td }] },
    t.respond w name td)

/-- Modelled from the spec: the session manager is declared in the package
`flotilla/session`, which is not among the sources; `SessionStart(w, req)`
gives the session store of the request and may write to the response. -/
structure SessionManager where
  SessionStart : responseWriter → Request → SessionStore × responseWriter

/-- Modelled from the spec: the declaration of the items of `Store` is not
among the sources; `env.go` reads of an item its `value` and its flag
`defaultvalue`, set for the items that `adddefault` stores. -/
structure StoreItem where
  value : String
  defaultvalue : Bool
  deriving DecidableEq, Repr

/-- Modelled from the spec: the declaration of `Store` is not among the
sources; `env.go` makes it with `make(Store)`, ranges over it and indexes it by
name, so it is a map from names to items. -/
abbrev Store := AList (fun _ : String => StoreItem)

/-- The struct `Env` of `env.go`, with the fields that the functions embedded
here read or write. -/
structure Env where
  Store : Store
  SessionManager : SessionManager
  Templator : Templator
  ctxfunctions : AList (fun _ : String => GoValue)

/-- Modelled from the spec: the declaration of `App` is not among the sources.
The context reaches through it the environment (`App.Env`, whose fields
`Templator` and `SessionManager` are read as `App.Templator` and
`App.SessionManager`) and the route table `App.Routes()`. -/
structure App where
  Env : Env
  routes : AList (fun _ : String => Route)

/-- Modelled from the spec: `Routes() -> mapping(name -> Route)`. -/
def App.Routes (a : App) : AList (fun _ : String => Route) := a.routes

/-! ## `r.go`: the context `R` and its handler chain -/

/-- What a handler does with the context it receives, call by call. -/
inductive Op where
  /-- The handler calls `r.Next()`. -/
  | next
  /-- The handler calls `r.Abort(code)`. -/
  | abort (code : Int)
  /-- The handler calls `r.Set(key, item)`. -/
  | set (key : String) (item : Value)
  deriving DecidableEq

/-- A `HandlerFunc`, by the sequence of context calls its body performs. -/
abbrev HandlerFunc := List Op

/-- The `*engine.Ctx` an `R` points to. The engine is another module; its
context shares the response writer with the `R` (`r.rw = c.RW`) and has no
reference to the `R`, so its `Abort` is a function of that writer. `getR` reads
its fields `Request`, `RW` and `Params` (key and value of each route
parameter). -/
structure EngineCtx where
  Request : Request
  RW : responseWriter
  Params : List (String × String)
  Abort : responseWriter → Int → responseWriter

/-- The struct `R`. `RSession` and `RData` are `none` when nil. -/
structure R where
  index : Int
  handlers : List HandlerFunc
  rw : responseWriter
  Request : Request
  RSession : Option SessionStore
  RData : Option ctxdata
  RFunc : ctxfuncs
  App : App
  Ctx : EngineCtx

/-- Method `func (r *R) release()`. -/
def R.release (r : R) : R :=
  match r.RSession with
  | some s => { r with rw := s.SessionRelease r.rw }
  | none => r

/-- Method `func (r *R) Abort(code int)`: the body is `r.Ctx.Abort(code)`. -/
def R.Abort (r : R) (code : Int) : R :=
  { r with rw := r.Ctx.Abort r.rw code }

/-- Method `func (r *R) Set(key string, item interface{})`: the body is
`r.RData[key] = item`, which panics (`none`) on a nil map. -/
def R.Set (r : R) (key : String) (item : Value) : Option R :=
  match r.RData with
  | none => none
  | some d => some { r with RData := some (d.insert key item) }

/-- The state of a chain execution: the context, and two records kept for
stating properties: the indices with which a handler was selected, and the
successive values assigned to `r.index`, both oldest first. -/
structure Exec where
  r : R
  executed : List Int
  positions : List Int

/-- The assignment of a new value to `r.index`. -/
def Exec.setIndex (st : Exec) (i : Int) : Exec :=
  { st with r := { st.r with index := i }, positions := st.positions ++ [i] }

/-- The result of running part of the chain. -/
inductive Outcome where
  /-- The code returned normally in this state. -/
  | done (st : Exec)
  /-- The code raised a runtime panic in this state. -/
  | panic (st : Exec)
  /-- The fuel given was not enough to reach a result. -/
  | outOfFuel

/-- The slice access `r.handlers[r.index]`: `none` when out of range. -/
def handlerAt (hs : List HandlerFunc) (i : Int) : Option HandlerFunc :=
  if i < 0 then none else hs[i.toNat]?

mutual
/-- Method `func (r *R) Next()`: `r.index++`, `s := int8(len(r.handlers))`, then
the loop. -/
def Next : Nat → Exec → Outcome
  | 0, _ => Outcome.outOfFuel
  | fuel + 1, st =>
    let st1 := st.setIndex (int8 (st.r.index + 1))
    let s := int8 st1.r.handlers.length
    forLoop fuel s st1
/-- The loop `for ; r.index < s; r.index++ { r.handlers[r.index](r) }` of
`Next`, from its condition. -/
def forLoop : Nat → Int → Exec → Outcome
  | 0, _, _ => Outcome.outOfFuel
  | fuel + 1, s, st =>
    if st.r.index < s then
      match handlerAt st.r.handlers st.r.index with
      | none => Outcome.panic st
      | some h =>
        match invoke fuel h { st with executed := st.executed ++ [st.r.index] } with
        | Outcome.done st1 => forLoop fuel s (st1.setIndex (int8 (st1.r.index + 1)))
        | Outcome.panic st1 => Outcome.panic st1
        | Outcome.outOfFuel => Outcome.outOfFuel
    else Outcome.done st
/-- The body of a handler, run on the context. -/
def invoke : Nat → HandlerFunc → Exec → Outcome
  | 0, _, _ => Outcome.outOfFuel
  | _ + 1, [], st => Outcome.done st
  | fuel + 1, Op.next :: ops, st =>
    match Next fuel st with
    | Outcome.done st1 => invoke fuel ops st1
    | Outcome.panic st1 => Outcome.panic st1
    | Outcome.outOfFuel => Outcome.outOfFuel
  | fuel + 1, Op.abort code :: ops, st =>
    invoke fuel ops { st with r := st.r.Abort code }
  | fuel + 1, Op.set key item :: ops, st =>
    match st.r.Set key item with
    | none => Outcome.panic st
    | some r1 => invoke fuel ops { st with r := r1 }
end

/-- A chain execution starts with empty records. -/
def Exec.start (r : R) : Exec := { r := r, executed := [], positions := [] }

/-- The function `redirect` of `r.go`. The call `http.Redirect` of the standard
library is the argument `httpRedirect`. -/
def redirect (httpRedirect : responseWriter → Request → String → Int → responseWriter)
    (r : R) (code : Int) (location : String) : R × Option Error :=
  if code ≥ 300 ∧ code ≤ 308 then
    let r1 := { r with rw := httpRedirect r.rw r.Request location code }
    let r2 := r1.release
    ({ r2 with rw := r2.rw.WriteHeaderNow }, none)
  else
    (r, some ("Cannot send a redirect with status code " ++ toString code))

/-- The function `flash` of `r.go`. A nil `RSession` panics (`none`). -/
def flash (r : R) (category message : String) : Option (R × Option Error) :=
  match r.RSession with
  | none => none
  | some sess =>
    let fl := sess.Get "_flashes"
    if fl ≠ Value.nil then
      match fl.asStrMap with
      | some fls =>
        let fls1 := fls.insert category message
        some ({ r with RSession := some (sess.Set "_flashes" (Value.strmap fls1)) }, none)
      | none => some (r, none)
    else
      let fl1 := (∅ : StrMap).insert category message
      some ({ r with RSession := some (sess.Set "_flashes" (Value.strmap fl1)) }, none)

/-- One iteration of the loop `for k, v := range fls` of `flashmessages`: an
entry whose key is in `categories` is appended to `ret` and deleted from `fls`. -/
def popStep (categories : List String) (acc : List String × StrMap)
    (kv : Sigma (fun _ : String => String)) : List String × StrMap :=
  if existsIn kv.1 categories then (acc.1 ++ [kv.2], acc.2.erase kv.1) else acc

/-- The loop `for k, v := range fls` of `flashmessages`, over every entry of
the map, from an empty `ret`. -/
def popFlashes (categories : List String) (fls : StrMap) : List String × StrMap :=
  fls.entries.foldl (popStep categories) ([], fls)

/-- The function `flashmessages` of `r.go`. A nil `RSession` panics (`none`). -/
def flashmessages (r : R) (categories : List String) : Option (R × List String) :=
  match r.RSession with
  | none => none
  | some sess =>
    let fl := sess.Get "_flashes"
    if fl ≠ Value.nil then
      match fl.asStrMap with
      | some fls =>
        let res := popFlashes categories fls
        some ({ r with RSession := some (sess.Set "_flashes" (Value.strmap res.2)) }, res.1)
      | none => some (r, [])
    else some (r, [])

/-- Modelled from the spec: the helper `valueFunc(fn)` is not among the
sources; it gives the reflection handle of a behaviour, which stands for the
same Go value. -/
def valueFunc (fn : GoValue) : GoValue := fn

/-- Method `func (r *R) ctxFunctions(e *Env) ctxfuncs`: a new map with
`valueFunc(v)` under every key of `e.ctxfunctions`. -/
def R.ctxFunctions (e : Env) : ctxfuncs :=
  e.ctxfunctions.entries.foldl (fun m kv => m.insert kv.1 (valueFunc kv.2)) ∅

/-- Method `func (r *R) start()`. -/
def R.start (r : R) : R :=
  let res := r.App.Env.SessionManager.SessionStart r.rw r.Request
  { r with RSession := some res.1, rw := res.2 }

/-- Method `func (a *App) tmpR(w engine.ResponseWriter, req *http.Request) *R`.
The composite literal sets `App` and `Request` and leaves the other fields at
their zero value: position 0, no handler, nil `RSession`, nil `RData`. The
field `Ctx` stays the nil pointer; what a call through it does is the
engine's, so it is the argument `nilCtx`. -/
def tmpR (a : App) (w : responseWriter) (req : Request) (nilCtx : EngineCtx) : R :=
  let r : R :=
    { index := 0, handlers := [], rw := w, Request := req, RSession := none, RData := none,
      RFunc := ∅, App := a, Ctx := nilCtx }
  let r1 := { r with RFunc := R.ctxFunctions a.Env }
  r1.start

/-- The loop `for k, _ := range r.RData { delete(r.RData, k) }` of `putR`. -/
def clearData (d : ctxdata) : ctxdata :=
  d.keys.foldl (fun m k => m.erase k) d

/-- Method `func (rt Route) putR(r *R)`: the context as it is handed to
`rt.cache.Put`. -/
def putR (r : R) : R :=
  let r1 := { r with index := -1 }
  let r2 := { r1 with RSession := none }
  { r2 with RData := r2.RData.map clearData }

/-- Method `func (rt Route) getR(c *engine.Ctx) *R`, on the context `pooled`
that `rt.cache.Get()` returns. The assignment `r.RData[p.Key] = p.Value` panics
(`none`) on a nil map. -/
def getR (pooled : R) (c : EngineCtx) : Option R :=
  let r1 := { pooled with Request := c.Request }
  let r2 := { r1 with rw := c.RW }
  let r3 := { r2 with Ctx := c }
  match c.Params.foldlM (fun (r : R) p => r.Set p.1 (Value.str p.2)) r3 with
  | none => none
  | some r4 => some r4.start

/-- Method `func (r *R) Copy() *R`. -/
def R.Copy (r : R) : R :=
  let rcopy := r
  let rcopy1 := { rcopy with index := AbortIndex }
  { rcopy1 with handlers := [] }

/-- Method `func (r *R) Get(key string) (interface{}, error)`. Reading a nil
map finds nothing. -/
def R.Get (r : R) (key : String) : Value × Option Error :=
  match r.RData.bind (fun d => d.lookup key) with
  | some item => (item, none)
  | none => (Value.nil, some ("Key " ++ key ++ " does not exist."))

/-- Method `func (r *R) MustGet(key string) interface{}`: `log.Panicf` is the
result `none`. -/
def R.MustGet (r : R) (key : String) : Option Value :=
  let res := r.Get key
  if res.2 ≠ none ∨ res.1 = Value.nil then none else some res.1

/-- The function `allflashmessages` of `r.go`. A nil `RSession` panics
(`none`); the nil map is the result `none`. -/
def allflashmessages (r : R) : Option (R × Option StrMap) :=
  match r.RSession with
  | none => none
  | some sess =>
    let fl := sess.Get "_flashes"
    let ret : Option StrMap := if fl ≠ Value.nil then fl.asStrMap else none
    some ({ r with RSession := some (sess.Delete "_flashes") }, ret)

/-- The function `templatedata` of `r.go`. The field `Session` refers to the
store that `allflashmessages` changes, so it shows the store after the call. -/
def templatedata (r : R) (data : Value) : Option (R × tdata) :=
  match allflashmessages r with
  | none => none
  | some (r1, fl) =>
    some (r1, { Data := data, Request := r.Request, Session := r1.RSession, RData := r.RData,
                Flash := fl })

/-- The function `rendertemplate` of `r.go`. -/
def rendertemplate (r : R) (name : String) (data : Value) : Option (R × Option Error) :=
  match templatedata r data with
  | none => none
  | some (r1, td) =>
    let r2 := r1.release
    let res := r2.App.Env.Templator.Render r2.rw name td
    let env1 := { r2.App.Env with Templator := res.1 }
    let app1 := { r2.App with Env := env1 }
    some ({ r2 with rw := res.2.1, App := app1 }, res.2.2)

/-- The text that `%s` gives for a `[]string`. -/
def sliceText (params : List String) : String := "[" ++ " ".intercalate params ++ "]"

/-- The error of `urlfor`: the helper `newError` is not among the sources; the
error carries the formatted message. -/
def urlforError (route : String) (params : List String) : Error :=
  "unable to get url for route " ++ route ++ " with params " ++ sliceText params

/-- The function `urlfor` of `r.go`. The method `String()` of the standard
library is the argument `urlString`. -/
def urlfor (urlString : URL → String) (r : R) (route : String) (external : Bool)
    (params : List String) : String × Option Error :=
  match (r.App.Routes.lookup route).bind (fun rt => rt.Url params) with
  | some routeurl =>
    let routeurl1 := if external then { routeurl with Host := r.Request.Host } else routeurl
    (urlString routeurl1, none)
  | none => ("", some (urlforError route params))

/-- An argument handed to `Call` as `interface{}`, among those that the
wrappers embedded here pass: the context itself (of type `C`, which is `*R` in
`r.go` and `*Ctx` in `ctx_functions.go`), a string, a boolean, a slice of
strings. -/
inductive Arg (C : Type) where
  | ctx (c : C)
  | string (s : String)
  | bool (b : Bool)
  | strings (l : List String)

/-- The value of the function `urlfor`, as reflection sees it: a function with
the results `(string, error)`. -/
def urlforValue : GoValue := GoValue.func "urlfor" [GoType.other "string", GoType.error]

/-- The table `builtinctxfuncs` of `r.go`, each function with the types of its
results. -/
def builtinctxfuncs : AList (fun _ : String => GoValue) :=
  ((((((((∅ : AList (fun _ : String => GoValue)).insert "allflashmessages"
    (GoValue.func "allflashmessages" [GoType.other "map[string]string"])).insert "flash"
    (GoValue.func "flash" [GoType.error])).insert "flashmessages"
    (GoValue.func "flashmessages" [GoType.other "[]string"])).insert "redirect"
    (GoValue.func "redirect" [GoType.error])).insert "rendertemplate"
    (GoValue.func "rendertemplate" [GoType.error])).insert "servedata"
    (GoValue.func "servedata" [GoType.error])).insert "servefile"
    (GoValue.func "servefile" [GoType.error])).insert "urlfor" urlforValue

/-- The type assertion `ret.(string)`, which panics (`none`) on a value of
another type. -/
def Value.asString : Value → Option String
  | Value.str s => some s
  | _ => none

/-- Modelled from the spec: the function `call(fn, args...)` is not among the
sources. The spec has `Invoke(handle, args...) -> (value, error)` with the
arguments supplied positionally and the results of the behaviour propagating
unchanged. `fn` is what the map access gave, `none` for a name that is not
bound. The function that the value `urlforValue` stands for is the argument
`builtin`, the `urlfor` of the file. What `call` gives for any other handle
(another function value, a value that is not a function, the handle of a name
that is not bound) or for other arguments is the argument `other`. -/
def call {C : Type} (builtin : C → String → Bool → List String → String × Option Error)
    (other : Option GoValue → List (Arg C) → Value × Option Error)
    (fn : Option GoValue) (args : List (Arg C)) : Value × Option Error :=
  if fn = some urlforValue then
    match args with
    | [Arg.ctx c, Arg.string route, Arg.bool external, Arg.strings params] =>
      let res := builtin c route external params
      (Value.str res.1, res.2)
    | _ => other fn args
  else other fn args

/-- Method `func (r *R) Call(name string, args ...interface{}) (interface{},
error)`: the body is `call(r.RFunc[name], args...)`. -/
def R.Call (urlString : URL → String)
    (other : Option GoValue → List (Arg R) → Value × Option Error)
    (r : R) (name : String) (args : List (Arg R)) : Value × Option Error :=
  call (urlfor urlString) other (r.RFunc.lookup name) args

/-- Method `func (r *R) UrlRelative(route string, params ...string) string`:
`r.Call("urlfor", r, route, false, params)`, then the text of the error when
there is one, else `ret.(string)`; `none` is the panic of that assertion. -/
def R.UrlRelative (urlString : URL → String)
    (other : Option GoValue → List (Arg R) → Value × Option Error)
    (r : R) (route : String) (params : List String) : Option String :=
  let res := r.Call urlString other "urlfor"
    [Arg.ctx r, Arg.string route, Arg.bool false, Arg.strings params]
  match res.2 with
  | some err => some err
  | none => res.1.asString

/-- Method `func (r *R) UrlExternal(route string, params ...string) string`. -/
def R.UrlExternal (urlString : URL → String)
    (other : Option GoValue → List (Arg R) → Value × Option Error)
    (r : R) (route : String) (params : List String) : Option String :=
  let res := r.Call urlString other "urlfor"
    [Arg.ctx r, Arg.string route, Arg.bool true, Arg.strings params]
  match res.2 with
  | some err => some err
  | none => res.1.asString

/-! ## `ctx_functions.go`: the context `Ctx` -/

/-- A finalization step handed to `ctx.Push`, by the closure it wraps. -/
inductive Deferred where
  /-- The closure of `redirect`: `http.Redirect` then `WriteHeaderNow`. -/
  | redirect (location : String) (code : Int)
  /-- The closure of `rendertemplate`: `c.App.Templator.Render(c.rw, name, td)`. -/
  | render (name : String) (td : tdata)
  deriving DecidableEq

/-- Modelled from the spec: the declaration of `Ctx` is not among the sources.
The spec gives the request context a chain position, a response writer, the
request, a session store, a per-request store, the application, the
finalization steps pushed by behaviours, and a function table from names to
callable handles. -/
structure Ctx where
  index : Int
  rw : responseWriter
  Request : Request
  Session : SessionStore
  Data : Option ctxdata
  App : App
  deferred : List Deferred
  functionTable : ctxfuncs

/-- Modelled from the spec: `ctx.Push(fn)` is not among the sources; a
behaviour pushes a finalization step, which is run after the chain. -/
def Ctx.Push (ctx : Ctx) (fn : Deferred) : Ctx :=
  { ctx with deferred := ctx.deferred ++ [fn] }

/-- The function `defaultabort` of `ctx_functions.go`. -/
def defaultabort (c : Ctx) (code : Int) : Ctx × Option Error :=
  if code ≥ 0 then ({ c with rw := c.rw.WriteHeader code }, none)
  else (c, none)

/-- Method `func (ctx *Ctx) Abort(code int)`: the body is
`ctx.Call("abort", ctx, code)`, and the table `builtinctxfuncs` binds `"abort"`
to `defaultabort`. -/
def Ctx.Abort (ctx : Ctx) (code : Int) : Ctx :=
  (defaultabort ctx code).1

/-- The function `redirect` of `ctx_functions.go`. -/
def Ctx.redirect (ctx : Ctx) (code : Int) (location : String) : Ctx × Option Error :=
  if code ≥ 300 ∧ code ≤ 308 then
    (ctx.Push (Deferred.redirect location code), none)
  else
    (ctx, some ("Cannot send a redirect with status code " ++ toString code))

/-- The function `flash` of `ctx_functions.go`. -/
def Ctx.flash (ctx : Ctx) (category message : String) : Ctx × Option Error :=
  let fl := ctx.Session.Get "_flashes"
  if fl ≠ Value.nil then
    match fl.asStrMap with
    | some fls =>
      let fls1 := fls.insert category message
      ({ ctx with Session := ctx.Session.Set "_flashes" (Value.strmap fls1) }, none)
    | none => (ctx, none)
  else
    let fl1 := (∅ : StrMap).insert category message
    ({ ctx with Session := ctx.Session.Set "_flashes" (Value.strmap fl1) }, none)

/-- The function `flashmessages` of `ctx_functions.go`. -/
def Ctx.flashmessages (ctx : Ctx) (categories : List String) : Ctx × List String :=
  let fl := ctx.Session.Get "_flashes"
  if fl ≠ Value.nil then
    match fl.asStrMap with
    | some fls =>
      let res := popFlashes categories fls
      ({ ctx with Session := ctx.Session.Set "_flashes" (Value.strmap res.2) }, res.1)
    | none => (ctx, [])
  else (ctx, [])

/-- The function `allflashmessages` of `ctx_functions.go`. -/
def Ctx.allflashmessages (ctx : Ctx) : Ctx × Option StrMap :=
  let fl := ctx.Session.Get "_flashes"
  let ret : Option StrMap := if fl ≠ Value.nil then fl.asStrMap else none
  ({ ctx with Session := ctx.Session.Delete "_flashes" }, ret)

/-- Modelled from the spec: `TemplateData(ctx, data)` is not among the sources;
the spec has it assemble the envelope from the payload, the request, the
session, the per-request store and the pending flash messages, which it
removes from the session. -/
def Ctx.TemplateData (ctx : Ctx) (data : Value) : Ctx × tdata :=
  let res := ctx.allflashmessages
  (res.1, { Data := data, Request := ctx.Request, Session := some res.1.Session,
            RData := ctx.Data, Flash := res.2 })

/-- The function `rendertemplate` of `ctx_functions.go`. -/
def Ctx.rendertemplate (ctx : Ctx) (name : String) (data : Value) : Ctx × Option Error :=
  let res := ctx.TemplateData data
  (res.1.Push (Deferred.render name res.2), none)

/-- The function `urlfor` of `ctx_functions.go`. -/
def Ctx.urlfor (urlString : URL → String) (ctx : Ctx) (route : String) (external : Bool)
    (params : List String) : String × Option Error :=
  match (ctx.App.Routes.lookup route).bind (fun rt => rt.Url params) with
  | some routeurl =>
    let routeurl1 := if external then { routeurl with Host := ctx.Request.Host } else routeurl
    (urlString routeurl1, none)
  | none => ("", some (urlforError route params))

/-- Modelled from the spec: `ctx.Call(name, args...)` is not among the sources;
the wrappers resolve the name in the function table of the context and invoke
what it is bound to, as `R.Call` does. -/
def Ctx.Call (urlString : URL → String)
    (other : Option GoValue → List (Arg Ctx) → Value × Option Error)
    (ctx : Ctx) (name : String) (args : List (Arg Ctx)) : Value × Option Error :=
  call (Ctx.urlfor urlString) other (ctx.functionTable.lookup name) args

/-- Method `func (ctx *Ctx) UrlRelative(route string, params ...string) string`:
`ctx.Call("urlfor", ctx, route, false, params)`, then the text of the error
when there is one, else `ret.(string)`; `none` is the panic of that
assertion. -/
def Ctx.UrlRelative (urlString : URL → String)
    (other : Option GoValue → List (Arg Ctx) → Value × Option Error)
    (ctx : Ctx) (route : String) (params : List String) : Option String :=
  let res := ctx.Call urlString other "urlfor"
    [Arg.ctx ctx, Arg.string route, Arg.bool false, Arg.strings params]
  match res.2 with
  | some err => some err
  | none => res.1.asString

/-- Method `func (ctx *Ctx) UrlExternal(route string, params ...string) string`. -/
def Ctx.UrlExternal (urlString : URL → String)
    (other : Option GoValue → List (Arg Ctx) → Value × Option Error)
    (ctx : Ctx) (route : String) (params : List String) : Option String :=
  let res := ctx.Call urlString other "urlfor"
    [Arg.ctx ctx, Arg.string route, Arg.bool true, Arg.strings params]
  match res.2 with
  | some err => some err
  | none => res.1.asString

/-! ## `env.go`: the registry of context functions -/

/-- Modelled from the spec: the helper `goodFunc(typ)` is not among the
sources; a behaviour is accepted when it is a function whose result is exactly
one value, or one value plus one error-typed value. -/
def goodFunc (typ : GoValue) : Bool :=
  match typ with
  | GoValue.func _ [_] => true
  | GoValue.func _ [_, GoType.error] => true
  | _ => false

/-- The text that `%q` gives for a behaviour. -/
def GoValue.text : GoValue → String
  | GoValue.func name _ => name
  | GoValue.plain text => text

/-- The function `validCtxFunc` of `ctx_functions.go`, which `env.go` calls as
`validctxfunc`. -/
def validCtxFunc (fn : GoValue) : Option Error :=
  if goodFunc (valueFunc fn) then none
  else some ("function \"" ++ fn.text ++ "\" is not a valid Flotilla Ctx function; must be a "
    ++ "function and return must be 1 value, or 1 value and 1 error value")

/-- Method `func (env *Env) AddCtxFunc(name string, fn interface{}) error`. -/
def Env.AddCtxFunc (env : Env) (name : String) (fn : GoValue) : Env × Option Error :=
  let err := validCtxFunc fn
  if err = none then
    ({ env with ctxfunctions := env.ctxfunctions.insert name fn }, none)
  else (env, err)

/-- The loop of `AddCtxFuncs` over the entries of `fns`, which returns at the
first error. -/
def Env.addEach (env : Env) : List (Sigma (fun _ : String => GoValue)) → Env × Option Error
  | [] => (env, none)
  | kv :: rest =>
    let res := env.AddCtxFunc kv.1 kv.2
    if res.2 ≠ none then res else Env.addEach res.1 rest

/-- Method `func (env *Env) AddCtxFuncs(fns map[string]interface{}) error`. -/
def Env.AddCtxFuncs (env : Env) (fns : AList (fun _ : String => GoValue)) : Env × Option Error :=
  env.addEach fns.entries

/-- One iteration of the loop `for k, v := range s` of `MergeStore`: an item
that is not a default value is stored under its key when the store of the
environment has no item under that key. -/
def mergeStep (store : Store) (kv : Sigma (fun _ : String => StoreItem)) : Store :=
  if !kv.2.defaultvalue then
    if (store.lookup kv.1).isSome then store else store.insert kv.1 kv.2
  else store

/-- Method `func (env *Env) MergeStore(s Store)`. -/
def Env.MergeStore (env : Env) (s : Flotilla.Store) : Env :=
  { env with Store := s.entries.foldl mergeStep env.Store }

/-! ## Concrete objects used to evaluate the definitions -/

/-- A stream that accepts every byte it is given. -/
def okStream : HttpStream :=
  { header := [], events := [], respond := fun _ d => ((d.length : Int), none) }

/-- A freshly reset writer on `okStream`. -/
def freshWriter : responseWriter :=
  responseWriter.reset { ResponseWriter := okStream, status := 0, size := 0 } okStream

/-- An engine context whose `Abort` is the abort behaviour of
`ctx_functions.go`: write the status when `code >= 0`. -/
def engineCtx : EngineCtx :=
  { Request := { Method := "GET", Host := "example.org", URL := "/" },
    RW := freshWriter, Params := [],
    Abort := fun w code => if code ≥ 0 then w.WriteHeader code else w }

/-- A request. -/
def sampleRequest : Request := { Method := "GET", Host := "example.org", URL := "/" }

/-- A template renderer that has received no call and writes nothing. -/
def quietTemplator : Templator := { calls := [], respond := fun w _ _ => (w, none) }

/-- An application with no route, whose sessions start empty. -/
def sampleApp : App :=
  { Env := { Store := ∅,
             SessionManager := { SessionStart := fun w _ => ({ values := ∅ }, w) },
             Templator := quietTemplator, ctxfunctions := ∅ },
    routes := ∅ }

/-- A context as `newR` and `getR` leave it: position `-1`, an allocated
`RData`, a started session. -/
def sampleR (hs : List HandlerFunc) : R :=
  { index := -1, handlers := hs, rw := freshWriter, Request := sampleRequest,
    RSession := some { values := ∅ }, RData := some ∅, RFunc := ∅, App := sampleApp,
    Ctx := engineCtx }

/-- A `Ctx` with a fresh writer and an empty session. -/
def sampleCtx : Ctx :=
  { index := -1, rw := freshWriter, Request := sampleRequest,
    Session := { values := ∅ }, Data := some ∅, App := sampleApp, deferred := [],
    functionTable := ∅ }

/-- A flash mapping with two categories. -/
def sampleFlashes : StrMap := ((∅ : StrMap).insert "info" "a").insert "warn" "b"

/-- A session that holds `sampleFlashes` under the flash key. -/
def flashSession : SessionStore :=
  ({ values := ∅ } : SessionStore).Set "_flashes" (Value.strmap sampleFlashes)

/-- The context `sampleR` on the session `flashSession`. -/
def flashR (hs : List HandlerFunc) : R := { sampleR hs with RSession := some flashSession }

/-- The context `sampleCtx` on the session `flashSession`. -/
def flashCtx : Ctx := { sampleCtx with Session := flashSession }

/-- A fuelled run reaches the outcome `o`: `o` is a result of the program, and
every sufficiently large fuel gives it. -/
def Reaches (run : Nat → Outcome) (o : Outcome) : Prop :=
  o ≠ Outcome.outOfFuel ∧ ∃ f, ∀ g, f ≤ g → run g = o

/-- A handler body calls `Next()` exactly once. -/
def callsNextOnce (h : HandlerFunc) : Prop := h.count Op.next = 1

/-- The indices `i, i+1, ..., i+k-1` as integers. -/
def indexRange (i k : Nat) : List Int := (List.range' i k).map Int.ofNat

/-- What is observed of an outcome: whether it returned normally, the final
chain position and the handlers selected. -/
def Outcome.summary : Outcome → Option (Bool × Int × List Int)
  | Outcome.done st => some (true, st.r.index, st.executed)
  | Outcome.panic st => some (false, st.r.index, st.executed)
  | Outcome.outOfFuel => none

/-- A chain of three handlers that each call `Next()` once, among other calls. -/
def chain3 : List HandlerFunc :=
  [[Op.set "user" (Value.str "ann"), Op.next], [Op.next, Op.abort 500], [Op.next]]

/-- A chain of 64 handlers that each call `Next()` and do nothing else. -/
def chain64 : List HandlerFunc := List.replicate 64 [Op.next]

/-- A chain of three handlers in which only the first calls `Next()`; the
second neither calls `Next()` nor aborts. -/
def quietChain : List HandlerFunc :=
  [[Op.next], [Op.set "seen" (Value.int 1)], [Op.set "last" (Value.int 1)]]

/-- A chain of two handlers in which the first aborts with status 500. -/
def abortChain : List HandlerFunc :=
  [[Op.abort 500], [Op.set "reached" (Value.int 1)]]

/-- The context `sampleR` with the value `ann` stored under `user`. -/
def storeR : R :=
  { sampleR [] with RData := some ((∅ : ctxdata).insert "user" (Value.str "ann")) }

/-- The store that holds the route parameters and nothing else: each
parameter is stored under its key, a later one replacing an earlier one. -/
def paramStore (params : List (String × String)) : ctxdata :=
  params.foldl (fun m p => m.insert p.1 (Value.str p.2)) ∅

/-- An engine context with two route parameters. -/
def paramCtx : EngineCtx := { engineCtx with Params := [("id", "7"), ("tab", "log")] }

/-- The stream `s` as an implementation without the optional interfaces
`http.Hijacker`, `http.Flusher` and `http.CloseNotifier`. -/
def HttpStream.bare (s : HttpStream) : HttpStream :=
  { s with hijacker := none, flusher := false, closeNotifier := none }

/-- The stream `s` as an implementation of the three optional interfaces: its
`Hijack()` returns `res` and its `CloseNotify()` returns the channel `ch`. -/
def HttpStream.capable (s : HttpStream) (res : Option Nat × Option Nat × Option String)
    (ch : Nat) : HttpStream :=
  { s with hijacker := some res, flusher := true, closeNotifier := some ch }

/-- The acceptance rule of the spec for a behaviour: a function value whose
result is exactly one value, or one value plus one error-typed value. -/
def acceptedShape (fn : GoValue) : Prop :=
  ∃ name out, fn = GoValue.func name out
    ∧ (out.length = 1 ∨ (out.length = 2 ∧ out.get? 1 = some GoType.error))

/-- A behaviour that returns one value. -/
def oneValueFunc : GoValue := GoValue.func "hello" [GoType.other "string"]

/-- A behaviour that returns two values, the second not an error. -/
def twoValueFunc : GoValue := GoValue.func "pair" [GoType.other "string", GoType.other "int"]

/-- A rendering of URLs: the host, when there is one, then the path. -/
def plainUrlString (u : URL) : String :=
  if u.Host = "" then u.Path else "//" ++ u.Host ++ u.Path

/-- A route that builds `/user/<id>` from one parameter and nothing from any
other number of parameters. -/
def userRoute : Route :=
  { Url := fun params =>
      match params with
      | [id] => some { Host := "", Path := "/user/" ++ id }
      | _ => none }

/-- The application `sampleApp` with the route `user`. -/
def routedApp : App :=
  { sampleApp with routes := (∅ : AList (fun _ : String => Route)).insert "user" userRoute }

/-- The context `sampleR` on the application `routedApp`. -/
def routedR : R := { sampleR [] with App := routedApp }

/-- The context `sampleCtx` on the application `routedApp`. -/
def routedCtx : Ctx := { sampleCtx with App := routedApp }

/-- The application `routedApp` after `AddCtxFuncs(builtinctxfuncs)`, the
registration that `BaseEnv` makes. -/
def builtinApp : App :=
  { routedApp with Env := (routedApp.Env.AddCtxFuncs builtinctxfuncs).1 }

/-- The context that `tmpR` makes for `builtinApp`. -/
def builtinR : R := tmpR builtinApp freshWriter sampleRequest engineCtx

/-- The context `routedCtx` with a function table that binds `urlfor` to the
function `urlfor`. -/
def builtinCtx : Ctx :=
  { routedCtx with functionTable := (∅ : ctxfuncs).insert "urlfor" urlforValue }

/-- A function of an application, `shorturl`, with the parameters of `urlfor`
and one result of type `string`. -/
def shortUrl : GoValue := GoValue.func "shorturl" [GoType.other "string"]

/-- What a call gives in that application: the function `shorturl`, called
with a context, a route name, a boolean and a parameter list, returns `/s`;
any other call fails. -/
def shortBehaviour (fn : Option GoValue) (args : List (Arg R)) : Value × Option Error :=
  if fn = some shortUrl then
    match args with
    | [Arg.ctx _, Arg.string _, Arg.bool _, Arg.strings _] => (Value.str "/s", none)
    | _ => (Value.nil, some "call failed")
  else (Value.nil, some "call failed")

/-- The application `builtinApp` after `AddCtxFunc("urlfor", shorturl)`. -/
def overrideApp : App :=
  { builtinApp with Env := (builtinApp.Env.AddCtxFunc "urlfor" shortUrl).1 }

/-- The context that `tmpR` makes for `overrideApp`. -/
def overrideR : R := tmpR overrideApp freshWriter sampleRequest engineCtx

/-- A template renderer that fails on every call. -/
def failingTemplator : Templator :=
  { calls := [], respond := fun w _ _ => (w, some "template not found") }

/-- The environment of `sampleApp` with the failing renderer. -/
def failingEnv : Env := { sampleApp.Env with Templator := failingTemplator }

/-- The application `sampleApp` with the failing renderer. -/
def failingApp : App := { sampleApp with Env := failingEnv }

/-- The context `sampleCtx` on the application `failingApp`. -/
def failingCtx : Ctx := { sampleCtx with App := failingApp }

/-- What `MergeStore` leaves under a key: the item of the environment when it
has one, otherwise the item of the merged store when it is not a default
value. -/
def mergedItem (mine theirs : Option StoreItem) : Option StoreItem :=
  match mine with
  | some v => some v
  | none =>
    match theirs with
    | some v => if v.defaultvalue then none else some v
    | none => none

/-- The store of an environment: a secret that was configured, and the default
upload size. -/
def envStore : Store :=
  ((∅ : Store).insert "SECRET_KEY" { value := "s3cret", defaultvalue := false }).insert
    "UPLOAD_SIZE" { value := "10000000", defaultvalue := true }

/-- A store to merge: another secret, a default cookie name and a configured
lifetime. -/
def otherStore : Store :=
  (((∅ : Store).insert "SECRET_KEY" { value := "other", defaultvalue := false }).insert
    "SESSION_COOKIENAME" { value := "session", defaultvalue := true }).insert
    "SESSION_LIFETIME" { value := "60", defaultvalue := false }

/-- The environment of `sampleApp` with the store `envStore`. -/
def storeEnv : Env := { sampleApp.Env with Store := envStore }

/-- The values that successive increments give to a position that is `a`: the
`m` values `a + 1`, ..., `a + m`. -/
def steps : Int → Nat → List Int
  | _, 0 => []
  | a, m + 1 => (a + 1) :: steps (a + 1) m

/-- A handler body calls `Next()` at most once. -/
def callsNextAtMostOnce (h : HandlerFunc) : Prop := h.count Op.next ≤ 1

/-- What is observed of the position during a run: whether the run returned
normally, and the successive values of the position. -/
def Outcome.trace : Outcome → Option (Bool × List Int)
  | Outcome.done st => some (true, st.positions)
  | Outcome.panic st => some (false, st.positions)
  | Outcome.outOfFuel => none

/-- A chain of three handlers of which the second does not call `Next()`. -/
def mixedChain : List HandlerFunc :=
  [[Op.set "user" (Value.str "ann"), Op.next], [Op.abort 404], [Op.next]]

/-- A sequence of `WriteHeader` calls, first code first. -/
def writeHeaders (w : responseWriter) (codes : List Int) : responseWriter :=
  codes.foldl responseWriter.WriteHeader w

/-- The last code of the list that is greater than 0, or `dflt` when there is
none. -/
def lastPositive (codes : List Int) (dflt : Int) : Int :=
  ((codes.filter (fun c => decide (c > 0))).getLast?).getD dflt

/-! # Theorems -/

/-! ## Lemmas on the response writer -/

namespace responseWriter

theorem Written_iff (w : responseWriter) : w.Written = true ↔ w.size ≠ NotWritten := by
  simp [Written]

theorem WriteHeaderNow_events (w : responseWriter) :
    w.WriteHeaderNow.ResponseWriter.events =
      w.ResponseWriter.events ++ (if w.Written then [] else [Event.header w.status]) := by
  unfold WriteHeaderNow
  cases h : w.Written <;> simp [HttpStream.WriteHeader]

theorem WriteHeaderNow_respond (w : responseWriter) :
    w.WriteHeaderNow.ResponseWriter.respond = w.ResponseWriter.respond := by
  unfold WriteHeaderNow
  cases h : w.Written <;> simp [HttpStream.WriteHeader]

theorem WriteHeaderNow_size (w : responseWriter) :
    w.WriteHeaderNow.size = if w.Written then w.size else 0 := by
  unfold WriteHeaderNow
  cases h : w.Written <;> simp [HttpStream.WriteHeader]

theorem WriteHeaderNow_status (w : responseWriter) : w.WriteHeaderNow.status = w.status := by
  unfold WriteHeaderNow
  cases h : w.Written <;> simp [HttpStream.WriteHeader]

theorem Write_events (w : responseWriter) (d : List UInt8) :
    (w.Write d).1.ResponseWriter.events =
      w.ResponseWriter.events ++ (if w.Written then [] else [Event.header w.status])
        ++ [Event.body d] := by
  simp [Write, HttpStream.Write, WriteHeaderNow_events]

theorem Write_respond (w : responseWriter) (d : List UInt8) :
    (w.Write d).1.ResponseWriter.respond = w.ResponseWriter.respond := by
  simp [Write, HttpStream.Write, WriteHeaderNow_respond]

theorem Write_result (w : responseWriter) (d : List UInt8) :
    (w.Write d).2 = w.ResponseWriter.respond
      (w.ResponseWriter.events ++ (if w.Written then [] else [Event.header w.status])) d := by
  simp [Write, HttpStream.Write, WriteHeaderNow_events, WriteHeaderNow_respond]

theorem Write_size (w : responseWriter) (d : List UInt8) :
    (w.Write d).1.size = (if w.Written then w.size else 0) + (w.Write d).2.1 := by
  simp [Write, HttpStream.Write, WriteHeaderNow_size]

theorem Write_status (w : responseWriter) (d : List UInt8) :
    (w.Write d).1.status = w.status := by
  simp [Write, HttpStream.Write, WriteHeaderNow_status]

theorem WriteHeader_status (w : responseWriter) (code : Int) :
    (w.WriteHeader code).status = if code > 0 then code else w.status := by
  unfold WriteHeader
  split <;> simp

theorem WriteHeader_size (w : responseWriter) (code : Int) :
    (w.WriteHeader code).size = w.size := by
  unfold WriteHeader
  split <;> simp

theorem WriteHeader_stream (w : responseWriter) (code : Int) :
    (w.WriteHeader code).ResponseWriter = w.ResponseWriter := by
  unfold WriteHeader
  split <;> simp

end responseWriter

theorem headerCount_append (a b : List Event) :
    headerCount (a ++ b) = headerCount a + headerCount b := by
  simp [headerCount]

theorem WriterCall.apply_step (w : responseWriter) (c : WriterCall)
    (hc : w.ResponseWriter.Conforming) (hsz : w.size = NotWritten ∨ 0 ≤ w.size) :
    (c.apply w).ResponseWriter.respond = w.ResponseWriter.respond
      ∧ ((c.apply w).size = NotWritten ∨ 0 ≤ (c.apply w).size)
      ∧ (c.apply w).Written = (w.Written || c.transmits)
      ∧ headerCount (c.apply w).ResponseWriter.events
          = headerCount w.ResponseWriter.events
            + (if !w.Written && c.transmits then 1 else 0) := by
  cases c with
  | WriteHeader code =>
    simp [WriterCall.apply, WriterCall.transmits, responseWriter.WriteHeader_stream,
      responseWriter.WriteHeader_size, responseWriter.Written, hsz]
  | WriteHeaderNow =>
    simp only [WriterCall.apply, WriterCall.transmits, responseWriter.WriteHeaderNow_respond,
      responseWriter.WriteHeaderNow_events, responseWriter.Written,
      responseWriter.WriteHeaderNow_size, headerCount_append]
    rcases hsz with h | h
    · simp [h, NotWritten, headerCount]
    · have : w.size ≠ NotWritten := by simp [NotWritten]; omega
      simp [this, h, headerCount]
  | Write data =>
    have hn := (hc (w.ResponseWriter.events ++
      (if w.Written then [] else [Event.header w.status])) data).1
    rw [← responseWriter.Write_result] at hn
    simp only [WriterCall.apply, WriterCall.transmits, responseWriter.Write_respond,
      responseWriter.Write_events, responseWriter.Written,
      responseWriter.Write_size, headerCount_append]
    rcases hsz with h | h
    · have h1 : w.size = -1 := h
      simp [h1, NotWritten, headerCount]
      omega
    · have h1 : w.size ≠ -1 := by omega
      simp [h1, headerCount, NotWritten]
      omega

theorem runCalls_step (calls : List WriterCall) : ∀ (w : responseWriter),
    w.ResponseWriter.Conforming → (w.size = NotWritten ∨ 0 ≤ w.size) →
    (runCalls w calls).Written = (w.Written || calls.any WriterCall.transmits)
      ∧ headerCount (runCalls w calls).ResponseWriter.events
          = headerCount w.ResponseWriter.events
            + (if !w.Written && calls.any WriterCall.transmits then 1 else 0) := by
  induction calls with
  | nil => intro w _ _; simp [runCalls]
  | cons c cs ih =>
    intro w hc hsz
    obtain ⟨h1, h2, h3, h4⟩ := WriterCall.apply_step w c hc hsz
    have hc1 : (c.apply w).ResponseWriter.Conforming := by
      intro h d
      rw [h1]
      exact hc h d
    obtain ⟨i1, i2⟩ := ih (c.apply w) hc1 h2
    have e : runCalls w (c :: cs) = runCalls (c.apply w) cs := rfl
    rw [e, i1, i2, h3, h4]
    rw [List.any_cons]
    rcases Bool.eq_false_or_eq_true w.Written with a | a <;>
      rcases Bool.eq_false_or_eq_true c.transmits with b | b <;>
      rcases Bool.eq_false_or_eq_true (cs.any WriterCall.transmits) with d | d <;>
      simp [a, b, d]

/-- C5. Headers are transmitted at most once: after any sequence of
`WriteHeader`, `WriteHeaderNow` and `Write` calls on a freshly reset writer over
a stream that honours the `io.Writer` contract, the underlying stream has
received exactly one more `WriteHeader` if the sequence contains a
`WriteHeaderNow` or a `Write`, and none otherwise; and `Written()` is true
exactly when the sequence contains such a call, so it is false before the first
one and true from then on. -/
theorem headers_transmitted_at_most_once (w0 : responseWriter) (s : HttpStream)
    (hs : s.Conforming) (calls : List WriterCall) :
    headerCount (runCalls (w0.reset s) calls).ResponseWriter.events
        = headerCount s.events + (if calls.any WriterCall.transmits then 1 else 0)
      ∧ (runCalls (w0.reset s) calls).Written = calls.any WriterCall.transmits := by
  have h := runCalls_step calls (w0.reset s) hs (Or.inl rfl)
  have hw : (w0.reset s).Written = false := by
    simp [responseWriter.reset, responseWriter.Written]
  rw [hw] at h
  simpa using h.symm

theorem okStream_conforming : okStream.Conforming := by
  intro h d
  simp [okStream]

/-- Witness for C5: four calls on a fresh writer over a stream that accepts
every byte; the header reaches the stream once. -/
theorem headers_transmitted_at_most_once_witness :
    okStream.Conforming ∧ headerCount (runCalls (freshWriter.reset okStream)
        [WriterCall.WriteHeader 404, WriterCall.WriteHeaderNow, WriterCall.Write [1, 2],
          WriterCall.WriteHeaderNow]).ResponseWriter.events
        = headerCount okStream.events + 1
      ∧ (runCalls (freshWriter.reset okStream)
        [WriterCall.WriteHeader 404, WriterCall.WriteHeaderNow, WriterCall.Write [1, 2],
          WriterCall.WriteHeaderNow]).Written = true :=
  ⟨okStream_conforming,
    headers_transmitted_at_most_once freshWriter okStream okStream_conforming
      [WriterCall.WriteHeader 404, WriterCall.WriteHeaderNow, WriterCall.Write [1, 2],
        WriterCall.WriteHeaderNow]⟩

theorem writeHeaders_spec (codes : List Int) : ∀ (w : responseWriter),
    (writeHeaders w codes).status = lastPositive codes w.status
      ∧ (writeHeaders w codes).size = w.size
      ∧ (writeHeaders w codes).ResponseWriter = w.ResponseWriter := by
  induction codes with
  | nil => intro w; simp [writeHeaders, lastPositive]
  | cons c cs ih =>
    intro w
    have e : writeHeaders w (c :: cs) = writeHeaders (w.WriteHeader c) cs := rfl
    obtain ⟨i1, i2, i3⟩ := ih (w.WriteHeader c)
    rw [e, i1, i2, i3, responseWriter.WriteHeader_status, responseWriter.WriteHeader_size,
      responseWriter.WriteHeader_stream]
    refine ⟨?_, rfl, rfl⟩
    unfold lastPositive
    by_cases hc : c > 0
    · simp [hc, List.filter_cons, List.getLast?_cons]
    · simp [hc, List.filter_cons]

/-- C6 (as stated) fails: after `WriteHeader(404)` then `WriteHeader(0)` on a
fresh writer, `Status()` is 404 and not the last code 0. -/
theorem last_writeheader_wins_counterexample :
    freshWriter.Written = false
      ∧ (writeHeaders freshWriter [404, 0]).Status = 404
      ∧ (writeHeaders freshWriter [404, 0]).Status ≠ 0 := by
  decide

/-- C6 (amended). `WriteHeader(code)` records the status when `code > 0` and
the last such caller before transmission wins: after any sequence of codes
passed to `WriteHeader` on a freshly reset writer, `Status()` is the last code
of the sequence that is greater than 0 (200 when there is none), and a following
`WriteHeaderNow` transmits exactly that code to the underlying stream. -/
theorem last_positive_writeheader_wins (w0 : responseWriter) (s : HttpStream)
    (codes : List Int) :
    (writeHeaders (w0.reset s) codes).Status = lastPositive codes 200
      ∧ (writeHeaders (w0.reset s) codes).Written = false
      ∧ (writeHeaders (w0.reset s) codes).WriteHeaderNow.ResponseWriter.events
          = s.events ++ [Event.header (lastPositive codes 200)] := by
  obtain ⟨h1, h2, h3⟩ := writeHeaders_spec codes (w0.reset s)
  have hw : (writeHeaders (w0.reset s) codes).Written = false := by
    rw [responseWriter.Written, h2]
    simp [responseWriter.reset]
  have hst : (w0.reset s).status = 200 := rfl
  have hrw : (w0.reset s).ResponseWriter = s := rfl
  rw [hst] at h1
  rw [hrw] at h3
  refine ⟨h1, hw, ?_⟩
  rw [responseWriter.WriteHeaderNow_events, hw, h1, h3]
  simp

theorem writeAll_count (ds : List (List UInt8)) : ∀ (w : responseWriter),
    w.ResponseWriter.Conforming → (w.size = NotWritten ∨ 0 ≤ w.size) →
    (if (writeAll w ds).1.Written then (writeAll w ds).1.size else 0)
      = (if w.Written then w.size else 0) + (writeAll w ds).2.sum := by
  induction ds with
  | nil => intro w _ _; simp [writeAll]
  | cons d ds ih =>
    intro w hc hsz
    obtain ⟨h1, h2, h3, -⟩ := WriterCall.apply_step w (WriterCall.Write d) hc hsz
    simp only [WriterCall.apply, WriterCall.transmits, Bool.or_true] at h1 h2 h3
    have hc1 : (w.Write d).1.ResponseWriter.Conforming := by
      intro h x
      rw [h1]
      exact hc h x
    have i := ih (w.Write d).1 hc1 h2
    simp only [writeAll, List.sum_cons]
    rw [i, h3, responseWriter.Write_size]
    simp only [if_true]
    ring

/-- C7. `Write(data)` forces `WriteHeaderNow` first and accumulates the byte
count. For every writer state and data: the underlying stream receives the
header with the recorded status before the data unless the header was already
transmitted; `Write` returns what the underlying stream returned; the byte count
afterwards is the count before (0 if not yet written) plus `n`. After `reset`
the recorded status is 200. After a sequence of writes on a freshly reset writer
over a stream that honours the `io.Writer` contract, the byte count (0 if not
yet written) is the sum of the returned `n`. -/
theorem write_forces_header_and_counts (w w0 : responseWriter) (data : List UInt8)
    (s : HttpStream) (hs : s.Conforming) (ds : List (List UInt8)) :
    (w.Write data).1.ResponseWriter.events
        = w.ResponseWriter.events ++ (if w.Written then [] else [Event.header w.status])
            ++ [Event.body data]
      ∧ (w.Write data).2 = (w.WriteHeaderNow.ResponseWriter.Write data).2
      ∧ (w.Write data).1.size = (if w.Written then w.size else 0) + (w.Write data).2.1
      ∧ (w0.reset s).Status = 200
      ∧ (if (writeAll (w0.reset s) ds).1.Written then (writeAll (w0.reset s) ds).1.size else 0)
          = (writeAll (w0.reset s) ds).2.sum := by
  refine ⟨responseWriter.Write_events w data, rfl, responseWriter.Write_size w data, rfl, ?_⟩
  have h := writeAll_count ds (w0.reset s) hs (Or.inl rfl)
  have hw : (w0.reset s).Written = false := by
    simp [responseWriter.reset, responseWriter.Written]
  rw [hw] at h
  simpa using h

/-- Witness for C7: two writes of 2 and 3 bytes on a fresh writer over a stream
that accepts every byte. -/
theorem write_forces_header_and_counts_witness :
    okStream.Conforming
      ∧ (freshWriter.Write [7, 8]).1.ResponseWriter.events
          = [Event.header 200, Event.body [7, 8]]
      ∧ (writeAll (freshWriter.reset okStream) [[1, 2], [3, 4, 5]]).1.size = 5 :=
  ⟨okStream_conforming,
    by
      have h := (write_forces_header_and_counts freshWriter freshWriter [7, 8] okStream
        okStream_conforming [[1, 2], [3, 4, 5]]).1
      simpa [freshWriter, responseWriter.reset, responseWriter.Written, okStream, NotWritten]
        using h,
    by
      have h := (write_forces_header_and_counts freshWriter freshWriter [7, 8] okStream
        okStream_conforming [[1, 2], [3, 4, 5]]).2.2.2.2
      have e : (writeAll (freshWriter.reset okStream) [[1, 2], [3, 4, 5]]).1.Written = true := by
        decide
      rw [e] at h
      rw [if_pos rfl] at h
      rw [h]
      decide⟩

/-- C4 (as stated) fails at `code = 0`: on a context whose headers have not been
transmitted, after `Abort(0)` the writer's `Status()` is still 200, not 0. -/
theorem abort_status_counterexample :
    sampleCtx.rw.Written = false
      ∧ (sampleCtx.Abort 0).rw.Status = 200
      ∧ (sampleCtx.Abort 0).rw.Status ≠ 0 := by
  decide

/-- C4 (amended). For every integer code and every context, after `Abort(code)`
through the default abort behaviour the writer's `Status()` equals `code` when
`code > 0` and is unchanged when `code <= 0`; nothing is transmitted by the
call. -/
theorem abort_status (ctx : Ctx) (code : Int) :
    (ctx.Abort code).rw.Status = (if code > 0 then code else ctx.rw.Status)
      ∧ (ctx.Abort code).rw.Written = ctx.rw.Written
      ∧ (ctx.Abort code).rw.ResponseWriter = ctx.rw.ResponseWriter := by
  unfold Ctx.Abort defaultabort
  by_cases h : code ≥ 0
  · simp only [h, if_true, responseWriter.Status, responseWriter.Written,
      responseWriter.WriteHeader_status, responseWriter.WriteHeader_size,
      responseWriter.WriteHeader_stream]
    simp
  · have h2 : ¬ code > 0 := by omega
    simp [h, h2]

/-- C8. The redirect behaviour is valid only for codes in [300,308]: for every
integer code and location, `redirect` (of `r.go` and of `ctx_functions.go`)
returns nil exactly when `300 <= code <= 308`, and when it returns an error the
context, with its response writer and session, is exactly as before the call. -/
theorem redirect_valid_codes
    (httpRedirect : responseWriter → Request → String → Int → responseWriter)
    (r : R) (ctx : Ctx) (code : Int) (location : String) :
    ((redirect httpRedirect r code location).2 = none ↔ (300 ≤ code ∧ code ≤ 308))
      ∧ ((redirect httpRedirect r code location).2 ≠ none →
          (redirect httpRedirect r code location).1 = r)
      ∧ ((ctx.redirect code location).2 = none ↔ (300 ≤ code ∧ code ≤ 308))
      ∧ ((ctx.redirect code location).2 ≠ none → (ctx.redirect code location).1 = ctx) := by
  unfold redirect Ctx.redirect
  by_cases h : code ≥ 300 ∧ code ≤ 308
  · simp [h]
  · simp only [h, if_false]
    simp

/-- Witness for C8: code 200 is refused and leaves the context as it was; code
302 is accepted. -/
theorem redirect_valid_codes_witness :
    (redirect (fun w _ _ _ => w) (sampleR []) 200 "/login").2
        = some "Cannot send a redirect with status code 200"
      ∧ (redirect (fun w _ _ _ => w) (sampleR []) 200 "/login").1 = sampleR []
      ∧ (sampleCtx.redirect 200 "/login").1 = sampleCtx
      ∧ (redirect (fun w _ _ _ => w) (sampleR []) 302 "/login").2 = none :=
  ⟨by decide,
    (redirect_valid_codes (fun w _ _ _ => w) (sampleR []) sampleCtx 200 "/login").2.1
      (by decide),
    (redirect_valid_codes (fun w _ _ _ => w) (sampleR []) sampleCtx 200 "/login").2.2.2
      (by decide),
    (redirect_valid_codes (fun w _ _ _ => w) (sampleR []) sampleCtx 302 "/login").1.2
      (by decide)⟩

/-! ## Lemmas on flash messages -/

theorem popFlashes_eq (cs : List String) (fls : StrMap) :
    popFlashes cs fls = fls.entries.foldl (popStep cs) ([], fls) := rfl

theorem existsIn_iff (s : String) (l : List String) : existsIn s l = true ↔ s ∈ l := by
  simp [existsIn]

theorem popStep_foldl (cs : List String) (l : List (Sigma (fun _ : String => String))) :
    ∀ (acc : List String × StrMap),
      (l.foldl (popStep cs) acc).1
          = acc.1 ++ (l.filter (fun kv => existsIn kv.1 cs)).map (fun kv => kv.2)
        ∧ ∀ k, (l.foldl (popStep cs) acc).2.lookup k
            = if k ∈ cs ∧ k ∈ l.map (fun kv => kv.1) then none else acc.2.lookup k := by
  induction l with
  | nil => intro acc; simp
  | cons kv l ih =>
    intro acc
    obtain ⟨i1, i2⟩ := ih (popStep cs acc kv)
    simp only [List.foldl_cons]
    refine ⟨?_, ?_⟩
    · rw [i1]
      unfold popStep
      by_cases h : existsIn kv.1 cs = true
      · simp [h, List.filter_cons]
      · simp [h, List.filter_cons]
    · intro k
      rw [i2 k]
      unfold popStep
      by_cases h : existsIn kv.1 cs = true
      · have hm : kv.1 ∈ cs := (existsIn_iff _ _).1 h
        simp only [h, if_true, List.map_cons, List.mem_cons]
        by_cases hk : k = kv.1
        · subst hk
          simp [hm]
        · by_cases hl : k ∈ cs ∧ k ∈ l.map (fun kv => kv.1)
          · simp [hl]
          · have : ¬ (k ∈ cs ∧ (k = kv.1 ∨ k ∈ l.map (fun kv => kv.1))) := by
              rintro ⟨a, b | b⟩
              · exact hk b
              · exact hl ⟨a, b⟩
            rw [if_neg hl, if_neg this]
            exact AList.lookup_erase_ne hk
      · have hm : kv.1 ∉ cs := fun x => h ((existsIn_iff _ _).2 x)
        simp only [h, List.map_cons, List.mem_cons]
        by_cases hk : k = kv.1
        · subst hk
          simp [hm]
        · by_cases hl : k ∈ cs ∧ k ∈ l.map (fun kv => kv.1)
          · have : k ∈ cs ∧ (k = kv.1 ∨ k ∈ l.map (fun kv => kv.1)) := ⟨hl.1, Or.inr hl.2⟩
            rw [if_pos hl, if_pos this]
          · have : ¬ (k ∈ cs ∧ (k = kv.1 ∨ k ∈ l.map (fun kv => kv.1))) := by
              rintro ⟨a, b | b⟩
              · exact hk b
              · exact hl ⟨a, b⟩
            rw [if_neg hl, if_neg this]
            simp

theorem popFlashes_spec (cs : List String) (fls : StrMap) :
    (popFlashes cs fls).1
        = (fls.entries.filter (fun kv => existsIn kv.1 cs)).map (fun kv => kv.2)
      ∧ ∀ k, (popFlashes cs fls).2.lookup k = if k ∈ cs then none else fls.lookup k := by
  obtain ⟨h1, h2⟩ := popStep_foldl cs fls.entries ([], fls)
  rw [popFlashes_eq]
  refine ⟨by simpa using h1, ?_⟩
  intro k
  rw [h2 k]
  by_cases hk : k ∈ cs
  · by_cases hm : k ∈ fls.entries.map (fun kv => kv.1)
    · simp [hk, hm]
    · have : fls.lookup k = none := by
        rw [AList.lookup_eq_none]
        intro hx
        exact hm hx
      simp [hk, hm, this]
  · simp [hk]

theorem popFlashes_absent (cs : List String) (fls : StrMap)
    (h : ∀ k ∈ cs, fls.lookup k = none) : (popFlashes cs fls).1 = [] := by
  rw [(popFlashes_spec cs fls).1]
  rw [List.map_eq_nil_iff, List.filter_eq_nil_iff]
  intro kv hkv hex
  have hk : kv.1 ∈ cs := (existsIn_iff _ _).1 hex
  have hn := h kv.1 hk
  rw [AList.lookup_eq_none] at hn
  apply hn
  rw [AList.mem_keys]
  exact List.mem_keys_of_mem hkv

theorem popFlashes_insert (c m : String) (fls : StrMap) :
    (popFlashes [c] (fls.insert c m)).1 = [m] := by
  rw [(popFlashes_spec [c] (fls.insert c m)).1, AList.insert_entries]
  have hrest : (List.kerase c fls.entries).filter (fun kv => existsIn kv.1 [c]) = [] := by
    rw [List.filter_eq_nil_iff]
    intro kv hkv hex
    have hk : kv.1 = c := by simpa [existsIn] using hex
    have hn := List.not_mem_keys_kerase c fls.nodupKeys
    have hin : kv.1 ∈ (List.kerase c fls.entries).keys := List.mem_keys_of_mem hkv
    rw [hk] at hin
    exact hn hin
  have hc : existsIn c [c] = true := by simp [existsIn]
  rw [List.filter_cons, if_pos hc, hrest]
  rfl

theorem SessionStore.Get_Set (s : SessionStore) (k : String) (v : Value) :
    (s.Set k v).Get k = v := by
  simp [SessionStore.Get, SessionStore.Set]

theorem flashmessages_of_strmap (r : R) (sess : SessionStore) (M : StrMap) (cs : List String)
    (hr : r.RSession = some sess) (hM : sess.Get "_flashes" = Value.strmap M) :
    flashmessages r cs
      = some ({ r with RSession := some (sess.Set "_flashes" (Value.strmap (popFlashes cs M).2)) },
          (popFlashes cs M).1) := by
  simp [flashmessages, hr, hM, Value.asStrMap]

theorem ctx_flashmessages_of_strmap (ctx : Ctx) (M : StrMap) (cs : List String)
    (hM : ctx.Session.Get "_flashes" = Value.strmap M) :
    ctx.flashmessages cs
      = ({ ctx with Session := ctx.Session.Set "_flashes" (Value.strmap (popFlashes cs M).2) },
          (popFlashes cs M).1) := by
  simp [Ctx.flashmessages, hM, Value.asStrMap]

/-- C10. Retrieval by category removes exactly the matched entries: when the
session holds the flash mapping `M`, `flashmessages(cs)` (of `r.go` and of
`ctx_functions.go`) returns a list that is, up to order, the messages of the
entries of `M` whose key occurs in `cs`, and the mapping stored afterwards under
the flash key has no entry for a key in `cs` and the entry of `M` for every
other key. -/
theorem flashmessages_removes_matched (sess : SessionStore) (M : StrMap)
    (hM : sess.Get "_flashes" = Value.strmap M) (cs : List String)
    (r : R) (hr : r.RSession = some sess) (ctx : Ctx) (hc : ctx.Session = sess) :
    ∃ (r1 : R) (ret : List String) (sess1 : SessionStore) (M1 : StrMap),
      flashmessages r cs = some (r1, ret)
        ∧ ctx.flashmessages cs = ({ ctx with Session := sess1 }, ret)
        ∧ r1.RSession = some sess1
        ∧ sess1.Get "_flashes" = Value.strmap M1
        ∧ List.Perm ret
            ((M.entries.filter (fun kv => decide (kv.1 ∈ cs))).map (fun kv => kv.2))
        ∧ ∀ k, M1.lookup k = if k ∈ cs then none else M.lookup k := by
  subst hc
  refine ⟨_, _, _, _, flashmessages_of_strmap r _ M cs hr hM,
    ctx_flashmessages_of_strmap ctx M cs hM, rfl, SessionStore.Get_Set _ _ _, ?_,
    (popFlashes_spec cs M).2⟩
  rw [(popFlashes_spec cs M).1]
  have : (fun kv : Sigma (fun _ : String => String) => existsIn kv.1 cs)
      = (fun kv => decide (kv.1 ∈ cs)) := by
    funext kv
    simp [existsIn]
  rw [this]

/-- C9. Flash messages have pop semantics: when the flash entry of the session
is absent or a category-to-message mapping, after `flash(c, m)` the call
`flashmessages([c])` returns exactly `[m]`, and an immediately following
`flashmessages([c])` returns an empty result (in `r.go` and in
`ctx_functions.go`). -/
theorem flash_pop_semantics (sess : SessionStore)
    (hf : sess.Get "_flashes" = Value.nil ∨ ∃ M, sess.Get "_flashes" = Value.strmap M)
    (c m : String) (r : R) (hr : r.RSession = some sess) (ctx : Ctx) (hc : ctx.Session = sess) :
    (∃ r1 r2 r3, flash r c m = some (r1, none)
        ∧ flashmessages r1 [c] = some (r2, [m])
        ∧ flashmessages r2 [c] = some (r3, []))
      ∧ (ctx.flash c m).2 = none
      ∧ ((ctx.flash c m).1.flashmessages [c]).2 = [m]
      ∧ (((ctx.flash c m).1.flashmessages [c]).1.flashmessages [c]).2 = [] := by
  have key : ∃ M0 : StrMap, ∃ sess1 : SessionStore,
      sess1 = sess.Set "_flashes" (Value.strmap (M0.insert c m))
      ∧ flash r c m = some ({ r with RSession := some sess1 }, none)
      ∧ ctx.flash c m = ({ ctx with Session := sess1 }, none) := by
    rcases hf with h | ⟨M, h⟩
    · exact ⟨∅, _, rfl, by simp [flash, hr, h], by simp [Ctx.flash, hc, h]⟩
    · exact ⟨M, _, rfl, by simp [flash, hr, h, Value.asStrMap],
        by simp [Ctx.flash, hc, h, Value.asStrMap]⟩
  obtain ⟨M0, sess1, hs1, k1, k2⟩ := key
  have g1 : sess1.Get "_flashes" = Value.strmap (M0.insert c m) := by
    rw [hs1]
    exact SessionStore.Get_Set _ _ _
  have hno : ∀ k ∈ [c], (popFlashes [c] (M0.insert c m)).2.lookup k = none := by
    intro k hk
    rw [(popFlashes_spec [c] (M0.insert c m)).2 k, if_pos hk]
  obtain ⟨sess2, hs2⟩ : ∃ s2 : SessionStore,
      s2 = sess1.Set "_flashes" (Value.strmap (popFlashes [c] (M0.insert c m)).2) := ⟨_, rfl⟩
  have g2 : sess2.Get "_flashes" = Value.strmap (popFlashes [c] (M0.insert c m)).2 := by
    rw [hs2]
    exact SessionStore.Get_Set _ _ _
  have f1 := flashmessages_of_strmap { r with RSession := some sess1 } sess1 _ [c] rfl g1
  have f2 := flashmessages_of_strmap { r with RSession := some sess2 } sess2 _ [c] rfl g2
  rw [popFlashes_insert, ← hs2] at f1
  rw [popFlashes_absent _ _ hno] at f2
  have c1 := ctx_flashmessages_of_strmap { ctx with Session := sess1 } _ [c] g1
  have c2 := ctx_flashmessages_of_strmap { ctx with Session := sess2 } _ [c] g2
  rw [popFlashes_insert, ← hs2] at c1
  rw [popFlashes_absent _ _ hno] at c2
  refine ⟨⟨_, _, _, k1, f1, f2⟩, ?_, ?_, ?_⟩
  · rw [k2]
  · rw [k2, c1]
  · rw [k2, c1]
    exact congrArg Prod.snd c2

/-- Witness for C9: category `info`, message `a`, on a session with no flash
entry. -/
theorem flash_pop_semantics_witness :
    (∃ r1 r2 r3, flash (sampleR []) "info" "a" = some (r1, none)
        ∧ flashmessages r1 ["info"] = some (r2, ["a"])
        ∧ flashmessages r2 ["info"] = some (r3, []))
      ∧ (sampleCtx.flash "info" "a").2 = none
      ∧ ((sampleCtx.flash "info" "a").1.flashmessages ["info"]).2 = ["a"]
      ∧ (((sampleCtx.flash "info" "a").1.flashmessages ["info"]).1.flashmessages ["info"]).2
          = [] :=
  flash_pop_semantics { values := ∅ } (Or.inl (by decide)) "info" "a" (sampleR []) rfl
    sampleCtx rfl

/-- Witness for C10: the session holds `info -> a` and `warn -> b`, and `info`
is retrieved. -/
theorem flashmessages_removes_matched_witness :
    flashSession.Get "_flashes" = Value.strmap sampleFlashes
      ∧ ∃ (r1 : R) (ret : List String) (sess1 : SessionStore) (M1 : StrMap),
        flashmessages (flashR []) ["info"] = some (r1, ret)
          ∧ flashCtx.flashmessages ["info"] = ({ flashCtx with Session := sess1 }, ret)
          ∧ r1.RSession = some sess1
          ∧ sess1.Get "_flashes" = Value.strmap M1
          ∧ List.Perm ret
              ((sampleFlashes.entries.filter (fun kv => decide (kv.1 ∈ ["info"]))).map
                (fun kv => kv.2))
          ∧ ∀ k, M1.lookup k = if k ∈ ["info"] then none else sampleFlashes.lookup k :=
  ⟨SessionStore.Get_Set _ _ _,
    flashmessages_removes_matched flashSession sampleFlashes (SessionStore.Get_Set _ _ _)
      ["info"] (flashR []) rfl flashCtx rfl⟩

/-! ## Lemmas on the handler chain -/

theorem int8_of_range (x : Int) (h1 : -128 ≤ x) (h2 : x ≤ 127) : int8 x = x := by
  unfold int8
  omega

theorem fuel_succ (f : Nat) :
    (∀ st, Next f st ≠ Outcome.outOfFuel → Next (f + 1) st = Next f st)
      ∧ (∀ s st, forLoop f s st ≠ Outcome.outOfFuel → forLoop (f + 1) s st = forLoop f s st)
      ∧ (∀ ops st, invoke f ops st ≠ Outcome.outOfFuel →
          invoke (f + 1) ops st = invoke f ops st) := by
  induction f with
  | zero =>
    refine ⟨?_, ?_, ?_⟩
    · intro st h; exact absurd rfl h
    · intro s st h; exact absurd rfl h
    · intro ops st h; exact absurd rfl h
  | succ n ih =>
    obtain ⟨ihN, ihL, ihI⟩ := ih
    refine ⟨?_, ?_, ?_⟩
    · intro st h
      rw [Next] at h
      rw [Next, Next]
      exact ihL _ _ h
    · intro s st h
      rw [forLoop] at h
      conv_lhs => rw [forLoop]
      conv_rhs => rw [forLoop]
      by_cases hc : st.r.index < s
      · simp only [hc, if_true] at h ⊢
        cases hh : handlerAt st.r.handlers st.r.index with
        | none => simp only [hh]
        | some hd =>
          simp only [hh] at h ⊢
          cases hi : invoke n hd { st with executed := st.executed ++ [st.r.index] } with
          | done st1 =>
            rw [hi] at h
            rw [ihI _ _ (by rw [hi]; simp), hi]
            exact ihL _ _ h
          | panic st1 =>
            rw [ihI _ _ (by rw [hi]; simp), hi]
          | outOfFuel =>
            rw [hi] at h
            exact absurd rfl h
      · simp only [hc, if_false]
    · intro ops st h
      cases ops with
      | nil => rw [invoke, invoke]
      | cons op ops =>
        cases op with
        | next =>
          rw [invoke] at h
          conv_lhs => rw [invoke]
          conv_rhs => rw [invoke]
          cases hi : Next n st with
          | done st1 =>
            rw [hi] at h
            rw [ihN _ (by rw [hi]; simp), hi]
            exact ihI _ _ h
          | panic st1 =>
            rw [ihN _ (by rw [hi]; simp), hi]
          | outOfFuel =>
            rw [hi] at h
            exact absurd rfl h
        | abort code =>
          rw [invoke] at h
          conv_lhs => rw [invoke]
          conv_rhs => rw [invoke]
          exact ihI _ _ h
        | set key item =>
          rw [invoke] at h
          conv_lhs => rw [invoke]
          conv_rhs => rw [invoke]
          cases hs : st.r.Set key item with
          | none => rfl
          | some r1 =>
            simp only [hs] at h ⊢
            exact ihI _ _ h

theorem Next_mono (f g : Nat) (st : Exec) (h : Next f st ≠ Outcome.outOfFuel) (hg : f ≤ g) :
    Next g st = Next f st := by
  induction g with
  | zero =>
    have : f = 0 := by omega
    rw [this]
  | succ n ih =>
    by_cases hn : f ≤ n
    · have e := ih hn
      rw [← e] at h
      rw [(fuel_succ n).1 st h, e]
    · have : f = n + 1 := by omega
      rw [this]

theorem Reaches.unique {run : Nat → Outcome} {o1 o2 : Outcome}
    (h1 : Reaches run o1) (h2 : Reaches run o2) : o1 = o2 := by
  obtain ⟨-, f1, e1⟩ := h1
  obtain ⟨-, f2, e2⟩ := h2
  rw [← e1 (max f1 f2) (le_max_left _ _), e2 (max f1 f2) (le_max_right _ _)]

theorem Reaches.of_Next (st : Exec) (o : Outcome)
    (h : Reaches (fun f => forLoop f (int8 st.r.handlers.length)
      (st.setIndex (int8 (st.r.index + 1)))) o) :
    Reaches (fun f => Next f st) o := by
  obtain ⟨ho, f, e⟩ := h
  refine ⟨ho, f + 1, ?_⟩
  intro g hg
  obtain ⟨g1, rfl⟩ : ∃ g1, g = g1 + 1 := ⟨g - 1, by omega⟩
  simp only [Next]
  exact e g1 (by omega)

theorem Reaches.loop_exit (s : Int) (st : Exec) (h : ¬ st.r.index < s) :
    Reaches (fun f => forLoop f s st) (Outcome.done st) := by
  refine ⟨by simp, 1, ?_⟩
  intro g hg
  obtain ⟨g1, rfl⟩ : ∃ g1, g = g1 + 1 := ⟨g - 1, by omega⟩
  simp only [forLoop, h, if_false]

theorem Reaches.loop_range (s : Int) (st : Exec) (h : st.r.index < s)
    (hh : handlerAt st.r.handlers st.r.index = none) :
    Reaches (fun f => forLoop f s st) (Outcome.panic st) := by
  refine ⟨by simp, 1, ?_⟩
  intro g hg
  obtain ⟨g1, rfl⟩ : ∃ g1, g = g1 + 1 := ⟨g - 1, by omega⟩
  simp only [forLoop, h, if_true, hh]

theorem Reaches.loop_done (s : Int) (st st1 : Exec) (hd : HandlerFunc) (o : Outcome)
    (h : st.r.index < s) (hh : handlerAt st.r.handlers st.r.index = some hd)
    (h1 : Reaches (fun f => invoke f hd { st with executed := st.executed ++ [st.r.index] })
      (Outcome.done st1))
    (h2 : Reaches (fun f => forLoop f s (st1.setIndex (int8 (st1.r.index + 1)))) o) :
    Reaches (fun f => forLoop f s st) o := by
  obtain ⟨-, f1, e1⟩ := h1
  obtain ⟨ho, f2, e2⟩ := h2
  refine ⟨ho, max f1 f2 + 1, ?_⟩
  intro g hg
  obtain ⟨g1, rfl⟩ : ∃ g1, g = g1 + 1 := ⟨g - 1, by omega⟩
  have a1 : f1 ≤ g1 := by have := le_max_left f1 f2; omega
  have a2 : f2 ≤ g1 := by have := le_max_right f1 f2; omega
  have q1 := e1 g1 a1
  have q2 := e2 g1 a2
  simp only at q1 q2
  simp only [forLoop, h, if_true, hh, q1, q2]

theorem Reaches.loop_panic (s : Int) (st st1 : Exec) (hd : HandlerFunc)
    (h : st.r.index < s) (hh : handlerAt st.r.handlers st.r.index = some hd)
    (h1 : Reaches (fun f => invoke f hd { st with executed := st.executed ++ [st.r.index] })
      (Outcome.panic st1)) :
    Reaches (fun f => forLoop f s st) (Outcome.panic st1) := by
  obtain ⟨-, f1, e1⟩ := h1
  refine ⟨by simp, f1 + 1, ?_⟩
  intro g hg
  obtain ⟨g1, rfl⟩ : ∃ g1, g = g1 + 1 := ⟨g - 1, by omega⟩
  have q1 := e1 g1 (by omega)
  simp only at q1
  simp only [forLoop, h, if_true, hh, q1]

theorem Reaches.invoke_nil (st : Exec) :
    Reaches (fun f => invoke f [] st) (Outcome.done st) := by
  refine ⟨by simp, 1, ?_⟩
  intro g hg
  obtain ⟨g1, rfl⟩ : ∃ g1, g = g1 + 1 := ⟨g - 1, by omega⟩
  simp only [invoke]

theorem Reaches.invoke_next_done (st st1 : Exec) (ops : List Op) (o : Outcome)
    (h1 : Reaches (fun f => Next f st) (Outcome.done st1))
    (h2 : Reaches (fun f => invoke f ops st1) o) :
    Reaches (fun f => invoke f (Op.next :: ops) st) o := by
  obtain ⟨-, f1, e1⟩ := h1
  obtain ⟨ho, f2, e2⟩ := h2
  refine ⟨ho, max f1 f2 + 1, ?_⟩
  intro g hg
  obtain ⟨g1, rfl⟩ : ∃ g1, g = g1 + 1 := ⟨g - 1, by omega⟩
  have a1 : f1 ≤ g1 := by have := le_max_left f1 f2; omega
  have a2 : f2 ≤ g1 := by have := le_max_right f1 f2; omega
  have q1 := e1 g1 a1
  have q2 := e2 g1 a2
  simp only at q1 q2
  simp only [invoke, q1, q2]

theorem Reaches.invoke_next_panic (st st1 : Exec) (ops : List Op)
    (h1 : Reaches (fun f => Next f st) (Outcome.panic st1)) :
    Reaches (fun f => invoke f (Op.next :: ops) st) (Outcome.panic st1) := by
  obtain ⟨-, f1, e1⟩ := h1
  refine ⟨by simp, f1 + 1, ?_⟩
  intro g hg
  obtain ⟨g1, rfl⟩ : ∃ g1, g = g1 + 1 := ⟨g - 1, by omega⟩
  have q1 := e1 g1 (by omega)
  simp only at q1
  simp only [invoke, q1]

theorem Reaches.invoke_abort (st : Exec) (code : Int) (ops : List Op) (o : Outcome)
    (h : Reaches (fun f => invoke f ops { st with r := st.r.Abort code }) o) :
    Reaches (fun f => invoke f (Op.abort code :: ops) st) o := by
  obtain ⟨ho, f, e⟩ := h
  refine ⟨ho, f + 1, ?_⟩
  intro g hg
  obtain ⟨g1, rfl⟩ : ∃ g1, g = g1 + 1 := ⟨g - 1, by omega⟩
  simp only [invoke]
  exact e g1 (by omega)

theorem Reaches.invoke_set (st : Exec) (key : String) (item : Value) (r1 : R)
    (ops : List Op) (o : Outcome) (hs : st.r.Set key item = some r1)
    (h : Reaches (fun f => invoke f ops { st with r := r1 }) o) :
    Reaches (fun f => invoke f (Op.set key item :: ops) st) o := by
  obtain ⟨ho, f, e⟩ := h
  refine ⟨ho, f + 1, ?_⟩
  intro g hg
  obtain ⟨g1, rfl⟩ : ∃ g1, g = g1 + 1 := ⟨g - 1, by omega⟩
  simp only [invoke, hs]
  exact e g1 (by omega)

theorem count_one_split (l : List Op) (h : l.count Op.next = 1) :
    ∃ pre post, l = pre ++ Op.next :: post ∧ Op.next ∉ pre ∧ Op.next ∉ post := by
  induction l with
  | nil => simp at h
  | cons a l ih =>
    by_cases ha : a = Op.next
    · subst ha
      refine ⟨[], l, rfl, by simp, ?_⟩
      rw [List.count_cons_self] at h
      have : l.count Op.next = 0 := by omega
      exact List.count_eq_zero.1 this
    · rw [List.count_cons_of_ne (fun e => ha e.symm)] at h
      obtain ⟨pre, post, e, h1, h2⟩ := ih h
      refine ⟨a :: pre, post, by rw [e]; rfl, ?_, h2⟩
      intro hm
      rcases List.mem_cons.1 hm with x | x
      · exact ha x.symm
      · exact h1 x

theorem invoke_without_next (pre : List Op) (hp : Op.next ∉ pre) :
    ∀ st : Exec, st.r.RData ≠ none →
      ∃ st1 : Exec, st1.r.index = st.r.index ∧ st1.r.handlers = st.r.handlers
        ∧ st1.r.RData ≠ none ∧ st1.executed = st.executed ∧ st1.positions = st.positions
        ∧ ∀ rest o, Reaches (fun f => invoke f rest st1) o →
            Reaches (fun f => invoke f (pre ++ rest) st) o := by
  induction pre with
  | nil =>
    intro st hd
    exact ⟨st, rfl, rfl, hd, rfl, rfl, fun _ _ h => h⟩
  | cons op pre ih =>
    intro st hd
    have hp1 : Op.next ∉ pre := fun h => hp (List.mem_cons_of_mem _ h)
    cases op with
    | next => exact absurd (List.mem_cons_self _ _) hp
    | abort code =>
      obtain ⟨st1, a1, a2, a3, a4, a5, a6⟩ := ih hp1 { st with r := st.r.Abort code } hd
      exact ⟨st1, a1, a2, a3, a4, a5, fun rest o h => Reaches.invoke_abort _ _ _ _ (a6 rest o h)⟩
    | set key item =>
      cases hdat : st.r.RData with
      | none => exact absurd hdat hd
      | some d =>
        have hs : st.r.Set key item = some { st.r with RData := some (d.insert key item) } := by
          simp [R.Set, hdat]
        obtain ⟨st1, a1, a2, a3, a4, a5, a6⟩ :=
          ih hp1 { st with r := { st.r with RData := some (d.insert key item) } } (by simp)
        exact ⟨st1, a1, a2, a3, a4, a5,
          fun rest o h => Reaches.invoke_set _ _ _ _ _ _ hs (a6 rest o h)⟩

theorem handlerAt_ofNat (hs : List HandlerFunc) (i : Nat) (h : i < hs.length) :
    handlerAt hs (i : Int) = some (hs.get ⟨i, h⟩) := by
  unfold handlerAt
  have : ¬ ((i : Int) < 0) := by omega
  simp [this, h]

theorem indexRange_succ (i k : Nat) :
    indexRange i (k + 1) = (i : Int) :: indexRange (i + 1) k := by
  simp [indexRange, List.range'_succ]

theorem loop_once (hs : List HandlerFunc) (hn : hs.length ≤ 63)
    (hall : ∀ h ∈ hs, callsNextOnce h) :
    ∀ k : Nat, k ≤ hs.length → ∀ st : Exec, st.r.handlers = hs → st.r.RData ≠ none →
      st.r.index = ((hs.length - k : Nat) : Int) →
      ∃ st1 : Exec, Reaches (fun f => forLoop f (int8 hs.length) st) (Outcome.done st1)
        ∧ st1.r.index = ((hs.length + k : Nat) : Int)
        ∧ st1.executed = st.executed ++ indexRange (hs.length - k) k
        ∧ st1.r.handlers = hs ∧ st1.r.RData ≠ none := by
  have hs8 : int8 hs.length = (hs.length : Int) := int8_of_range _ (by omega) (by omega)
  intro k
  induction k with
  | zero =>
    intro _ st hh hd hi
    refine ⟨st, Reaches.loop_exit _ _ ?_, by simpa using hi, by simp [indexRange], hh, hd⟩
    rw [hs8, hi]
    simp
  | succ k ih =>
    intro hk st hh hd hi
    obtain ⟨i, hik⟩ : ∃ i, i = hs.length - (k + 1) := ⟨_, rfl⟩
    rw [← hik] at hi
    have hil : i < hs.length := by omega
    have hat : handlerAt st.r.handlers st.r.index = some (hs.get ⟨i, hil⟩) := by
      rw [hh, hi]
      exact handlerAt_ofNat hs i hil
    have hone : callsNextOnce (hs.get ⟨i, hil⟩) := hall _ (List.get_mem hs i hil)
    obtain ⟨pre, post, hsplit, hpre, hpost⟩ := count_one_split _ hone
    -- the part of the handler before its call of Next
    obtain ⟨sa, a1, a2, a3, a4, -, a6⟩ := invoke_without_next pre hpre
      { st with executed := st.executed ++ [st.r.index] } hd
    -- the call of Next
    have e8 : int8 (sa.r.index + 1) = ((hs.length - k : Nat) : Int) := by
      rw [a1]
      show int8 (st.r.index + 1) = _
      rw [hi, int8_of_range _ (by omega) (by omega)]
      omega
    obtain ⟨sb, b1, b2, b3, b4, b5⟩ := ih (by omega) (sa.setIndex (int8 (sa.r.index + 1)))
      (by show sa.r.handlers = hs; rw [a2]; exact hh) a3 e8
    have hnext : Reaches (fun f => Next f sa) (Outcome.done sb) := by
      apply Reaches.of_Next
      have : sa.r.handlers = hs := by rw [a2]; exact hh
      rw [this]
      exact b1
    -- the part of the handler after its call of Next
    obtain ⟨sc, c1, c2, c3, c4, -, c6⟩ := invoke_without_next post hpost sb b5
    have hbody : Reaches (fun f => invoke f (hs.get ⟨i, hil⟩)
        { st with executed := st.executed ++ [st.r.index] }) (Outcome.done sc) := by
      rw [hsplit]
      apply a6
      apply Reaches.invoke_next_done _ _ _ _ hnext
      have := c6 [] _ (Reaches.invoke_nil sc)
      simpa using this
    -- the loop goes on after the handler returns
    have e9 : int8 (sc.r.index + 1) = ((hs.length + (k + 1) : Nat) : Int) := by
      rw [c1, b2, int8_of_range _ (by omega) (by omega)]
      omega
    refine ⟨sc.setIndex (int8 (sc.r.index + 1)),
      Reaches.loop_done _ _ _ _ _ ?_ hat hbody (Reaches.loop_exit _ _ ?_), e9, ?_, ?_, c3⟩
    · rw [hs8, hi]
      omega
    · show ¬ int8 (sc.r.index + 1) < int8 hs.length
      rw [e9, hs8]
      omega
    · show sc.executed = _
      rw [c4, b3]
      show sa.executed ++ _ = _
      rw [a4]
      show (st.executed ++ [st.r.index]) ++ _ = _
      rw [hi, ← hik, indexRange_succ]
      have : i + 1 = hs.length - k := by omega
      rw [this]
      simp
    · show sc.r.handlers = hs
      rw [c2, b4]

/-- C1 (amended). For every handler chain of at most 63 handlers in which every
handler calls `Next()` once, calling `Next()` on a context whose chain position
is -1 (and whose per-request store is allocated, as `newR` leaves it) returns
normally after selecting the handlers `0, 1, ..., n-1` in this order, each
exactly once; the position is then twice the chain length. -/
theorem next_runs_chain_once (r : R) (hidx : r.index = -1) (hlen : r.handlers.length ≤ 63)
    (hdata : r.RData ≠ none) (hall : ∀ h ∈ r.handlers, callsNextOnce h) :
    ∃ st : Exec, Reaches (fun f => Next f (Exec.start r)) (Outcome.done st)
      ∧ st.executed = indexRange 0 r.handlers.length
      ∧ st.r.index = 2 * (r.handlers.length : Int) := by
  have e0 : int8 ((Exec.start r).r.index + 1)
      = ((r.handlers.length - r.handlers.length : Nat) : Int) := by
    show int8 (r.index + 1) = _
    rw [hidx]
    simp [int8]
  obtain ⟨st, h1, h2, h3, -, -⟩ := loop_once r.handlers hlen hall r.handlers.length (le_refl _)
    ((Exec.start r).setIndex (int8 ((Exec.start r).r.index + 1))) rfl hdata e0
  refine ⟨st, Reaches.of_Next _ _ h1, ?_, ?_⟩
  · rw [h3]
    simp [Exec.start, Exec.setIndex]
  · rw [h2]
    push_cast
    ring

theorem Reaches.of_run (st : Exec) (o : Outcome) (f : Nat) (h : Next f st = o)
    (ho : o ≠ Outcome.outOfFuel) : Reaches (fun g => Next g st) o := by
  refine ⟨ho, f, ?_⟩
  intro g hg
  show Next g st = _
  rw [Next_mono f g st (by rw [h]; exact ho) hg, h]

theorem summary_panic (o : Outcome) (i : Int) (l : List Int)
    (h : o.summary = some (false, i, l)) :
    ∃ st, o = Outcome.panic st ∧ st.r.index = i ∧ st.executed = l := by
  cases o with
  | done st => simp [Outcome.summary] at h
  | panic st =>
    simp only [Outcome.summary, Option.some.injEq, Prod.mk.injEq, true_and] at h
    exact ⟨st, rfl, h.1, h.2⟩
  | outOfFuel => simp [Outcome.summary] at h

/-- Witness for C1 (amended): a chain of three handlers. -/
theorem next_runs_chain_once_witness :
    ∃ st : Exec, Reaches (fun f => Next f (Exec.start (sampleR chain3))) (Outcome.done st)
      ∧ st.executed = indexRange 0 (sampleR chain3).handlers.length
      ∧ st.r.index = 2 * ((sampleR chain3).handlers.length : Int) :=
  next_runs_chain_once (sampleR chain3) rfl (by decide) (by simp [sampleR])
    (by
      intro h hm
      simp only [sampleR, chain3, List.mem_cons, List.mem_singleton, List.not_mem_nil,
        or_false] at hm
      rcases hm with rfl | rfl | rfl <;> simp [callsNextOnce])

set_option maxRecDepth 100000 in
/-- C1 (as stated) fails for a chain of 64 handlers that each call `Next()`
once: started at position -1, the run selects the handlers 0 to 63 and then
panics, the position having wrapped around to -128 in `int8`; it never returns
normally. -/
theorem next_runs_chain_once_counterexample :
    (∀ h ∈ (sampleR chain64).handlers, callsNextOnce h)
      ∧ (sampleR chain64).index = -1
      ∧ (∃ st : Exec, Reaches (fun f => Next f (Exec.start (sampleR chain64))) (Outcome.panic st)
          ∧ st.r.index = -128 ∧ st.executed = indexRange 0 64)
      ∧ ¬ ∃ st : Exec,
          Reaches (fun f => Next f (Exec.start (sampleR chain64))) (Outcome.done st) := by
  have hev : (Next 200 (Exec.start (sampleR chain64))).summary
      = some (false, -128, indexRange 0 64) := by decide!
  obtain ⟨st, h1, h2, h3⟩ := summary_panic _ _ _ hev
  have hr := Reaches.of_run _ _ _ h1 (by simp)
  refine ⟨?_, rfl, ⟨st, hr, h2, h3⟩, ?_⟩
  · intro h hm
    have : h = [Op.next] := by
      simp only [sampleR, chain64] at hm
      exact List.eq_of_mem_replicate hm
    rw [this]
    simp [callsNextOnce]
  · rintro ⟨st2, hd⟩
    have := Reaches.unique hr hd
    simp at this

theorem Reaches.next_in (hs : List HandlerFunc) (st : Exec) (o : Outcome)
    (hh : st.r.handlers = hs)
    (h : Reaches (fun f => forLoop f (int8 hs.length) (st.setIndex (int8 (st.r.index + 1)))) o) :
    Reaches (fun f => Next f st) o := by
  subst hh
  exact Reaches.of_Next _ _ h

theorem handlerAt_neg (hs : List HandlerFunc) (i : Int) (h : i < 0) : handlerAt hs i = none := by
  simp [handlerAt, h]

/-- Above the chain: when the position is at least the chain length, the next
increment ends the loop, or wraps around and panics; no handler is selected. -/
theorem loop_above (hs : List HandlerFunc) (hn : hs.length ≤ 127) (st : Exec)
    (hh : st.r.handlers = hs) (hd : st.r.RData ≠ none)
    (h1 : (hs.length : Int) ≤ st.r.index) (h2 : st.r.index ≤ 127) :
    ∃ st1 : Exec,
      ((Reaches (fun f => forLoop f (int8 hs.length) (st.setIndex (int8 (st.r.index + 1))))
            (Outcome.done st1) ∧ (hs.length : Int) ≤ st1.r.index ∧ st1.r.index ≤ 127)
          ∨ Reaches (fun f => forLoop f (int8 hs.length) (st.setIndex (int8 (st.r.index + 1))))
            (Outcome.panic st1))
        ∧ st1.executed = st.executed ∧ st1.r.handlers = hs ∧ st1.r.RData ≠ none := by
  have hs8 : int8 hs.length = (hs.length : Int) := int8_of_range _ (by omega) (by omega)
  by_cases hw : st.r.index = 127
  · have e : int8 (st.r.index + 1) = -128 := by rw [hw]; decide
    refine ⟨st.setIndex (int8 (st.r.index + 1)), Or.inr (Reaches.loop_range _ _ ?_ ?_),
      rfl, hh, hd⟩
    · show int8 (st.r.index + 1) < int8 hs.length
      rw [e, hs8]
      omega
    · show handlerAt st.r.handlers (int8 (st.r.index + 1)) = none
      rw [e]
      exact handlerAt_neg _ _ (by decide)
  · have e : int8 (st.r.index + 1) = st.r.index + 1 :=
      int8_of_range _ (by omega) (by omega)
    refine ⟨st.setIndex (int8 (st.r.index + 1)),
      Or.inl ⟨Reaches.loop_exit _ _ ?_, ?_, ?_⟩, rfl, hh, hd⟩
    · show ¬ int8 (st.r.index + 1) < int8 hs.length
      rw [e, hs8]
      omega
    · show (hs.length : Int) ≤ int8 (st.r.index + 1)
      rw [e]
      omega
    · show int8 (st.r.index + 1) ≤ 127
      rw [e]
      omega

/-- Above the chain, a handler body selects no handler, whatever it calls. -/
theorem invoke_above (hs : List HandlerFunc) (hn : hs.length ≤ 127) (ops : List Op) :
    ∀ st : Exec, st.r.handlers = hs → st.r.RData ≠ none →
      (hs.length : Int) ≤ st.r.index → st.r.index ≤ 127 →
      ∃ st1 : Exec,
        ((Reaches (fun f => invoke f ops st) (Outcome.done st1)
              ∧ (hs.length : Int) ≤ st1.r.index ∧ st1.r.index ≤ 127)
            ∨ Reaches (fun f => invoke f ops st) (Outcome.panic st1))
          ∧ st1.executed = st.executed ∧ st1.r.handlers = hs ∧ st1.r.RData ≠ none := by
  induction ops with
  | nil =>
    intro st hh hd h1 h2
    exact ⟨st, Or.inl ⟨Reaches.invoke_nil st, h1, h2⟩, rfl, hh, hd⟩
  | cons op ops ih =>
    intro st hh hd h1 h2
    cases op with
    | next =>
      obtain ⟨sa, ha, a1, a2, a3⟩ := loop_above hs hn st hh hd h1 h2
      rcases ha with ⟨ra, a4, a5⟩ | ra
      · obtain ⟨sb, hb, b1, b2, b3⟩ := ih sa a2 a3 a4 a5
        refine ⟨sb, ?_, by rw [b1, a1], b2, b3⟩
        rcases hb with ⟨rb, b4, b5⟩ | rb
        · exact Or.inl ⟨Reaches.invoke_next_done _ _ _ _ (Reaches.next_in hs _ _ hh ra) rb, b4, b5⟩
        · exact Or.inr (Reaches.invoke_next_done _ _ _ _ (Reaches.next_in hs _ _ hh ra) rb)
      · exact ⟨sa, Or.inr (Reaches.invoke_next_panic _ _ _ (Reaches.next_in hs _ _ hh ra)),
          a1, a2, a3⟩
    | abort code =>
      obtain ⟨sb, hb, b1, b2, b3⟩ := ih { st with r := st.r.Abort code } hh hd h1 h2
      refine ⟨sb, ?_, b1, b2, b3⟩
      rcases hb with ⟨rb, b4, b5⟩ | rb
      · exact Or.inl ⟨Reaches.invoke_abort _ _ _ _ rb, b4, b5⟩
      · exact Or.inr (Reaches.invoke_abort _ _ _ _ rb)
    | set key item =>
      cases hdat : st.r.RData with
      | none => exact absurd hdat hd
      | some d =>
        have hs1 : st.r.Set key item = some { st.r with RData := some (d.insert key item) } := by
          simp [R.Set, hdat]
        obtain ⟨sb, hb, b1, b2, b3⟩ :=
          ih { st with r := { st.r with RData := some (d.insert key item) } } hh (by simp) h1 h2
        refine ⟨sb, ?_, b1, b2, b3⟩
        rcases hb with ⟨rb, b4, b5⟩ | rb
        · exact Or.inl ⟨Reaches.invoke_set _ _ _ _ _ _ hs1 rb, b4, b5⟩
        · exact Or.inr (Reaches.invoke_set _ _ _ _ _ _ hs1 rb)

/-- Inside the chain: a handler body run at position `i`, given what the loop
does from position `i + 1`. Either the body returns at position `i` having
selected nothing (it made no call of `Next`), or its first call of `Next`
selected the handlers `i + 1, ..., n - 1`. -/
theorem invoke_below (hs : List HandlerFunc) (hn : hs.length ≤ 127) (i k : Nat)
    (hi : i < hs.length)
    (hloop : ∀ st : Exec, st.r.handlers = hs → st.r.RData ≠ none →
      st.r.index = ((i + 1 : Nat) : Int) →
      ∃ st1 : Exec,
        ((Reaches (fun f => forLoop f (int8 hs.length) st) (Outcome.done st1)
              ∧ (hs.length : Int) ≤ st1.r.index ∧ st1.r.index ≤ 127)
            ∨ Reaches (fun f => forLoop f (int8 hs.length) st) (Outcome.panic st1))
          ∧ st1.executed = st.executed ++ indexRange (i + 1) k
          ∧ st1.r.handlers = hs ∧ st1.r.RData ≠ none)
    (ops : List Op) :
    ∀ st : Exec, st.r.handlers = hs → st.r.RData ≠ none → st.r.index = (i : Int) →
      ∃ st1 : Exec, st1.r.handlers = hs ∧ st1.r.RData ≠ none
        ∧ ((Reaches (fun f => invoke f ops st) (Outcome.done st1)
              ∧ st1.r.index = (i : Int) ∧ st1.executed = st.executed)
          ∨ (((Reaches (fun f => invoke f ops st) (Outcome.done st1)
                  ∧ (hs.length : Int) ≤ st1.r.index ∧ st1.r.index ≤ 127)
                ∨ Reaches (fun f => invoke f ops st) (Outcome.panic st1))
              ∧ st1.executed = st.executed ++ indexRange (i + 1) k)) := by
  induction ops with
  | nil =>
    intro st hh hd hx
    exact ⟨st, hh, hd, Or.inl ⟨Reaches.invoke_nil st, hx, rfl⟩⟩
  | cons op ops ih =>
    intro st hh hd hx
    cases op with
    | next =>
      have e : int8 (st.r.index + 1) = ((i + 1 : Nat) : Int) := by
        rw [hx, int8_of_range _ (by omega) (by omega)]
        omega
      obtain ⟨sa, ha, a1, a2, a3⟩ := hloop (st.setIndex (int8 (st.r.index + 1))) hh hd e
      rcases ha with ⟨ra, a4, a5⟩ | ra
      · obtain ⟨sb, hb, b1, b2, b3⟩ := invoke_above hs hn ops sa a2 a3 a4 a5
        refine ⟨sb, b2, b3, Or.inr ⟨?_, by rw [b1, a1]; rfl⟩⟩
        rcases hb with ⟨rb, b4, b5⟩ | rb
        · exact Or.inl ⟨Reaches.invoke_next_done _ _ _ _ (Reaches.next_in hs _ _ hh ra) rb,
            b4, b5⟩
        · exact Or.inr (Reaches.invoke_next_done _ _ _ _ (Reaches.next_in hs _ _ hh ra) rb)
      · exact ⟨sa, a2, a3,
          Or.inr ⟨Or.inr (Reaches.invoke_next_panic _ _ _ (Reaches.next_in hs _ _ hh ra)),
            by rw [a1]; rfl⟩⟩
    | abort code =>
      obtain ⟨sb, b2, b3, hb⟩ := ih { st with r := st.r.Abort code } hh hd hx
      refine ⟨sb, b2, b3, ?_⟩
      rcases hb with ⟨rb, b4, b5⟩ | ⟨⟨rb, b4, b5⟩ | rb, b6⟩
      · exact Or.inl ⟨Reaches.invoke_abort _ _ _ _ rb, b4, b5⟩
      · exact Or.inr ⟨Or.inl ⟨Reaches.invoke_abort _ _ _ _ rb, b4, b5⟩, b6⟩
      · exact Or.inr ⟨Or.inr (Reaches.invoke_abort _ _ _ _ rb), b6⟩
    | set key item =>
      cases hdat : st.r.RData with
      | none => exact absurd hdat hd
      | some d =>
        have hs1 : st.r.Set key item = some { st.r with RData := some (d.insert key item) } := by
          simp [R.Set, hdat]
        obtain ⟨sb, b2, b3, hb⟩ :=
          ih { st with r := { st.r with RData := some (d.insert key item) } } hh (by simp) hx
        refine ⟨sb, b2, b3, ?_⟩
        rcases hb with ⟨rb, b4, b5⟩ | ⟨⟨rb, b4, b5⟩ | rb, b6⟩
        · exact Or.inl ⟨Reaches.invoke_set _ _ _ _ _ _ hs1 rb, b4, b5⟩
        · exact Or.inr ⟨Or.inl ⟨Reaches.invoke_set _ _ _ _ _ _ hs1 rb, b4, b5⟩, b6⟩
        · exact Or.inr ⟨Or.inr (Reaches.invoke_set _ _ _ _ _ _ hs1 rb), b6⟩

/-- The loop of `Next` from a position inside the chain selects every remaining
handler, in order, once, whatever the handlers call; then it returns or, the
position having passed 127, panics. -/
theorem loop_below (hs : List HandlerFunc) (hn : hs.length ≤ 127) :
    ∀ k : Nat, k ≤ hs.length → ∀ st : Exec, st.r.handlers = hs → st.r.RData ≠ none →
      st.r.index = ((hs.length - k : Nat) : Int) →
      ∃ st1 : Exec,
        ((Reaches (fun f => forLoop f (int8 hs.length) st) (Outcome.done st1)
              ∧ (hs.length : Int) ≤ st1.r.index ∧ st1.r.index ≤ 127)
            ∨ Reaches (fun f => forLoop f (int8 hs.length) st) (Outcome.panic st1))
          ∧ st1.executed = st.executed ++ indexRange (hs.length - k) k
          ∧ st1.r.handlers = hs ∧ st1.r.RData ≠ none := by
  have hs8 : int8 hs.length = (hs.length : Int) := int8_of_range _ (by omega) (by omega)
  intro k
  induction k with
  | zero =>
    intro _ st hh hd hx
    refine ⟨st, Or.inl ⟨Reaches.loop_exit _ _ ?_, ?_, ?_⟩, by simp [indexRange], hh, hd⟩
    · rw [hs8, hx]
      simp
    · rw [hx]
      simp
    · rw [hx]
      omega
  | succ k ih =>
    intro hk st hh hd hx
    obtain ⟨i, hik⟩ : ∃ i, i = hs.length - (k + 1) := ⟨_, rfl⟩
    rw [← hik] at hx ⊢
    have hil : i < hs.length := by omega
    have hi1 : hs.length - k = i + 1 := by omega
    have hlt : st.r.index < int8 hs.length := by
      rw [hs8, hx]
      omega
    have hat : handlerAt st.r.handlers st.r.index = some (hs.get ⟨i, hil⟩) := by
      rw [hh, hx]
      exact handlerAt_ofNat hs i hil
    have ih1 := ih (by omega)
    rw [hi1] at ih1
    obtain ⟨sa, a2, a3, ha⟩ := invoke_below hs hn i k hil ih1 (hs.get ⟨i, hil⟩)
      { st with executed := st.executed ++ [st.r.index] } hh hd hx
    have hexe : (st.executed ++ [st.r.index]) ++ indexRange (i + 1) k
        = st.executed ++ indexRange i (k + 1) := by
      rw [hx, indexRange_succ]
      simp
    rcases ha with ⟨ra, a4, a5⟩ | ⟨⟨ra, a4, a5⟩ | ra, a6⟩
    · -- the handler returned without a call of Next: the loop goes on at i + 1
      have e : int8 (sa.r.index + 1) = ((i + 1 : Nat) : Int) := by
        rw [a4, int8_of_range _ (by omega) (by omega)]
        omega
      obtain ⟨sb, hb, b1, b2, b3⟩ := ih1 (sa.setIndex (int8 (sa.r.index + 1))) a2 a3 e
      refine ⟨sb, ?_, ?_, b2, b3⟩
      · rcases hb with ⟨rb, b4, b5⟩ | rb
        · exact Or.inl ⟨Reaches.loop_done _ _ _ _ _ hlt hat ra rb, b4, b5⟩
        · exact Or.inr (Reaches.loop_done _ _ _ _ _ hlt hat ra rb)
      · rw [b1]
        show sa.executed ++ _ = _
        rw [a5]
        exact hexe
    · -- the handler called Next: the position is above the chain
      obtain ⟨sb, hb, b1, b2, b3⟩ := loop_above hs hn sa a2 a3 a4 a5
      refine ⟨sb, ?_, ?_, b2, b3⟩
      · rcases hb with ⟨rb, b4, b5⟩ | rb
        · exact Or.inl ⟨Reaches.loop_done _ _ _ _ _ hlt hat ra rb, b4, b5⟩
        · exact Or.inr (Reaches.loop_done _ _ _ _ _ hlt hat ra rb)
      · rw [b1, a6]
        exact hexe
    · -- the handler panicked in its call of Next
      refine ⟨sa, Or.inr (Reaches.loop_panic _ _ _ _ hlt hat ra), ?_, a2, a3⟩
      rw [a6]
      exact hexe

theorem summary_done (o : Outcome) (i : Int) (l : List Int)
    (h : o.summary = some (true, i, l)) :
    ∃ st, o = Outcome.done st ∧ st.r.index = i ∧ st.executed = l := by
  cases o with
  | done st =>
    simp only [Outcome.summary, Option.some.injEq, Prod.mk.injEq, true_and] at h
    exact ⟨st, rfl, h.1, h.2⟩
  | panic st => simp [Outcome.summary] at h
  | outOfFuel => simp [Outcome.summary] at h

/-- Every handler of a chain of at most 127 handlers is selected, in order and
once, by `Next()` from position -1, whatever the handlers call. -/
theorem chain_selects_all (r : R) (hidx : r.index = -1) (hlen : r.handlers.length ≤ 127)
    (hdata : r.RData ≠ none) :
    ∃ st : Exec,
      (Reaches (fun f => Next f (Exec.start r)) (Outcome.done st)
          ∨ Reaches (fun f => Next f (Exec.start r)) (Outcome.panic st))
        ∧ st.executed = indexRange 0 r.handlers.length := by
  have e0 : int8 ((Exec.start r).r.index + 1)
      = ((r.handlers.length - r.handlers.length : Nat) : Int) := by
    show int8 (r.index + 1) = _
    rw [hidx]
    simp [int8]
  obtain ⟨st, h1, h2, -, -⟩ := loop_below r.handlers hlen r.handlers.length (le_refl _)
    ((Exec.start r).setIndex (int8 ((Exec.start r).r.index + 1))) rfl hdata e0
  refine ⟨st, ?_, ?_⟩
  · rcases h1 with ⟨a, -, -⟩ | a
    · exact Or.inl (Reaches.of_Next _ _ a)
    · exact Or.inr (Reaches.of_Next _ _ a)
  · rw [h2]
    simp [Exec.start, Exec.setIndex]

/-- C2 (as stated) fails: in a 3-handler chain started by `Next()` from position
-1 whose second handler returns without calling `Next()` and without aborting,
the third handler (index 2) is executed. -/
theorem skipped_handlers_counterexample :
    (sampleR quietChain).index = -1
      ∧ quietChain.length = 3
      ∧ (∀ h, quietChain.get? 1 = some h → Op.next ∉ h ∧ ∀ code, Op.abort code ∉ h)
      ∧ ∃ st : Exec, Reaches (fun f => Next f (Exec.start (sampleR quietChain))) (Outcome.done st)
          ∧ st.executed = [0, 1, 2] ∧ (2 : Int) ∈ st.executed := by
  have hev : (Next 20 (Exec.start (sampleR quietChain))).summary
      = some (true, 4, [0, 1, 2]) := by decide!
  obtain ⟨st, h1, -, h3⟩ := summary_done _ _ _ hev
  refine ⟨rfl, rfl, ?_, st, Reaches.of_run _ _ _ h1 (by simp), h3, by rw [h3]; decide⟩
  intro h hh
  simp only [quietChain, List.get?_cons_succ, List.get?_cons_zero, Option.some.injEq] at hh
  subst hh
  simp

/-- C2 (amended). A handler that never calls `Next()` does not stop the chain:
for every 3-handler chain started by `Next()` from position -1 (with the
per-request store allocated), whether or not the second handler calls `Next()`
or aborts, the handlers selected are the first, the second and the third, in
this order and once each, so the third is executed after the second; the run
then returns, or panics when the calls of `Next()` have driven the position past
127. -/
theorem loop_runs_later_handlers (r : R) (h1 h2 h3 : HandlerFunc) (hidx : r.index = -1)
    (hh : r.handlers = [h1, h2, h3]) (hdata : r.RData ≠ none) :
    ∃ st : Exec,
      (Reaches (fun f => Next f (Exec.start r)) (Outcome.done st)
          ∨ Reaches (fun f => Next f (Exec.start r)) (Outcome.panic st))
        ∧ st.executed = [0, 1, 2] := by
  obtain ⟨st, a, b⟩ := chain_selects_all r hidx (by rw [hh]; simp) hdata
  refine ⟨st, a, ?_⟩
  rw [b, hh]
  rfl

/-- Witness for C2 (amended): the chain whose second handler only stores a
value. -/
theorem loop_runs_later_handlers_witness :
    ∃ st : Exec,
      (Reaches (fun f => Next f (Exec.start (sampleR quietChain))) (Outcome.done st)
          ∨ Reaches (fun f => Next f (Exec.start (sampleR quietChain))) (Outcome.panic st))
        ∧ st.executed = [0, 1, 2] :=
  loop_runs_later_handlers (sampleR quietChain) _ _ _ rfl rfl (by simp [sampleR])

/-- C3: the code does not do what the claim says. `Abort(code)` leaves the chain
position and the chain as they were, in `R` and in `Ctx`; and in the chain whose
first handler calls `Abort(500)`, started by `Next()` from position -1, the
second handler is executed after the abort, the status being 500. -/
theorem abort_leaves_position :
    (∀ (r : R) (code : Int),
        (r.Abort code).index = r.index ∧ (r.Abort code).handlers = r.handlers)
      ∧ (∀ (ctx : Ctx) (code : Int), (ctx.Abort code).index = ctx.index)
      ∧ ∃ st : Exec, Reaches (fun f => Next f (Exec.start (sampleR abortChain))) (Outcome.done st)
          ∧ st.executed = [0, 1] ∧ st.r.rw.Status = 500 := by
  refine ⟨fun r code => ⟨rfl, rfl⟩, ?_, ?_⟩
  · intro ctx code
    unfold Ctx.Abort defaultabort
    split <;> rfl
  · have hev : (Next 20 (Exec.start (sampleR abortChain))).summary
        = some (true, 2, [0, 1]) := by decide!
    obtain ⟨st, h1, -, h3⟩ := summary_done _ _ _ hev
    refine ⟨st, Reaches.of_run _ _ _ h1 (by simp), h3, ?_⟩
    have hst : (match Next 20 (Exec.start (sampleR abortChain)) with
        | Outcome.done s => s.r.rw.Status
        | _ => 0) = 500 := by decide!
    rw [h1] at hst
    exact hst

/-! ## The per-request store, `Copy`, and the pool -/

/-- C13. `Copy()` yields a detached snapshot: for every context `r`, the copy
has chain position `AbortIndex` (63) and an empty handler chain, every other
field being that of `r`; and `Next()` on the copy returns after selecting no
handler, at position 64. The copy is a struct value of its own, so the call
works on the position of the copy and `r` keeps its position and chain. -/
theorem copy_is_detached (r : R) :
    r.Copy.index = 63 ∧ r.Copy.handlers = []
      ∧ r.Copy.rw = r.rw ∧ r.Copy.Request = r.Request ∧ r.Copy.RSession = r.RSession
      ∧ r.Copy.RData = r.RData ∧ r.Copy.RFunc = r.RFunc ∧ r.Copy.App = r.App
      ∧ r.Copy.Ctx = r.Ctx
      ∧ ∃ st : Exec, Reaches (fun f => Next f (Exec.start r.Copy)) (Outcome.done st)
          ∧ st.executed = [] ∧ st.r.index = 64 ∧ st.r.handlers = [] := by
  refine ⟨by simp [R.Copy, AbortIndex], rfl, rfl, rfl, rfl, rfl, rfl, rfl, rfl, ?_⟩
  refine ⟨(Exec.start r.Copy).setIndex (int8 ((Exec.start r.Copy).r.index + 1)),
    Reaches.of_Next _ _ (Reaches.loop_exit _ _ ?_), rfl, ?_, rfl⟩
  · show ¬ int8 (r.Copy.index + 1) < int8 ((r.Copy.handlers.length : Nat) : Int)
    simp [R.Copy, AbortIndex, int8]
  · show int8 (r.Copy.index + 1) = 64
    simp [R.Copy, AbortIndex, int8]

/-- C14. Per-request store round trip: for every initialized store, keys
`k != k2` and value `v`, `Set(k, v)` returns, `Get(k)` after it returns
`(v, nil)`, the result of `Get(k2)` is the same before and after it, and `Get`
of a key that is not in the store returns a nil value with a non-nil error. -/
theorem store_round_trip (r : R) (d : ctxdata) (hd : r.RData = some d) (k k2 key : String)
    (v : Value) (hne : k ≠ k2) (habs : d.lookup key = none) :
    ∃ r1 : R, r.Set k v = some r1
      ∧ r1.Get k = (v, none)
      ∧ r1.Get k2 = r.Get k2
      ∧ (r.Get key).1 = Value.nil ∧ (r.Get key).2 ≠ none := by
  refine ⟨{ r with RData := some (d.insert k v) }, by simp [R.Set, hd], ?_, ?_, ?_, ?_⟩
  · simp [R.Get]
  · have : (d.insert k v).lookup k2 = d.lookup k2 := AList.lookup_insert_ne (Ne.symm hne)
    simp [R.Get, hd, this]
  · simp [R.Get, hd, habs]
  · simp [R.Get, hd, habs]

/-- Witness for C14: the store holds `user`; `lang` is set, `user` is read
back, `theme` is absent. -/
theorem store_round_trip_witness :
    ∃ r1 : R, (storeR).Set "lang" (Value.str "en") = some r1
      ∧ r1.Get "lang" = (Value.str "en", none)
      ∧ r1.Get "user" = storeR.Get "user"
      ∧ (storeR.Get "theme").1 = Value.nil ∧ (storeR.Get "theme").2 ≠ none :=
  store_round_trip storeR ((∅ : ctxdata).insert "user" (Value.str "ann")) rfl
    "lang" "user" "theme" (Value.str "en") (by decide) (by decide)

/-- C15. `MustGet(key)` returns a value exactly when the key is present with a
non-nil value, and the value is then the one `Get` returns with a nil error;
when the key is absent, or present with a nil value, it panics. -/
theorem mustget_returns_or_panics (r : R) (key : String) :
    (∀ v, r.MustGet key = some v ↔
        (r.RData.bind (fun d => d.lookup key) = some v ∧ v ≠ Value.nil))
      ∧ (∀ v, r.MustGet key = some v ↔ (r.Get key = (v, none) ∧ v ≠ Value.nil))
      ∧ (r.MustGet key = none ↔
          (r.RData.bind (fun d => d.lookup key) = none
            ∨ r.RData.bind (fun d => d.lookup key) = some Value.nil)) := by
  unfold R.MustGet R.Get
  cases h : r.RData.bind (fun d => d.lookup key) with
  | none => simp
  | some item =>
    by_cases hn : item = Value.nil
    · subst hn
      simp
    · simp only [hn, ne_eq, not_true_eq_false, or_self, if_false, Option.some.injEq,
        Prod.mk.injEq, and_true, false_or, reduceCtorEq, or_false]
      refine ⟨?_, ?_⟩
      · intro v
        constructor
        · intro e; subst e; exact ⟨rfl, hn⟩
        · intro e; exact e.1
      · intro v
        constructor
        · intro e; subst e; exact ⟨rfl, hn⟩
        · intro e; exact e.1

/-- C16: the code does not do what the claim and the doc comment of `Set` say.
A context built by `tmpR` has a nil per-request store, and `Set(key, item)` on
it panics (assignment to an entry of a nil map): nothing initializes the
map. -/
theorem set_on_nil_store_panics (a : App) (w : responseWriter) (req : Request)
    (nilCtx : EngineCtx) (key : String) (item : Value) :
    (tmpR a w req nilCtx).RData = none ∧ (tmpR a w req nilCtx).Set key item = none := by
  simp [tmpR, R.start, R.Set]

theorem mem_foldl_erase (ks : List String) : ∀ (m : ctxdata) (k : String),
    k ∈ ks.foldl (fun m k => m.erase k) m ↔ k ∈ m ∧ k ∉ ks := by
  induction ks with
  | nil => intro m k; simp
  | cons a ks ih =>
    intro m k
    simp only [List.foldl_cons, ih, AList.mem_erase, List.mem_cons, not_or]
    tauto

theorem clearData_eq (d : ctxdata) : clearData d = ∅ := by
  apply AList.ext
  show (clearData d).entries = []
  rw [List.eq_nil_iff_forall_not_mem]
  intro kv hkv
  have h1 : kv.1 ∈ clearData d := by
    rw [AList.mem_keys]
    exact List.mem_keys_of_mem hkv
  have h2 := (mem_foldl_erase d.keys d kv.1).1 h1
  exact h2.2 (AList.mem_keys.1 h2.1)

theorem foldlM_set (ps : List (String × String)) : ∀ (r : R) (d : ctxdata),
    r.RData = some d →
    ps.foldlM (fun (r : R) p => r.Set p.1 (Value.str p.2)) r
      = some { r with RData := some (ps.foldl (fun m p => m.insert p.1 (Value.str p.2)) d) } := by
  induction ps with
  | nil =>
    intro r d hd
    simp only [List.foldlM_nil, List.foldl_nil]
    rw [← hd]
    rfl
  | cons p ps ih =>
    intro r d hd
    have hs : r.Set p.1 (Value.str p.2)
        = some { r with RData := some (d.insert p.1 (Value.str p.2)) } := by
      simp [R.Set, hd]
    simp only [List.foldlM_cons, List.foldl_cons, hs, Option.some_bind, Option.bind_eq_bind]
    rw [ih _ (d.insert p.1 (Value.str p.2)) rfl]

theorem lookup_foldl_insert (ps : List (String × String)) : ∀ (m : ctxdata) (k : String)
    (v : Value),
    (ps.foldl (fun m p => m.insert p.1 (Value.str p.2)) m).lookup k = some v →
      m.lookup k = some v ∨ ∃ s, v = Value.str s ∧ (k, s) ∈ ps := by
  induction ps with
  | nil => intro m k v h; exact Or.inl h
  | cons p ps ih =>
    intro m k v h
    rcases ih _ k v h with h1 | ⟨s, h1, h2⟩
    · by_cases hk : k = p.1
      · subst hk
        rw [AList.lookup_insert] at h1
        refine Or.inr ⟨p.2, ?_, List.mem_cons_self _ _⟩
        exact (Option.some.inj h1).symm
      · rw [AList.lookup_insert_ne hk] at h1
        exact Or.inl h1
    · exact Or.inr ⟨s, h1, List.mem_cons_of_mem _ h2⟩

theorem mem_foldl_insert (ps : List (String × String)) : ∀ (m : ctxdata) (k : String),
    k ∈ ps.foldl (fun m p => m.insert p.1 (Value.str p.2)) m ↔ k ∈ m ∨ k ∈ ps.map Prod.fst := by
  induction ps with
  | nil => intro m k; simp
  | cons p ps ih =>
    intro m k
    simp only [List.foldl_cons, ih, AList.mem_insert, List.map_cons, List.mem_cons]
    tauto

/-- C12. Returning a context to the pool resets it: for every context state,
after `putR` the context has chain position -1, a nil session reference and a
per-request store without entries (the nil map stays nil), while its handler
chain, function table and `App` are unchanged; and when the store is allocated,
a `getR` that reuses the context returns it at position -1 with a store that
holds the route parameters of the new request and nothing else (no entry when
there is no parameter). -/
theorem put_resets_context (r : R) (c : EngineCtx) :
    (putR r).index = -1 ∧ (putR r).RSession = none
      ∧ (putR r).RData = r.RData.map (fun _ => (∅ : ctxdata))
      ∧ (putR r).handlers = r.handlers ∧ (putR r).RFunc = r.RFunc ∧ (putR r).App = r.App
      ∧ (r.RData ≠ none →
          ∃ r2 : R, getR (putR r) c = some r2 ∧ r2.index = -1
            ∧ r2.RData = some (paramStore c.Params)
            ∧ (∀ k, k ∈ paramStore c.Params ↔ k ∈ c.Params.map Prod.fst)
            ∧ (∀ k v, (paramStore c.Params).lookup k = some v →
                ∃ s, v = Value.str s ∧ (k, s) ∈ c.Params)
            ∧ (c.Params = [] → r2.RData = some ∅)) := by
  have hdata : (putR r).RData = r.RData.map (fun _ => (∅ : ctxdata)) := by
    show r.RData.map clearData = _
    cases r.RData with
    | none => rfl
    | some d => simp [clearData_eq]
  refine ⟨rfl, rfl, hdata, rfl, rfl, rfl, ?_⟩
  intro hne
  obtain ⟨d, hd⟩ := Option.ne_none_iff_exists'.1 hne
  rw [hd] at hdata
  obtain ⟨r3, hr3⟩ : ∃ r3 : R,
      r3 = { putR r with Request := c.Request, rw := c.RW, Ctx := c } := ⟨_, rfl⟩
  have h3 : r3.RData = some ∅ := by rw [hr3]; exact hdata
  have hfold := foldlM_set c.Params r3 ∅ h3
  have hget : getR (putR r) c
      = some (R.start { r3 with RData := some (paramStore c.Params) }) := by
    have e : getR (putR r) c
        = match c.Params.foldlM (fun (r : R) p => r.Set p.1 (Value.str p.2)) r3 with
          | none => none
          | some r4 => some r4.start := by
      rw [hr3]
      rfl
    rw [e, hfold]
    rfl
  refine ⟨_, hget, ?_, rfl, ?_, ?_, ?_⟩
  · show r3.index = -1
    rw [hr3]
    rfl
  · intro k
    have := mem_foldl_insert c.Params ∅ k
    simpa [paramStore] using this
  · intro k v hv
    rcases lookup_foldl_insert c.Params ∅ k v hv with h | h
    · simp at h
    · exact h
  · intro hp
    show some (paramStore c.Params) = some ∅
    rw [hp]
    rfl

/-- Witness for C12: a context whose store holds `user` is put back and reused
for a request with the parameters `id` and `tab`. -/
theorem put_resets_context_witness :
    storeR.RData ≠ none
      ∧ ∃ r2 : R, getR (putR storeR) paramCtx = some r2 ∧ r2.index = -1
          ∧ r2.RData = some (paramStore paramCtx.Params)
          ∧ (∀ k, k ∈ paramStore paramCtx.Params ↔ k ∈ paramCtx.Params.map Prod.fst)
          ∧ (∀ k v, (paramStore paramCtx.Params).lookup k = some v →
              ∃ s, v = Value.str s ∧ (k, s) ∈ paramCtx.Params)
          ∧ (paramCtx.Params = [] → r2.RData = some ∅) :=
  ⟨by simp [storeR], (put_resets_context storeR paramCtx).2.2.2.2.2.2 (by simp [storeR])⟩

/-! ## Retrieve-all, rendering, URL construction -/

theorem SessionStore.Get_Delete (s : SessionStore) (k : String) :
    (s.Delete k).Get k = Value.nil ∧ (s.Delete k).values.lookup k = none := by
  simp [SessionStore.Get, SessionStore.Delete]

theorem allflashmessages_eq (r : R) (sess : SessionStore) (hr : r.RSession = some sess) :
    allflashmessages r
      = some ({ r with RSession := some (sess.Delete "_flashes") },
          (sess.Get "_flashes").asStrMap) := by
  unfold allflashmessages
  rw [hr]
  by_cases h : sess.Get "_flashes" = Value.nil
  · simp [h, Value.asStrMap]
  · simp [h]

theorem ctx_allflashmessages_eq (ctx : Ctx) :
    ctx.allflashmessages
      = ({ ctx with Session := ctx.Session.Delete "_flashes" },
          (ctx.Session.Get "_flashes").asStrMap) := by
  unfold Ctx.allflashmessages
  by_cases h : ctx.Session.Get "_flashes" = Value.nil
  · simp [h, Value.asStrMap]
  · simp [h]

theorem flashmessages_of_nil (r : R) (sess : SessionStore) (cs : List String)
    (hr : r.RSession = some sess) (hn : sess.Get "_flashes" = Value.nil) :
    flashmessages r cs = some (r, []) := by
  simp [flashmessages, hr, hn]

theorem ctx_flashmessages_of_nil (ctx : Ctx) (cs : List String)
    (hn : ctx.Session.Get "_flashes" = Value.nil) :
    ctx.flashmessages cs = (ctx, []) := by
  simp [Ctx.flashmessages, hn]

/-- C11. Retrieve-all returns everything and empties the flash store: when the
flash entry of the session is the mapping `M`, `allflashmessages` returns `M`
and leaves the session without a value under the flash key, so that a second
`allflashmessages` returns the nil mapping and a following `flashmessages`
returns nothing (in `r.go` and in `ctx_functions.go`); and after two categories
were set on a session without flash entry, the mapping returned holds both
entries and no other. -/
theorem allflash_empties_store (sess : SessionStore) (M : StrMap)
    (hM : sess.Get "_flashes" = Value.strmap M)
    (r : R) (hr : r.RSession = some sess) (ctx : Ctx) (hc : ctx.Session = sess)
    (r0 : R) (s0 : SessionStore) (h0 : r0.RSession = some s0)
    (hnil : s0.Get "_flashes" = Value.nil) (c1 m1 c2 m2 : String) (hne : c1 ≠ c2) :
    (∃ (r1 r2 : R) (s1 : SessionStore),
        allflashmessages r = some (r1, some M)
          ∧ r1.RSession = some s1 ∧ s1.values.lookup "_flashes" = none
          ∧ allflashmessages r1 = some (r2, none)
          ∧ (∀ cs, flashmessages r1 cs = some (r1, []))
          ∧ (∀ cs, flashmessages r2 cs = some (r2, [])))
      ∧ (ctx.allflashmessages.2 = some M
          ∧ ctx.allflashmessages.1.Session.values.lookup "_flashes" = none
          ∧ ctx.allflashmessages.1.allflashmessages.2 = none
          ∧ (∀ cs, (ctx.allflashmessages.1.flashmessages cs).2 = [])
          ∧ (∀ cs, (ctx.allflashmessages.1.allflashmessages.1.flashmessages cs).2 = []))
      ∧ (∃ (ra rb rc : R) (Mab : StrMap),
          flash r0 c1 m1 = some (ra, none) ∧ flash ra c2 m2 = some (rb, none)
            ∧ allflashmessages rb = some (rc, some Mab)
            ∧ Mab.lookup c1 = some m1 ∧ Mab.lookup c2 = some m2
            ∧ (∀ k, k ≠ c1 → k ≠ c2 → Mab.lookup k = none)) := by
  obtain ⟨s1, hs1⟩ : ∃ s1 : SessionStore, s1 = sess.Delete "_flashes" := ⟨_, rfl⟩
  have g1 : s1.Get "_flashes" = Value.nil := by rw [hs1]; exact (SessionStore.Get_Delete _ _).1
  have l1 : s1.values.lookup "_flashes" = none := by
    rw [hs1]; exact (SessionStore.Get_Delete _ _).2
  obtain ⟨s2, hs2⟩ : ∃ s2 : SessionStore, s2 = s1.Delete "_flashes" := ⟨_, rfl⟩
  have g2 : s2.Get "_flashes" = Value.nil := by rw [hs2]; exact (SessionStore.Get_Delete _ _).1
  refine ⟨?_, ?_, ?_⟩
  · refine ⟨{ r with RSession := some s1 }, { r with RSession := some s2 }, s1, ?_, rfl, l1,
      ?_, ?_, ?_⟩
    · rw [allflashmessages_eq r sess hr, hM, hs1]
      rfl
    · rw [allflashmessages_eq { r with RSession := some s1 } s1 rfl, g1, hs2]
      rfl
    · intro cs
      exact flashmessages_of_nil _ s1 cs rfl g1
    · intro cs
      exact flashmessages_of_nil _ s2 cs rfl g2
  · subst hc
    rw [ctx_allflashmessages_eq ctx, hM]
    refine ⟨rfl, ?_, ?_, ?_, ?_⟩
    · show (ctx.Session.Delete "_flashes").values.lookup "_flashes" = none
      rw [← hs1]; exact l1
    · rw [ctx_allflashmessages_eq]
      show ((ctx.Session.Delete "_flashes").Get "_flashes").asStrMap = none
      rw [← hs1, g1]
      rfl
    · intro cs
      rw [ctx_flashmessages_of_nil _ cs (by
        show (ctx.Session.Delete "_flashes").Get "_flashes" = Value.nil
        rw [← hs1]; exact g1)]
    · intro cs
      rw [ctx_allflashmessages_eq]
      rw [ctx_flashmessages_of_nil _ cs (by
        show ((ctx.Session.Delete "_flashes").Delete "_flashes").Get "_flashes" = Value.nil
        rw [← hs1, ← hs2]; exact g2)]
  · obtain ⟨sa, hsa⟩ : ∃ sa : SessionStore,
        sa = s0.Set "_flashes" (Value.strmap ((∅ : StrMap).insert c1 m1)) := ⟨_, rfl⟩
    have ga : sa.Get "_flashes" = Value.strmap ((∅ : StrMap).insert c1 m1) := by
      rw [hsa]; exact SessionStore.Get_Set _ _ _
    obtain ⟨sb, hsb⟩ : ∃ sb : SessionStore,
        sb = sa.Set "_flashes" (Value.strmap (((∅ : StrMap).insert c1 m1).insert c2 m2)) :=
      ⟨_, rfl⟩
    have gb : sb.Get "_flashes"
        = Value.strmap (((∅ : StrMap).insert c1 m1).insert c2 m2) := by
      rw [hsb]; exact SessionStore.Get_Set _ _ _
    refine ⟨{ r0 with RSession := some sa }, { r0 with RSession := some sb },
      { r0 with RSession := some (sb.Delete "_flashes") },
      ((∅ : StrMap).insert c1 m1).insert c2 m2, ?_, ?_, ?_, ?_, ?_, ?_⟩
    · simp [flash, h0, hnil, hsa]
    · simp [flash, ga, Value.asStrMap, hsb]
    · rw [allflashmessages_eq { r0 with RSession := some sb } sb rfl, gb]
      rfl
    · rw [AList.lookup_insert_ne hne, AList.lookup_insert]
    · rw [AList.lookup_insert]
    · intro k hk1 hk2
      rw [AList.lookup_insert_ne hk2, AList.lookup_insert_ne hk1]
      rfl

/-- Witness for C11: the session holds `info -> a` and `warn -> b`; and the two
categories are set on an empty session. -/
theorem allflash_empties_store_witness :
    (∃ (r1 r2 : R) (s1 : SessionStore),
        allflashmessages (flashR []) = some (r1, some sampleFlashes)
          ∧ r1.RSession = some s1 ∧ s1.values.lookup "_flashes" = none
          ∧ allflashmessages r1 = some (r2, none)
          ∧ (∀ cs, flashmessages r1 cs = some (r1, []))
          ∧ (∀ cs, flashmessages r2 cs = some (r2, [])))
      ∧ (flashCtx.allflashmessages.2 = some sampleFlashes
          ∧ flashCtx.allflashmessages.1.Session.values.lookup "_flashes" = none
          ∧ flashCtx.allflashmessages.1.allflashmessages.2 = none
          ∧ (∀ cs, (flashCtx.allflashmessages.1.flashmessages cs).2 = [])
          ∧ (∀ cs, (flashCtx.allflashmessages.1.allflashmessages.1.flashmessages cs).2 = []))
      ∧ (∃ (ra rb rc : R) (Mab : StrMap),
          flash (sampleR []) "info" "a" = some (ra, none)
            ∧ flash ra "warn" "b" = some (rb, none)
            ∧ allflashmessages rb = some (rc, some Mab)
            ∧ Mab.lookup "info" = some "a" ∧ Mab.lookup "warn" = some "b"
            ∧ (∀ k, k ≠ "info" → k ≠ "warn" → Mab.lookup k = none)) :=
  allflash_empties_store flashSession sampleFlashes (SessionStore.Get_Set _ _ _)
    (flashR []) rfl flashCtx rfl (sampleR []) { values := ∅ } rfl (by decide)
    "info" "a" "warn" "b" (by decide)

/-! ## Optional capabilities of the writer, and the registry -/

/-- C17: the code does not do what the claim says for `CloseNotify`. On a
stream without the optional interfaces, `Hijack` returns the error with nil
connection and buffer and changes nothing, `Flush` changes nothing, but
`CloseNotify` panics: its type assertion has no `ok` test, unlike those of
`Hijack` and `Flush`. On a stream that has the interfaces, each call passes
through. -/
theorem closenotify_panics_without_capability (w0 : responseWriter) (s : HttpStream)
    (res : Option Nat × Option Nat × Option String) (ch : Nat) :
    (w0.reset s.bare).CloseNotify = none
      ∧ (w0.reset s.bare).Hijack
          = (w0.reset s.bare, none, none,
              some "the ResponseWriter doesn't support the Hijacker interface")
      ∧ (w0.reset s.bare).Flush = w0.reset s.bare
      ∧ (w0.reset (s.capable res ch)).CloseNotify = some ch
      ∧ (w0.reset (s.capable res ch)).Hijack.2 = res
      ∧ (w0.reset (s.capable res ch)).Hijack.1.ResponseWriter.events
          = s.events ++ [Event.hijacked]
      ∧ (w0.reset (s.capable res ch)).Flush.ResponseWriter.events
          = s.events ++ [Event.flushed] := by
  refine ⟨rfl, rfl, rfl, rfl, rfl, rfl, rfl⟩

theorem goodFunc_iff (fn : GoValue) : goodFunc (valueFunc fn) = true ↔ acceptedShape fn := by
  unfold acceptedShape valueFunc
  constructor
  · intro h
    cases fn with
    | plain text => simp [goodFunc] at h
    | func name out =>
      refine ⟨name, out, rfl, ?_⟩
      match out, h with
      | [_], _ => exact Or.inl rfl
      | [_, GoType.error], _ => exact Or.inr ⟨rfl, rfl⟩
  · rintro ⟨name, out, rfl, h⟩
    rcases h with h | ⟨h1, h2⟩
    · match out, h with
      | [_], _ => rfl
    · match out, h1, h2 with
      | [_, b], _, h2 =>
        simp only [List.get?_cons_succ, List.get?_cons_zero, Option.some.injEq] at h2
        subst h2
        rfl

/-- C19. Registration is fail-fast and overriding: for every registry, name and
value `fn`, `AddCtxFunc(name, fn)` returns nil exactly when `fn` is a function
whose result is one value or one value plus one error-typed value; it then
binds `name` to `fn`, replacing an earlier binding, and leaves every other name
as it was; otherwise it returns an error and the registry is unchanged. -/
theorem addctxfunc_validates (env : Env) (name : String) (fn : GoValue) :
    ((env.AddCtxFunc name fn).2 = none ↔ acceptedShape fn)
      ∧ (acceptedShape fn →
          (env.AddCtxFunc name fn).1.ctxfunctions.lookup name = some fn
            ∧ (∀ n, n ≠ name →
                (env.AddCtxFunc name fn).1.ctxfunctions.lookup n = env.ctxfunctions.lookup n)
            ∧ (env.AddCtxFunc name fn).1.Templator = env.Templator
            ∧ (env.AddCtxFunc name fn).1.SessionManager = env.SessionManager)
      ∧ (¬ acceptedShape fn →
          (env.AddCtxFunc name fn).1 = env ∧ (env.AddCtxFunc name fn).2 ≠ none) := by
  by_cases h : goodFunc (valueFunc fn) = true
  · have ha := (goodFunc_iff fn).1 h
    have e : env.AddCtxFunc name fn
        = ({ env with ctxfunctions := env.ctxfunctions.insert name fn }, none) := by
      simp [Env.AddCtxFunc, validCtxFunc, h]
    rw [e]
    refine ⟨⟨fun _ => ha, fun _ => rfl⟩, ?_, fun hn => absurd ha hn⟩
    intro _
    refine ⟨AList.lookup_insert _, ?_, rfl, rfl⟩
    intro n hn
    exact AList.lookup_insert_ne hn
  · have ha : ¬ acceptedShape fn := fun x => h ((goodFunc_iff fn).2 x)
    have e : (env.AddCtxFunc name fn).1 = env ∧ (env.AddCtxFunc name fn).2 ≠ none := by
      simp [Env.AddCtxFunc, validCtxFunc, h]
    refine ⟨⟨fun x => absurd x e.2, fun x => absurd x ha⟩, fun x => absurd x ha, fun _ => e⟩

/-- Witness for C19: a function returning one value is accepted and bound; a
function returning two values whose second is not an error is rejected and the
registry is unchanged. -/
theorem addctxfunc_validates_witness :
    acceptedShape oneValueFunc ∧ ¬ acceptedShape twoValueFunc
      ∧ (sampleApp.Env.AddCtxFunc "hello" oneValueFunc).2 = none
      ∧ (sampleApp.Env.AddCtxFunc "hello" oneValueFunc).1.ctxfunctions.lookup "hello"
          = some oneValueFunc
      ∧ (sampleApp.Env.AddCtxFunc "pair" twoValueFunc).1 = sampleApp.Env
      ∧ (sampleApp.Env.AddCtxFunc "pair" twoValueFunc).2 ≠ none := by
  have h1 : acceptedShape oneValueFunc := ⟨"hello", [GoType.other "string"], rfl, Or.inl rfl⟩
  have h2 : ¬ acceptedShape twoValueFunc := by
    intro h
    have := (goodFunc_iff twoValueFunc).2 h
    simp [goodFunc, valueFunc, twoValueFunc] at this
  exact ⟨h1, h2,
    (addctxfunc_validates sampleApp.Env "hello" oneValueFunc).1.2 h1,
    ((addctxfunc_validates sampleApp.Env "hello" oneValueFunc).2.1 h1).1,
    ((addctxfunc_validates sampleApp.Env "pair" twoValueFunc).2.2 h2).1,
    ((addctxfunc_validates sampleApp.Env "pair" twoValueFunc).2.2 h2).2⟩

theorem call_urlfor {C : Type}
    (builtin : C → String → Bool → List String → String × Option Error)
    (other : Option GoValue → List (Arg C) → Value × Option Error)
    (c : C) (route : String) (external : Bool) (params : List String) :
    call builtin other (some urlforValue)
        [Arg.ctx c, Arg.string route, Arg.bool external, Arg.strings params]
      = (Value.str (builtin c route external params).1, (builtin c route external params).2) := by
  simp [call]

/-- C18 (as stated) fails for a context whose registry binds `urlfor` to
another function: after `AddCtxFunc("urlfor", shorturl)`, which is accepted,
the context that `tmpR` makes has `shorturl` under the name `urlfor`; the
route `missing-route` is absent and `urlfor` returns the empty string with its
error, and `UrlRelative` and `UrlExternal` return `/s`, the result of
`shorturl`, not the text of that error. -/
theorem urlfor_override_counterexample :
    (builtinApp.Env.AddCtxFunc "urlfor" shortUrl).2 = none
      ∧ overrideR.RFunc.lookup "urlfor" = some shortUrl
      ∧ overrideR.App.Routes.lookup "missing-route" = none
      ∧ urlfor plainUrlString overrideR "missing-route" false []
          = ("", some "unable to get url for route missing-route with params []")
      ∧ R.UrlRelative plainUrlString shortBehaviour overrideR "missing-route" [] = some "/s"
      ∧ R.UrlExternal plainUrlString shortBehaviour overrideR "missing-route" [] = some "/s"
      ∧ R.UrlRelative plainUrlString shortBehaviour overrideR "missing-route" []
          ≠ some (urlforError "missing-route" []) := by
  have h1 : overrideR.RFunc.lookup "urlfor" = some shortUrl := by decide
  have h2 : overrideR.App.Routes.lookup "missing-route" = none := by
    show ((∅ : AList (fun _ : String => Route)).insert "user" userRoute).lookup
      "missing-route" = none
    rw [AList.lookup_insert_ne (by decide)]
    rfl
  have e1 : R.UrlRelative plainUrlString shortBehaviour overrideR "missing-route" []
      = some "/s" := by
    simp only [R.UrlRelative, R.Call, h1]
    decide
  have e2 : R.UrlExternal plainUrlString shortBehaviour overrideR "missing-route" []
      = some "/s" := by
    simp only [R.UrlExternal, R.Call, h1]
    decide
  refine ⟨by decide, h1, h2, ?_, e1, e2, ?_⟩
  · simp only [urlfor, h2]
    decide
  · rw [e1]
    decide

/-- C18. URL construction does not crash on a bad route: when the route name is
absent from the route table, or its `Url(params)` yields no URL, `urlfor`
returns the empty string with the error `unable to get url for route <name>
with params <params>`, and, in a context whose registry binds the name `urlfor`
to the function `urlfor`, `UrlRelative` and `UrlExternal` return the text of
that error; when the route exists and a URL is built, `urlfor` returns its
string with a nil error and, in such a context, `UrlRelative` returns the
string of the URL as built, host untouched, and `UrlExternal` that of the URL
with the host of the request (in `r.go` and in `ctx_functions.go`). -/
theorem urlfor_error_is_text (urlString : URL → String)
    (otherR : Option GoValue → List (Arg R) → Value × Option Error)
    (otherCtx : Option GoValue → List (Arg Ctx) → Value × Option Error)
    (r : R) (ctx : Ctx) (route : String) (params : List String) :
    urlforError route params
        = "unable to get url for route " ++ route ++ " with params " ++ sliceText params
      ∧ ((r.App.Routes.lookup route = none
            ∨ ∃ rt, r.App.Routes.lookup route = some rt ∧ rt.Url params = none) →
          (∀ external, urlfor urlString r route external params
              = ("", some (urlforError route params)))
            ∧ (r.RFunc.lookup "urlfor" = some urlforValue →
                R.UrlRelative urlString otherR r route params = some (urlforError route params)
                  ∧ R.UrlExternal urlString otherR r route params
                      = some (urlforError route params)))
      ∧ (∀ rt u, r.App.Routes.lookup route = some rt → rt.Url params = some u →
          urlfor urlString r route false params = (urlString u, none)
            ∧ (r.RFunc.lookup "urlfor" = some urlforValue →
                R.UrlRelative urlString otherR r route params = some (urlString u)
                  ∧ R.UrlExternal urlString otherR r route params
                      = some (urlString { u with Host := r.Request.Host })))
      ∧ ((ctx.App.Routes.lookup route = none
            ∨ ∃ rt, ctx.App.Routes.lookup route = some rt ∧ rt.Url params = none) →
          (∀ external, ctx.urlfor urlString route external params
              = ("", some (urlforError route params)))
            ∧ (ctx.functionTable.lookup "urlfor" = some urlforValue →
                ctx.UrlRelative urlString otherCtx route params
                    = some (urlforError route params)
                  ∧ ctx.UrlExternal urlString otherCtx route params
                      = some (urlforError route params)))
      ∧ (∀ rt u, ctx.App.Routes.lookup route = some rt → rt.Url params = some u →
          ctx.urlfor urlString route false params = (urlString u, none)
            ∧ (ctx.functionTable.lookup "urlfor" = some urlforValue →
                ctx.UrlRelative urlString otherCtx route params = some (urlString u)
                  ∧ ctx.UrlExternal urlString otherCtx route params
                      = some (urlString { u with Host := ctx.Request.Host }))) := by
  refine ⟨rfl, ?_, ?_, ?_, ?_⟩
  · intro h
    have hb : (r.App.Routes.lookup route).bind (fun rt => rt.Url params) = none := by
      rcases h with h | ⟨rt, h1, h2⟩
      · rw [h]; rfl
      · rw [h1]; exact h2
    have hu : ∀ external, urlfor urlString r route external params
        = ("", some (urlforError route params)) := by
      intro external
      simp only [urlfor, hb]
    refine ⟨hu, ?_⟩
    intro hf
    constructor
    · simp only [R.UrlRelative, R.Call, hf, call_urlfor, hu]
    · simp only [R.UrlExternal, R.Call, hf, call_urlfor, hu]
  · intro rt u h1 h2
    have hb : (r.App.Routes.lookup route).bind (fun rt => rt.Url params) = some u := by
      rw [h1]; exact h2
    refine ⟨?_, ?_⟩
    · simp [urlfor, hb]
    · intro hf
      constructor
      · simp [R.UrlRelative, R.Call, hf, call_urlfor, urlfor, hb, Value.asString]
      · simp [R.UrlExternal, R.Call, hf, call_urlfor, urlfor, hb, Value.asString]
  · intro h
    have hb : (ctx.App.Routes.lookup route).bind (fun rt => rt.Url params) = none := by
      rcases h with h | ⟨rt, h1, h2⟩
      · rw [h]; rfl
      · rw [h1]; exact h2
    have hu : ∀ external, ctx.urlfor urlString route external params
        = ("", some (urlforError route params)) := by
      intro external
      simp only [Ctx.urlfor, hb]
    refine ⟨hu, ?_⟩
    intro hf
    constructor
    · simp only [Ctx.UrlRelative, Ctx.Call, hf, call_urlfor, hu]
    · simp only [Ctx.UrlExternal, Ctx.Call, hf, call_urlfor, hu]
  · intro rt u h1 h2
    have hb : (ctx.App.Routes.lookup route).bind (fun rt => rt.Url params) = some u := by
      rw [h1]; exact h2
    refine ⟨?_, ?_⟩
    · simp [Ctx.urlfor, hb]
    · intro hf
      constructor
      · simp [Ctx.UrlRelative, Ctx.Call, hf, call_urlfor, Ctx.urlfor, hb, Value.asString]
      · simp [Ctx.UrlExternal, Ctx.Call, hf, call_urlfor, Ctx.urlfor, hb, Value.asString]

/-- Witness for C18: the context that `tmpR` makes after the registration of
`builtinctxfuncs` binds `urlfor` to the function `urlfor`; the route
`missing-route` is not in the table; the route `user` exists and builds
`/user/7` from one parameter, and no URL from two. -/
theorem urlfor_error_is_text_witness :
    builtinR.RFunc.lookup "urlfor" = some urlforValue
      ∧ R.UrlRelative plainUrlString shortBehaviour builtinR "missing-route" []
        = some "unable to get url for route missing-route with params []"
      ∧ builtinCtx.UrlRelative plainUrlString (fun _ _ => (Value.nil, none)) "missing-route" []
        = some "unable to get url for route missing-route with params []"
      ∧ R.UrlExternal plainUrlString shortBehaviour builtinR "user" ["7", "8"]
        = some "unable to get url for route user with params [7 8]"
      ∧ R.UrlRelative plainUrlString shortBehaviour builtinR "user" ["7"] = some "/user/7"
      ∧ R.UrlExternal plainUrlString shortBehaviour builtinR "user" ["7"]
        = some "//example.org/user/7" := by
  have hroutes : ((∅ : AList (fun _ : String => Route)).insert "user" userRoute).lookup
      "missing-route" = none := by
    rw [AList.lookup_insert_ne (by decide)]
    rfl
  have hmiss : builtinR.App.Routes.lookup "missing-route" = none := hroutes
  have hmissc : builtinCtx.App.Routes.lookup "missing-route" = none := hroutes
  have huser : builtinR.App.Routes.lookup "user" = some userRoute :=
    AList.lookup_insert _
  have hf : builtinR.RFunc.lookup "urlfor" = some urlforValue := by decide
  have hfc : builtinCtx.functionTable.lookup "urlfor" = some urlforValue :=
    AList.lookup_insert _
  have t0 := urlfor_error_is_text plainUrlString shortBehaviour (fun _ _ => (Value.nil, none))
    builtinR builtinCtx "missing-route" []
  have t1 := urlfor_error_is_text plainUrlString shortBehaviour (fun _ _ => (Value.nil, none))
    builtinR builtinCtx "user" ["7", "8"]
  have t2 := urlfor_error_is_text plainUrlString shortBehaviour (fun _ _ => (Value.nil, none))
    builtinR builtinCtx "user" ["7"]
  refine ⟨hf, ?_, ?_, ?_, ?_, ?_⟩
  · rw [((t0.2.1 (Or.inl hmiss)).2 hf).1]
    decide
  · rw [((t0.2.2.2.1 (Or.inl hmissc)).2 hfc).1]
    decide
  · rw [((t1.2.1 (Or.inr ⟨userRoute, huser, rfl⟩)).2 hf).2]
    decide
  · rw [((t2.2.2.1 userRoute _ huser rfl).2 hf).1]
    decide
  · rw [((t2.2.2.1 userRoute _ huser rfl).2 hf).2]
    decide

/-- C20 (as stated) fails for `rendertemplate` of `ctx_functions.go`: with a
renderer that fails on every call, `rendertemplate` returns nil, not the error
of the renderer; it has not invoked the renderer and has not released the
session, it has pushed the call of the renderer as a finalization step. -/
theorem render_error_counterexample :
    (failingCtx.App.Env.Templator.respond failingCtx.rw "home"
        (failingCtx.TemplateData Value.nil).2).2 = some "template not found"
      ∧ (failingCtx.rendertemplate "home" Value.nil).2 = none
      ∧ (failingCtx.rendertemplate "home" Value.nil).1.App.Env.Templator.calls = []
      ∧ (failingCtx.rendertemplate "home" Value.nil).1.rw.ResponseWriter.events = []
      ∧ (failingCtx.rendertemplate "home" Value.nil).1.deferred
          = [Deferred.render "home" (failingCtx.TemplateData Value.nil).2] := by
  refine ⟨rfl, rfl, rfl, rfl, rfl⟩

/-- C20 (amended). In `rendertemplate` of `r.go` the session is released before
the renderer runs: for every context with a session, template name and data,
the envelope is built first (its `Flash` field is the flash mapping of the
session, nil when there is none, and the flash key is thereby deleted from the
session; `Data`, `Request`, `Session` and `RData` are the data of the caller
and the fields of the context), then the session is released onto the writer,
and then the renderer is invoked exactly once, on the writer that has received
the release and with that envelope; its error is returned unchanged.
`rendertemplate` of `ctx_functions.go` builds the envelope in the same way,
pushes the call of the renderer as a finalization step and returns nil. -/
theorem render_after_release (r : R) (sess : SessionStore) (hr : r.RSession = some sess)
    (ctx : Ctx) (name : String) (data : Value) :
    (∃ (r1 : R) (td : tdata) (wrel : responseWriter),
        td.Data = data ∧ td.Request = r.Request ∧ td.RData = r.RData
          ∧ td.Session = some (sess.Delete "_flashes")
          ∧ td.Flash = (sess.Get "_flashes").asStrMap
          ∧ (sess.Delete "_flashes").Get "_flashes" = Value.nil
          ∧ wrel = (sess.Delete "_flashes").SessionRelease r.rw
          ∧ wrel.ResponseWriter.events = r.rw.ResponseWriter.events ++ [Event.released]
          ∧ rendertemplate r name data
              = some (r1, (r.App.Env.Templator.respond wrel name td).2)
          ∧ r1.rw = (r.App.Env.Templator.respond wrel name td).1
          ∧ r1.RSession = some (sess.Delete "_flashes")
          ∧ r1.App.Env.Templator.calls = r.App.Env.Templator.calls
              ++ [{ seen := r.rw.ResponseWriter.events ++ [Event.released], name := name,
                    td := td }])
      ∧ (ctx.rendertemplate name data).2 = none
      ∧ (∃ tdc : tdata,
          (ctx.rendertemplate name data).1.deferred = ctx.deferred ++ [Deferred.render name tdc]
            ∧ tdc.Data = data ∧ tdc.Request = ctx.Request ∧ tdc.RData = ctx.Data
            ∧ tdc.Session = some (ctx.Session.Delete "_flashes")
            ∧ tdc.Flash = (ctx.Session.Get "_flashes").asStrMap)
      ∧ (ctx.rendertemplate name data).1.Session = ctx.Session.Delete "_flashes"
      ∧ (ctx.rendertemplate name data).1.rw = ctx.rw
      ∧ (ctx.rendertemplate name data).1.App = ctx.App := by
  obtain ⟨td, htd⟩ : ∃ td : tdata, td =
      { Data := data, Request := r.Request, Session := some (sess.Delete "_flashes"),
        RData := r.RData, Flash := (sess.Get "_flashes").asStrMap } := ⟨_, rfl⟩
  obtain ⟨tdc, htdc⟩ : ∃ tdc : tdata, tdc =
      { Data := data, Request := ctx.Request, Session := some (ctx.Session.Delete "_flashes"),
        RData := ctx.Data, Flash := (ctx.Session.Get "_flashes").asStrMap } := ⟨_, rfl⟩
  have hc : ctx.rendertemplate name data
      = (({ ctx with Session := ctx.Session.Delete "_flashes" } : Ctx).Push
          (Deferred.render name tdc), none) := by
    rw [htdc]
    simp only [Ctx.rendertemplate, Ctx.TemplateData, ctx_allflashmessages_eq]
  refine ⟨?_, ?_, ⟨tdc, ?_, ?_⟩, ?_, ?_, ?_⟩
  · have ht : templatedata r data
        = some ({ r with RSession := some (sess.Delete "_flashes") }, td) := by
      rw [htd]
      simp only [templatedata, allflashmessages_eq r sess hr]
    have hrun : ∃ r1 : R,
        rendertemplate r name data
            = some (r1, (r.App.Env.Templator.respond
                ((sess.Delete "_flashes").SessionRelease r.rw) name td).2)
          ∧ r1.rw = (r.App.Env.Templator.respond
                ((sess.Delete "_flashes").SessionRelease r.rw) name td).1
          ∧ r1.RSession = some (sess.Delete "_flashes")
          ∧ r1.App.Env.Templator.calls = r.App.Env.Templator.calls
              ++ [{ seen := r.rw.ResponseWriter.events ++ [Event.released], name := name,
                    td := td }] := by
      simp only [rendertemplate, ht, R.release, Templator.Render]
      exact ⟨_, rfl, rfl, rfl, rfl⟩
    obtain ⟨r1, e1, e2, e3, e4⟩ := hrun
    refine ⟨r1, td, (sess.Delete "_flashes").SessionRelease r.rw, ?_, ?_, ?_, ?_, ?_,
      (SessionStore.Get_Delete _ _).1, rfl, rfl, e1, e2, e3, e4⟩
    · rw [htd]
    · rw [htd]
    · rw [htd]
    · rw [htd]
    · rw [htd]
  · rw [hc]
  · rw [hc]
    rfl
  · rw [htdc]
    exact ⟨rfl, rfl, rfl, rfl, rfl⟩
  · rw [hc]
    rfl
  · rw [hc]
    rfl
  · rw [hc]
    rfl

/-- Witness for C20 (amended): the context whose session holds two flash
messages renders the template `home`. -/
theorem render_after_release_witness :
    (flashR []).RSession = some flashSession
      ∧ (∃ (r1 : R) (td : tdata) (wrel : responseWriter),
        td.Data = Value.str "hi" ∧ td.Request = (flashR []).Request
          ∧ td.RData = (flashR []).RData
          ∧ td.Session = some (flashSession.Delete "_flashes")
          ∧ td.Flash = (flashSession.Get "_flashes").asStrMap
          ∧ (flashSession.Delete "_flashes").Get "_flashes" = Value.nil
          ∧ wrel = (flashSession.Delete "_flashes").SessionRelease (flashR []).rw
          ∧ wrel.ResponseWriter.events
              = (flashR []).rw.ResponseWriter.events ++ [Event.released]
          ∧ rendertemplate (flashR []) "home" (Value.str "hi")
              = some (r1, ((flashR []).App.Env.Templator.respond wrel "home" td).2)
          ∧ r1.rw = ((flashR []).App.Env.Templator.respond wrel "home" td).1
          ∧ r1.RSession = some (flashSession.Delete "_flashes")
          ∧ r1.App.Env.Templator.calls = (flashR []).App.Env.Templator.calls
              ++ [{ seen := (flashR []).rw.ResponseWriter.events ++ [Event.released],
                    name := "home", td := td }]) :=
  ⟨rfl, (render_after_release (flashR []) flashSession rfl flashCtx "home" (Value.str "hi")).1⟩

/-! ## Merging a store into the environment -/

theorem mergeStep_lookup_self (store : Store) (a : String) (v : StoreItem) :
    (mergeStep store ⟨a, v⟩).lookup a = mergedItem (store.lookup a) (some v) := by
  unfold mergeStep mergedItem
  cases hd : v.defaultvalue with
  | true =>
    cases hl : store.lookup a with
    | none => simp [hl, hd]
    | some w => simp [hl, hd]
  | false =>
    cases hl : store.lookup a with
    | none => simp [hl, hd]
    | some w => simp [hl, hd]

theorem mergeStep_lookup_other (store : Store) (a k : String) (v : StoreItem) (h : k ≠ a) :
    (mergeStep store ⟨a, v⟩).lookup k = store.lookup k := by
  unfold mergeStep
  by_cases hd : v.defaultvalue = true
  · simp [hd]
  · by_cases hs : (store.lookup a).isSome = true
    · simp [hd, hs]
    · simp only [hd, hs, Bool.not_false, if_true, if_false, Bool.false_eq_true]
      exact AList.lookup_insert_ne h

theorem mergeStep_foldl (l : List (Sigma (fun _ : String => StoreItem))) :
    l.NodupKeys → ∀ (store : Store) (k : String),
      (l.foldl mergeStep store).lookup k = mergedItem (store.lookup k) (l.dlookup k) := by
  induction l with
  | nil =>
    intro _ store k
    cases h : store.lookup k <;> simp [mergedItem, h]
  | cons kv l ih =>
    intro hnd store k
    obtain ⟨a, v⟩ := kv
    obtain ⟨hnot, hl⟩ := List.nodupKeys_cons.1 hnd
    rw [List.foldl_cons, ih hl]
    by_cases hk : k = a
    · subst hk
      have hnone : l.dlookup k = none := List.dlookup_eq_none.2 hnot
      rw [hnone, List.dlookup_cons_eq, mergeStep_lookup_self]
      cases h : store.lookup k with
      | none =>
        cases hd : v.defaultvalue <;> simp [mergedItem, hd]
      | some w => simp [mergedItem]
    · rw [mergeStep_lookup_other _ _ _ _ hk, List.dlookup_cons_ne _ _ hk]

theorem MergeStore_lookup (env : Env) (s : Store) (k : String) :
    (env.MergeStore s).Store.lookup k = mergedItem (env.Store.lookup k) (s.lookup k) :=
  mergeStep_foldl s.entries s.nodupKeys env.Store k

/-- C21. `MergeStore` merges without replacement: for every store of the
environment and every store `s`, after `MergeStore(s)` every key that was in
the store of the environment maps to the item it had, a key of `s` that was not
in it is present afterwards, with the item of `s`, exactly when that item is not
a default value, and no other key is added; the other fields of the environment
are unchanged. -/
theorem mergestore_without_replacement (env : Env) (s : Store) :
    (∀ k v, env.Store.lookup k = some v → (env.MergeStore s).Store.lookup k = some v)
      ∧ (∀ k v, env.Store.lookup k = none → s.lookup k = some v →
          ((env.MergeStore s).Store.lookup k = some v ↔ v.defaultvalue = false)
            ∧ (k ∈ (env.MergeStore s).Store ↔ v.defaultvalue = false))
      ∧ (∀ k, env.Store.lookup k = none → s.lookup k = none →
          (env.MergeStore s).Store.lookup k = none)
      ∧ (env.MergeStore s).ctxfunctions = env.ctxfunctions
      ∧ (env.MergeStore s).Templator = env.Templator
      ∧ (env.MergeStore s).SessionManager = env.SessionManager := by
  refine ⟨?_, ?_, ?_, rfl, rfl, rfl⟩
  · intro k v h
    rw [MergeStore_lookup, h]
    rfl
  · intro k v h1 h2
    have e : (env.MergeStore s).Store.lookup k = if v.defaultvalue then none else some v := by
      rw [MergeStore_lookup, h1, h2]
      rfl
    refine ⟨?_, ?_⟩
    · rw [e]
      cases v.defaultvalue <;> simp
    · rw [← AList.lookup_isSome, e]
      cases v.defaultvalue <;> simp
  · intro k h1 h2
    rw [MergeStore_lookup, h1, h2]
    rfl

/-- Witness for C21: the environment holds a configured secret and a default
upload size; the merged store brings another secret, a default cookie name and
a configured lifetime. The secret is kept, the lifetime is added, the default
cookie name is not. -/
theorem mergestore_without_replacement_witness :
    (storeEnv.MergeStore otherStore).Store.lookup "SECRET_KEY"
        = some { value := "s3cret", defaultvalue := false }
      ∧ (storeEnv.MergeStore otherStore).Store.lookup "SESSION_LIFETIME"
        = some { value := "60", defaultvalue := false }
      ∧ "SESSION_COOKIENAME" ∉ (storeEnv.MergeStore otherStore).Store
      ∧ (storeEnv.MergeStore otherStore).Store.lookup "MODE" = none :=
  ⟨(mergestore_without_replacement storeEnv otherStore).1 "SECRET_KEY" _ (by decide),
    ((mergestore_without_replacement storeEnv otherStore).2.1 "SESSION_LIFETIME"
      { value := "60", defaultvalue := false } (by decide) (by decide)).1.2 rfl,
    fun h => Bool.noConfusion
      (((mergestore_without_replacement storeEnv otherStore).2.1 "SESSION_COOKIENAME"
        { value := "session", defaultvalue := true } (by decide) (by decide)).2.1 h),
    (mergestore_without_replacement storeEnv otherStore).2.2.1 "MODE" (by decide) (by decide)⟩

/-! ## The range of the chain position -/

theorem steps_append (m : Nat) : ∀ (a : Int) (k : Nat),
    steps a m ++ steps (a + m) k = steps a (m + k) := by
  induction m with
  | zero =>
    intro a k
    simp [steps]
  | succ m ih =>
    intro a k
    have e : m + 1 + k = (m + k) + 1 := by omega
    rw [e]
    simp only [steps, List.cons_append]
    have e2 : a + ((m + 1 : Nat) : Int) = (a + 1) + (m : Int) := by push_cast; ring
    rw [e2, ih]

theorem mem_steps (m : Nat) : ∀ (a p : Int), p ∈ steps a m → a < p ∧ p ≤ a + m := by
  induction m with
  | zero => intro a p h; simp [steps] at h
  | succ m ih =>
    intro a p h
    simp only [steps, List.mem_cons] at h
    rcases h with h | h
    · subst h
      constructor
      · omega
      · push_cast; omega
    · have := ih (a + 1) p h
      constructor
      · omega
      · push_cast; omega

theorem chain_steps (m : Nat) : ∀ a : Int, List.Chain (fun x y => y = x + 1) a (steps a m) := by
  induction m with
  | zero => intro a; exact List.Chain.nil
  | succ m ih => intro a; exact List.Chain.cons rfl (ih (a + 1))

theorem steps_one (a : Int) : steps a 1 = [a + 1] := rfl

theorem at_most_once_split (l : List Op) (h : l.count Op.next ≤ 1) :
    Op.next ∉ l
      ∨ ∃ pre post, l = pre ++ Op.next :: post ∧ Op.next ∉ pre ∧ Op.next ∉ post := by
  by_cases h0 : l.count Op.next = 0
  · exact Or.inl (List.count_eq_zero.1 h0)
  · exact Or.inr (count_one_split l (by omega))

/-- The loop of `Next` from a position inside a chain of at most 63 handlers
that each call `Next()` at most once: it returns, having selected every
remaining handler once and in order, and every assignment to the position was
an increment by one, at most two for each remaining handler. -/
theorem loop_at_most_once (hs : List HandlerFunc) (hn : hs.length ≤ 63)
    (hall : ∀ h ∈ hs, callsNextAtMostOnce h) :
    ∀ k : Nat, k ≤ hs.length → ∀ st : Exec, st.r.handlers = hs → st.r.RData ≠ none →
      st.r.index = ((hs.length - k : Nat) : Int) →
      ∃ (st1 : Exec) (m : Nat),
        Reaches (fun f => forLoop f (int8 hs.length) st) (Outcome.done st1)
          ∧ st1.r.index = st.r.index + m ∧ m ≤ 2 * k
          ∧ (hs.length : Int) ≤ st1.r.index
          ∧ st1.positions = st.positions ++ steps st.r.index m
          ∧ st1.executed = st.executed ++ indexRange (hs.length - k) k
          ∧ st1.r.handlers = hs ∧ st1.r.RData ≠ none := by
  have hs8 : int8 hs.length = (hs.length : Int) := int8_of_range _ (by omega) (by omega)
  intro k
  induction k with
  | zero =>
    intro _ st hh hd hi
    refine ⟨st, 0, Reaches.loop_exit _ _ ?_, by simp, le_refl _, ?_, by simp [steps],
      by simp [indexRange], hh, hd⟩
    · rw [hs8, hi]
      simp
    · rw [hi]
      simp
  | succ k ih =>
    intro hk st hh hd hi
    obtain ⟨i, hik⟩ : ∃ i, i = hs.length - (k + 1) := ⟨_, rfl⟩
    rw [← hik] at hi ⊢
    have hil : i < hs.length := by omega
    have hi1 : hs.length - k = i + 1 := by omega
    have hlt : st.r.index < int8 hs.length := by
      rw [hs8, hi]
      omega
    have hat : handlerAt st.r.handlers st.r.index = some (hs.get ⟨i, hil⟩) := by
      rw [hh, hi]
      exact handlerAt_ofNat hs i hil
    have hone : callsNextAtMostOnce (hs.get ⟨i, hil⟩) := hall _ (List.get_mem hs i hil)
    have ih1 := ih (by omega)
    rw [hi1] at ih1
    have hexe : (st.executed ++ [st.r.index]) ++ indexRange (i + 1) k
        = st.executed ++ indexRange i (k + 1) := by
      rw [hi, indexRange_succ]
      simp
    rcases at_most_once_split _ hone with hno | ⟨pre, post, hsplit, hpre, hpost⟩
    · -- the handler makes no call of Next: the loop goes on at i + 1
      obtain ⟨sa, a1, a2, a3, a4, a5, a6⟩ := invoke_without_next _ hno
        { st with executed := st.executed ++ [st.r.index] } hd
      have hbody : Reaches (fun f => invoke f (hs.get ⟨i, hil⟩)
          { st with executed := st.executed ++ [st.r.index] }) (Outcome.done sa) := by
        have := a6 [] _ (Reaches.invoke_nil sa)
        simpa using this
      have a1i : sa.r.index = (i : Int) := by rw [a1]; exact hi
      have e8 : int8 (sa.r.index + 1) = ((i + 1 : Nat) : Int) := by
        rw [a1i, int8_of_range _ (by omega) (by omega)]
        omega
      obtain ⟨sb, m1, b1, b2, b3, b4, b5, b6, b7, b8⟩ :=
        ih1 (sa.setIndex (int8 (sa.r.index + 1))) (by show sa.r.handlers = hs; rw [a2]; exact hh)
          a3 e8
      refine ⟨sb, m1 + 1, Reaches.loop_done _ _ _ _ _ hlt hat hbody b1, ?_, by omega, b4,
        ?_, ?_, b7, b8⟩
      · rw [b2]
        show int8 (sa.r.index + 1) + (m1 : Int) = st.r.index + ((m1 + 1 : Nat) : Int)
        rw [e8, hi]
        push_cast
        ring
      · rw [b5]
        show (sa.positions ++ [int8 (sa.r.index + 1)]) ++ steps (int8 (sa.r.index + 1)) m1 = _
        rw [a5, e8, hi]
        show (st.positions ++ [((i + 1 : Nat) : Int)]) ++ _ = _
        have e1 : ((i + 1 : Nat) : Int) = (i : Int) + 1 := by push_cast; ring
        rw [e1, List.append_assoc, ← steps_one (i : Int)]
        have e2 : steps ((i : Int) + 1) m1 = steps ((i : Int) + ((1 : Nat) : Int)) m1 := by
          simp
        rw [e2, steps_append, Nat.add_comm 1 m1]
      · rw [b6]
        show sa.executed ++ _ = _
        rw [a4]
        exact hexe
    · -- the handler calls Next once
      obtain ⟨sa, a1, a2, a3, a4, a5, a6⟩ := invoke_without_next pre hpre
        { st with executed := st.executed ++ [st.r.index] } hd
      have a1i : sa.r.index = (i : Int) := by rw [a1]; exact hi
      have e8 : int8 (sa.r.index + 1) = ((i + 1 : Nat) : Int) := by
        rw [a1i, int8_of_range _ (by omega) (by omega)]
        omega
      have hsa : sa.r.handlers = hs := by rw [a2]; exact hh
      obtain ⟨sb, m1, b1, b2, b3, b4, b5, b6, b7, b8⟩ :=
        ih1 (sa.setIndex (int8 (sa.r.index + 1))) hsa a3 e8
      have b2i : sb.r.index = (i : Int) + 1 + m1 := by
        rw [b2]
        show int8 (sa.r.index + 1) + (m1 : Int) = _
        rw [e8]
        push_cast
        ring
      have hnext : Reaches (fun f => Next f sa) (Outcome.done sb) :=
        Reaches.next_in hs _ _ hsa b1
      obtain ⟨sc, c1, c2, c3, c4, c5, c6⟩ := invoke_without_next post hpost sb b8
      have hbody : Reaches (fun f => invoke f (hs.get ⟨i, hil⟩)
          { st with executed := st.executed ++ [st.r.index] }) (Outcome.done sc) := by
        rw [hsplit]
        apply a6
        apply Reaches.invoke_next_done _ _ _ _ hnext
        have := c6 [] _ (Reaches.invoke_nil sc)
        simpa using this
      have c1i : sc.r.index = (i : Int) + 1 + m1 := by rw [c1]; exact b2i
      have e9 : int8 (sc.r.index + 1) = (i : Int) + 1 + m1 + 1 := by
        rw [c1i, int8_of_range _ (by omega) (by omega)]
      have hge : (hs.length : Int) ≤ (i : Int) + 1 + m1 := by rw [← b2i]; exact b4
      refine ⟨sc.setIndex (int8 (sc.r.index + 1)), m1 + 2,
        Reaches.loop_done _ _ _ _ _ hlt hat hbody (Reaches.loop_exit _ _ ?_), ?_, by omega,
        ?_, ?_, ?_, ?_, c3⟩
      · show ¬ int8 (sc.r.index + 1) < int8 hs.length
        rw [e9, hs8]
        omega
      · show int8 (sc.r.index + 1) = st.r.index + ((m1 + 2 : Nat) : Int)
        rw [e9, hi]
        push_cast
        ring
      · show (hs.length : Int) ≤ int8 (sc.r.index + 1)
        rw [e9]
        omega
      · show sc.positions ++ [int8 (sc.r.index + 1)] = _
        rw [c5, b5, e9]
        show ((sa.positions ++ [int8 (sa.r.index + 1)]) ++ steps (int8 (sa.r.index + 1)) m1)
          ++ _ = _
        rw [a5, e8, hi]
        show ((st.positions ++ [((i + 1 : Nat) : Int)]) ++ _) ++ _ = _
        have e1 : ((i + 1 : Nat) : Int) = (i : Int) + 1 := by push_cast; ring
        have e2 : steps ((i : Int) + 1) m1 = steps ((i : Int) + ((1 : Nat) : Int)) m1 := by
          simp
        have e3 : [(i : Int) + 1 + m1 + 1] = steps ((i : Int) + ((1 + m1 : Nat) : Int)) 1 := by
          rw [steps_one]
          push_cast
          ring_nf
        rw [e1, List.append_assoc, List.append_assoc, ← steps_one (i : Int), e3,
          ← List.append_assoc (steps (i : Int) 1), e2, steps_append, steps_append]
        have e4 : 1 + m1 + 1 = m1 + 2 := by omega
        rw [e4]
      · show sc.executed = _
        rw [c4, b6]
        show sa.executed ++ _ = _
        rw [a4]
        exact hexe
      · show sc.r.handlers = hs
        rw [c2, b7]

theorem Reaches.invoke_set_nil (st : Exec) (key : String) (item : Value) (ops : List Op)
    (hs : st.r.Set key item = none) :
    Reaches (fun f => invoke f (Op.set key item :: ops) st) (Outcome.panic st) := by
  refine ⟨by simp, 1, ?_⟩
  intro g hg
  obtain ⟨g1, rfl⟩ : ∃ g1, g = g1 + 1 := ⟨g - 1, by omega⟩
  simp only [invoke, hs]

/-- A handler body without a call of `Next()`, whatever the state of the
per-request store: it leaves the position and both records as they are, and
either runs to its end or panics. -/
theorem invoke_without_next_any (pre : List Op) (hp : Op.next ∉ pre) :
    ∀ st : Exec,
      ∃ st1 : Exec, st1.r.index = st.r.index ∧ st1.r.handlers = st.r.handlers
        ∧ st1.executed = st.executed ∧ st1.positions = st.positions
        ∧ ((∀ rest o, Reaches (fun f => invoke f rest st1) o →
              Reaches (fun f => invoke f (pre ++ rest) st) o)
          ∨ (∀ rest, Reaches (fun f => invoke f (pre ++ rest) st) (Outcome.panic st1))) := by
  induction pre with
  | nil =>
    intro st
    exact ⟨st, rfl, rfl, rfl, rfl, Or.inl (fun _ _ h => h)⟩
  | cons op pre ih =>
    intro st
    have hp1 : Op.next ∉ pre := fun h => hp (List.mem_cons_of_mem _ h)
    cases op with
    | next => exact absurd (List.mem_cons_self _ _) hp
    | abort code =>
      obtain ⟨st1, a1, a2, a4, a5, a6⟩ := ih hp1 { st with r := st.r.Abort code }
      refine ⟨st1, a1, a2, a4, a5, ?_⟩
      rcases a6 with a6 | a6
      · exact Or.inl (fun rest o h => Reaches.invoke_abort _ _ _ _ (a6 rest o h))
      · exact Or.inr (fun rest => Reaches.invoke_abort _ _ _ _ (a6 rest))
    | set key item =>
      cases hdat : st.r.RData with
      | none =>
        have hs : st.r.Set key item = none := by simp [R.Set, hdat]
        exact ⟨st, rfl, rfl, rfl, rfl,
          Or.inr (fun rest => Reaches.invoke_set_nil _ _ _ _ hs)⟩
      | some d =>
        have hs : st.r.Set key item = some { st.r with RData := some (d.insert key item) } := by
          simp [R.Set, hdat]
        obtain ⟨st1, a1, a2, a4, a5, a6⟩ :=
          ih hp1 { st with r := { st.r with RData := some (d.insert key item) } }
        refine ⟨st1, a1, a2, a4, a5, ?_⟩
        rcases a6 with a6 | a6
        · exact Or.inl (fun rest o h => Reaches.invoke_set _ _ _ _ _ _ hs (a6 rest o h))
        · exact Or.inr (fun rest => Reaches.invoke_set _ _ _ _ _ _ hs (a6 rest))

/-- The loop of `Next` from a position inside a chain of at most 63 handlers
that each call `Next()` at most once, whatever the state of the per-request
store: it returns or panics, having selected some of the remaining handlers
once and in order, and every assignment to the position was an increment by
one, at most two for each remaining handler. -/
theorem loop_at_most_once_any (hs : List HandlerFunc) (hn : hs.length ≤ 63)
    (hall : ∀ h ∈ hs, callsNextAtMostOnce h) :
    ∀ k : Nat, k ≤ hs.length → ∀ st : Exec, st.r.handlers = hs →
      st.r.index = ((hs.length - k : Nat) : Int) →
      ∃ (o : Outcome) (st1 : Exec) (m j : Nat),
        ((o = Outcome.done st1 ∧ (hs.length : Int) ≤ st1.r.index) ∨ o = Outcome.panic st1)
          ∧ Reaches (fun f => forLoop f (int8 hs.length) st) o
          ∧ st1.r.index = st.r.index + m ∧ m ≤ 2 * k
          ∧ st1.positions = st.positions ++ steps st.r.index m
          ∧ st1.executed = st.executed ++ indexRange (hs.length - k) j ∧ j ≤ k
          ∧ st1.r.handlers = hs := by
  have hs8 : int8 hs.length = (hs.length : Int) := int8_of_range _ (by omega) (by omega)
  intro k
  induction k with
  | zero =>
    intro _ st hh hi
    refine ⟨Outcome.done st, st, 0, 0, Or.inl ⟨rfl, ?_⟩, Reaches.loop_exit _ _ ?_, by simp,
      le_refl _, by simp [steps], by simp [indexRange], le_refl _, hh⟩
    · rw [hi]
      simp
    · rw [hs8, hi]
      simp
  | succ k ih =>
    intro hk st hh hi
    obtain ⟨i, hik⟩ : ∃ i, i = hs.length - (k + 1) := ⟨_, rfl⟩
    rw [← hik] at hi ⊢
    have hil : i < hs.length := by omega
    have hi1 : hs.length - k = i + 1 := by omega
    have hlt : st.r.index < int8 hs.length := by
      rw [hs8, hi]
      omega
    have hat : handlerAt st.r.handlers st.r.index = some (hs.get ⟨i, hil⟩) := by
      rw [hh, hi]
      exact handlerAt_ofNat hs i hil
    have hone : callsNextAtMostOnce (hs.get ⟨i, hil⟩) := hall _ (List.get_mem hs i hil)
    have ih1 := ih (by omega)
    rw [hi1] at ih1
    have hexe : ∀ j : Nat, (st.executed ++ [st.r.index]) ++ indexRange (i + 1) j
        = st.executed ++ indexRange i (j + 1) := by
      intro j
      rw [hi, indexRange_succ]
      simp
    have e1 : ((i + 1 : Nat) : Int) = (i : Int) + 1 := by push_cast; ring
    -- the handler panics before any call of Next
    have hearly : ∀ sa : Exec, sa.r.index = st.r.index → sa.r.handlers = st.r.handlers →
        sa.executed = st.executed ++ [st.r.index] → sa.positions = st.positions →
        Reaches (fun f => invoke f (hs.get ⟨i, hil⟩)
          { st with executed := st.executed ++ [st.r.index] }) (Outcome.panic sa) →
        ∃ (o : Outcome) (st1 : Exec) (m j : Nat),
          ((o = Outcome.done st1 ∧ (hs.length : Int) ≤ st1.r.index) ∨ o = Outcome.panic st1)
            ∧ Reaches (fun f => forLoop f (int8 hs.length) st) o
            ∧ st1.r.index = (i : Int) + m ∧ m ≤ 2 * (k + 1)
            ∧ st1.positions = st.positions ++ steps (i : Int) m
            ∧ st1.executed = st.executed ++ indexRange i j ∧ j ≤ k + 1
            ∧ st1.r.handlers = hs := by
      intro sa a1 a2 a4 a5 hbody
      refine ⟨Outcome.panic sa, sa, 0, 1, Or.inr rfl,
        Reaches.loop_panic _ _ _ _ hlt hat hbody, ?_, by omega, ?_, ?_, by omega, ?_⟩
      · rw [a1, hi]
        simp
      · rw [a5]
        simp [steps]
      · rw [a4, hi, indexRange_succ]
        simp [indexRange]
      · rw [a2]
        exact hh
    rw [hi]
    rcases at_most_once_split _ hone with hno | ⟨pre, post, hsplit, hpre, hpost⟩
    · -- the handler makes no call of Next
      obtain ⟨sa, a1, a2, a4, a5, a6⟩ := invoke_without_next_any _ hno
        { st with executed := st.executed ++ [st.r.index] }
      rcases a6 with a6 | a6
      · have hbody : Reaches (fun f => invoke f (hs.get ⟨i, hil⟩)
            { st with executed := st.executed ++ [st.r.index] }) (Outcome.done sa) := by
          have := a6 [] _ (Reaches.invoke_nil sa)
          simpa using this
        have a1i : sa.r.index = (i : Int) := by rw [a1]; exact hi
        have e8 : int8 (sa.r.index + 1) = ((i + 1 : Nat) : Int) := by
          rw [a1i, int8_of_range _ (by omega) (by omega)]
          omega
        obtain ⟨o, sb, m1, j1, b0, b1, b2, b3, b5, b6, b7, b8⟩ :=
          ih1 (sa.setIndex (int8 (sa.r.index + 1)))
            (by show sa.r.handlers = hs; rw [a2]; exact hh) e8
        refine ⟨o, sb, m1 + 1, j1 + 1, b0, Reaches.loop_done _ _ _ _ _ hlt hat hbody b1, ?_,
          by omega, ?_, ?_, by omega, b8⟩
        · rw [b2]
          show int8 (sa.r.index + 1) + (m1 : Int) = (i : Int) + ((m1 + 1 : Nat) : Int)
          rw [e8]
          push_cast
          ring
        · rw [b5]
          show (sa.positions ++ [int8 (sa.r.index + 1)]) ++ steps (int8 (sa.r.index + 1)) m1 = _
          rw [a5, e8]
          show (st.positions ++ [((i + 1 : Nat) : Int)]) ++ _ = _
          rw [e1, List.append_assoc, ← steps_one (i : Int)]
          have e2 : steps ((i : Int) + 1) m1 = steps ((i : Int) + ((1 : Nat) : Int)) m1 := by
            simp
          rw [e2, steps_append, Nat.add_comm 1 m1]
        · rw [b6]
          show sa.executed ++ _ = _
          rw [a4]
          exact hexe j1
      · have hbody : Reaches (fun f => invoke f (hs.get ⟨i, hil⟩)
            { st with executed := st.executed ++ [st.r.index] }) (Outcome.panic sa) := by
          have := a6 []
          simpa using this
        exact hearly sa a1 a2 a4 a5 hbody
    · -- the handler calls Next once
      obtain ⟨sa, a1, a2, a4, a5, a6⟩ := invoke_without_next_any pre hpre
        { st with executed := st.executed ++ [st.r.index] }
      rcases a6 with a6 | a6
      · have a1i : sa.r.index = (i : Int) := by rw [a1]; exact hi
        have e8 : int8 (sa.r.index + 1) = ((i + 1 : Nat) : Int) := by
          rw [a1i, int8_of_range _ (by omega) (by omega)]
          omega
        have hsa : sa.r.handlers = hs := by rw [a2]; exact hh
        obtain ⟨o, sb, m1, j1, b0, b1, b2, b3, b5, b6, b7, b8⟩ :=
          ih1 (sa.setIndex (int8 (sa.r.index + 1))) hsa e8
        have b2i : sb.r.index = (i : Int) + 1 + m1 := by
          rw [b2]
          show int8 (sa.r.index + 1) + (m1 : Int) = _
          rw [e8]
          push_cast
          ring
        have hpos : sb.positions = st.positions ++ steps (i : Int) (m1 + 1) := by
          rw [b5]
          show (sa.positions ++ [int8 (sa.r.index + 1)]) ++ steps (int8 (sa.r.index + 1)) m1 = _
          rw [a5, e8]
          show (st.positions ++ [((i + 1 : Nat) : Int)]) ++ _ = _
          rw [e1, List.append_assoc, ← steps_one (i : Int)]
          have e2 : steps ((i : Int) + 1) m1 = steps ((i : Int) + ((1 : Nat) : Int)) m1 := by
            simp
          rw [e2, steps_append, Nat.add_comm 1 m1]
        have hex : sb.executed = st.executed ++ indexRange i (j1 + 1) := by
          rw [b6]
          show sa.executed ++ _ = _
          rw [a4]
          exact hexe j1
        have hnext : Reaches (fun f => Next f sa) o := Reaches.next_in hs _ _ hsa b1
        rcases b0 with ⟨rfl, b4⟩ | rfl
        · -- the nested call of Next returns
          obtain ⟨sc, c1, c2, c4, c5, c6⟩ := invoke_without_next_any post hpost sb
          have c1i : sc.r.index = (i : Int) + 1 + m1 := by rw [c1]; exact b2i
          rcases c6 with c6 | c6
          · have hbody : Reaches (fun f => invoke f (hs.get ⟨i, hil⟩)
                { st with executed := st.executed ++ [st.r.index] }) (Outcome.done sc) := by
              rw [hsplit]
              apply a6
              apply Reaches.invoke_next_done _ _ _ _ hnext
              have := c6 [] _ (Reaches.invoke_nil sc)
              simpa using this
            have e9 : int8 (sc.r.index + 1) = (i : Int) + 1 + m1 + 1 := by
              rw [c1i, int8_of_range _ (by omega) (by omega)]
            have hge : (hs.length : Int) ≤ (i : Int) + 1 + m1 := by rw [← b2i]; exact b4
            refine ⟨Outcome.done (sc.setIndex (int8 (sc.r.index + 1))),
              sc.setIndex (int8 (sc.r.index + 1)), m1 + 2, j1 + 1, Or.inl ⟨rfl, ?_⟩,
              Reaches.loop_done _ _ _ _ _ hlt hat hbody (Reaches.loop_exit _ _ ?_), ?_,
              by omega, ?_, ?_, by omega, ?_⟩
            · show (hs.length : Int) ≤ int8 (sc.r.index + 1)
              rw [e9]
              omega
            · show ¬ int8 (sc.r.index + 1) < int8 hs.length
              rw [e9, hs8]
              omega
            · show int8 (sc.r.index + 1) = (i : Int) + ((m1 + 2 : Nat) : Int)
              rw [e9]
              push_cast
              ring
            · show sc.positions ++ [int8 (sc.r.index + 1)] = _
              rw [c5, hpos, e9]
              have e3 : [(i : Int) + 1 + m1 + 1]
                  = steps ((i : Int) + ((m1 + 1 : Nat) : Int)) 1 := by
                rw [steps_one]
                push_cast
                ring_nf
              rw [e3, List.append_assoc, steps_append]
            · show sc.executed = _
              rw [c4]
              exact hex
            · show sc.r.handlers = hs
              rw [c2]
              exact b8
          · have hbody : Reaches (fun f => invoke f (hs.get ⟨i, hil⟩)
                { st with executed := st.executed ++ [st.r.index] }) (Outcome.panic sc) := by
              rw [hsplit]
              apply a6
              apply Reaches.invoke_next_done _ _ _ _ hnext
              have := c6 []
              simpa using this
            refine ⟨Outcome.panic sc, sc, m1 + 1, j1 + 1, Or.inr rfl,
              Reaches.loop_panic _ _ _ _ hlt hat hbody, ?_, by omega, ?_, ?_, by omega, ?_⟩
            · rw [c1i]
              push_cast
              ring
            · rw [c5]
              exact hpos
            · rw [c4]
              exact hex
            · rw [c2]
              exact b8
        · -- the nested call of Next panics
          have hbody : Reaches (fun f => invoke f (hs.get ⟨i, hil⟩)
              { st with executed := st.executed ++ [st.r.index] }) (Outcome.panic sb) := by
            rw [hsplit]
            apply a6
            exact Reaches.invoke_next_panic _ _ _ hnext
          refine ⟨Outcome.panic sb, sb, m1 + 1, j1 + 1, Or.inr rfl,
            Reaches.loop_panic _ _ _ _ hlt hat hbody, ?_, by omega, hpos, hex, by omega, b8⟩
          rw [b2i]
          push_cast
          ring
      · have hbody : Reaches (fun f => invoke f (hs.get ⟨i, hil⟩)
            { st with executed := st.executed ++ [st.r.index] }) (Outcome.panic sa) := by
          rw [hsplit]
          exact a6 _
        exact hearly sa a1 a2 a4 a5 hbody

theorem mem_indexRange (i k : Nat) (x : Int) (h : x ∈ indexRange i k) :
    (i : Int) ≤ x ∧ x < (i : Int) + k := by
  simp only [indexRange, List.mem_map, List.mem_range'_1] at h
  obtain ⟨j, ⟨h1, h2⟩, rfl⟩ := h
  constructor
  · exact Int.ofNat_le.2 h1
  · have : ((j : Nat) : Int) < ((i + k : Nat) : Int) := Int.ofNat_lt.2 h2
    push_cast at this
    exact this

theorem trace_panic (o : Outcome) (l : List Int) (h : o.trace = some (false, l)) :
    ∃ st, o = Outcome.panic st ∧ st.positions = l := by
  cases o with
  | done st => simp [Outcome.trace] at h
  | panic st =>
    simp only [Outcome.trace, Option.some.injEq, Prod.mk.injEq, true_and] at h
    exact ⟨st, rfl, h⟩
  | outOfFuel => simp [Outcome.trace] at h

set_option maxRecDepth 100000 in
/-- C22. The `int8` chain position cannot wrap for chains within the abort
sentinel: for every chain of at most 63 handlers in which each handler calls
`Next()` at most once, `Next()` started from position -1 ends, by a return or
by a panic of a handler; every value the position took, up to that end, is the
previous one plus one, so the position never decreases; no value exceeds twice
the chain length, which is at most 126; and every index used to select a
handler lies in `[0, chain length)`. When the per-request store is allocated
the run returns and has selected every handler once, in order. Whereas for the
chain of 64 handlers that each call `Next()`, the position goes up to 127 and
the next increment, to 128, does not fit in `int8`: the position becomes -128
and the run panics. -/
theorem position_never_wraps (r : R) (hidx : r.index = -1) (hlen : r.handlers.length ≤ 63)
    (hall : ∀ h ∈ r.handlers, callsNextAtMostOnce h) :
    (∃ (o : Outcome) (st : Exec), (o = Outcome.done st ∨ o = Outcome.panic st)
        ∧ Reaches (fun f => Next f (Exec.start r)) o
        ∧ List.Chain (fun x y => y = x + 1) r.index st.positions
        ∧ List.Chain (fun x y => x ≤ y) r.index st.positions
        ∧ (∀ p ∈ st.positions, r.index < p ∧ p ≤ 2 * (r.handlers.length : Int))
        ∧ st.r.index ≤ 2 * (r.handlers.length : Int)
        ∧ 2 * (r.handlers.length : Int) ≤ 126
        ∧ (∀ i ∈ st.executed, 0 ≤ i ∧ i < (r.handlers.length : Int))
        ∧ (r.RData ≠ none →
            o = Outcome.done st ∧ st.executed = indexRange 0 r.handlers.length))
      ∧ ((∀ h ∈ chain64, callsNextOnce h) ∧ chain64.length = 64
        ∧ ∃ st : Exec,
            Reaches (fun f => Next f (Exec.start (sampleR chain64))) (Outcome.panic st)
              ∧ st.positions = indexRange 0 128 ++ [int8 (127 + 1)]
              ∧ int8 (127 + 1) = -128 ∧ ¬ ((127 : Int) + 1 ≤ 127)) := by
  constructor
  · have e0 : int8 ((Exec.start r).r.index + 1)
        = ((r.handlers.length - r.handlers.length : Nat) : Int) := by
      show int8 (r.index + 1) = _
      rw [hidx]
      simp [int8]
    obtain ⟨o, st, m, j, h0, h1, h2, h3, h5, h6, h7, -⟩ :=
      loop_at_most_once_any r.handlers hlen hall r.handlers.length (le_refl _)
        ((Exec.start r).setIndex (int8 ((Exec.start r).r.index + 1))) rfl e0
    have i0 : int8 (r.index + 1) = 0 := by rw [hidx]; decide
    have hidx2 : st.r.index = (m : Int) := by
      rw [h2]
      show int8 (r.index + 1) + (m : Int) = m
      rw [i0]
      simp
    have hpos : st.positions = steps r.index (m + 1) := by
      rw [h5]
      show ([] ++ [int8 (r.index + 1)]) ++ steps (int8 (r.index + 1)) m = _
      rw [i0, hidx]
      rfl
    have hexe : st.executed = indexRange 0 j := by
      rw [h6]
      simp [Exec.start, Exec.setIndex]
    refine ⟨o, st, ?_, Reaches.of_Next _ _ h1, ?_, ?_, ?_, ?_, by omega, ?_, ?_⟩
    · rcases h0 with ⟨h0, -⟩ | h0
      · exact Or.inl h0
      · exact Or.inr h0
    · rw [hpos]
      exact chain_steps _ _
    · rw [hpos]
      exact List.Chain.imp (fun x y (h : y = x + 1) => by omega) (chain_steps _ _)
    · intro p hp
      rw [hpos] at hp
      have := mem_steps _ _ _ hp
      rw [hidx] at this ⊢
      constructor
      · exact this.1
      · have := this.2
        push_cast at this
        omega
    · rw [hidx2]
      omega
    · intro i hi
      rw [hexe] at hi
      have := mem_indexRange _ _ _ hi
      constructor
      · simpa using this.1
      · have h8 := this.2
        have h9 : ((j : Nat) : Int) ≤ (r.handlers.length : Int) := Int.ofNat_le.2 h7
        push_cast at h8
        omega
    · intro hdata
      obtain ⟨st2, m2, g1, -, -, -, -, g6, -, -⟩ :=
        loop_at_most_once r.handlers hlen hall r.handlers.length (le_refl _)
          ((Exec.start r).setIndex (int8 ((Exec.start r).r.index + 1))) rfl hdata e0
      have ho : o = Outcome.done st2 := Reaches.unique h1 g1
      have hst : st = st2 := by
        rcases h0 with ⟨h0, -⟩ | h0
        · rw [h0] at ho
          exact Outcome.done.inj ho
        · rw [h0] at ho
          exact absurd ho (by simp)
      refine ⟨by rw [ho, hst], ?_⟩
      rw [hst, g6]
      simp [Exec.start, Exec.setIndex]
  · have hev : (Next 200 (Exec.start (sampleR chain64))).trace
        = some (false, indexRange 0 128 ++ [int8 (127 + 1)]) := by decide!
    obtain ⟨st, h1, h2⟩ := trace_panic _ _ hev
    refine ⟨?_, rfl, st, Reaches.of_run _ _ _ h1 (by simp), h2, by decide, by decide⟩
    intro h hm
    have : h = [Op.next] := List.eq_of_mem_replicate hm
    rw [this]
    simp [callsNextOnce]

/-- Witness for C22: a chain of three handlers of which the second does not
call `Next()`. -/
theorem position_never_wraps_witness :
    ∃ (o : Outcome) (st : Exec), (o = Outcome.done st ∨ o = Outcome.panic st)
      ∧ Reaches (fun f => Next f (Exec.start (sampleR mixedChain))) o
      ∧ List.Chain (fun x y => y = x + 1) (sampleR mixedChain).index st.positions
      ∧ List.Chain (fun x y => x ≤ y) (sampleR mixedChain).index st.positions
      ∧ (∀ p ∈ st.positions, (sampleR mixedChain).index < p
          ∧ p ≤ 2 * ((sampleR mixedChain).handlers.length : Int))
      ∧ st.r.index ≤ 2 * ((sampleR mixedChain).handlers.length : Int)
      ∧ 2 * ((sampleR mixedChain).handlers.length : Int) ≤ 126
      ∧ (∀ i ∈ st.executed, 0 ≤ i ∧ i < ((sampleR mixedChain).handlers.length : Int))
      ∧ ((sampleR mixedChain).RData ≠ none →
          o = Outcome.done st
            ∧ st.executed = indexRange 0 (sampleR mixedChain).handlers.length) :=
  (position_never_wraps (sampleR mixedChain) rfl (by decide)
    (by
      intro h hm
      simp only [sampleR, mixedChain, List.mem_cons, List.mem_singleton, List.not_mem_nil,
        or_false] at hm
      rcases hm with rfl | rfl | rfl <;> simp [callsNextAtMostOnce])).1

end Flotilla
